import Mathlib

/-!
# aushape: the EXECVE record collector (`lib/conv/execve_coll.c`)

A shallow embedding of the collector that reassembles the argument list of an
`execve` audit event, and theorems about it.

Conventions of the embedding:

* a C string is a `List Char`, one `Char` per C `char`; `strlen` is `List.length`,
  a `NULL` pointer returned by auparse is `none`;
* `size_t` counters are natural numbers. Their increments and sums are bounded by the
  number of fields and characters consumed and are not reduced modulo `2^64`;
  `SIZE_MAX` is `2^64 - 1` and enters where a number is read from text (`sscanf` with
  `%zu`, modelled as the C library converts it), the one place where a short input can
  go beyond the range;
* a C function that updates the collector in place and returns an `aushape_rc` is a
  function to `aushape_rc × aushape_conv_execve_coll`: the collector returned with an
  error code is the collector as the C code leaves it at `cleanup:`.
-/

namespace Aushape

/-! ## Return codes, format, growing buffer -/

/-- Return codes used by the converter (`enum aushape_rc`); the specification calls
`NOMEM` OutOfMemory, `CONV_AUPARSE_FAILED` SourceReadFailed and
`CONV_INVALID_EXECVE` InvalidSequence. -/
inductive aushape_rc where
  | OK
  | INVALID_ARGS
  | NOMEM
  | CONV_AUPARSE_FAILED
  | CONV_INVALID_EXECVE
  deriving DecidableEq, Repr

/-- Output language (`enum aushape_lang`), restricted to the two values a valid format
can hold. -/
inductive aushape_lang where
  | XML
  | JSON
  deriving DecidableEq, Repr

/-- Modelled from the spec: the format configuration `struct aushape_format`, whose
declaration is not among the sources. Fields as the specification lists them, named as
the code reads them (`format.lang`, `format.fold_level`, `format.events_per_doc`). -/
structure aushape_format where
  lang : aushape_lang
  fold_level : Nat
  events_per_doc : Bool
  indent_unit : List Char
  deriving DecidableEq, Repr

/-- Modelled from the spec: the growable text buffer `struct aushape_gbuf` (its
implementation, gbuf.c, is not among the sources). `ptr` is the text held (`len` is its
length). Growth can fail: `room = some c` says that the buffer cannot grow beyond `c`
characters, `room = none` that allocation never fails. -/
structure aushape_gbuf where
  ptr : List Char
  room : Option Nat
  deriving DecidableEq, Repr

/-- Modelled from the spec: `aushape_gbuf_is_valid`. -/
def aushape_gbuf_is_valid (gbuf : aushape_gbuf) : Bool :=
  match gbuf.room with
  | none => true
  | some c => decide (gbuf.ptr.length ≤ c)

/-- Modelled from the spec: `aushape_gbuf_add_buf`, append text; `none` stands for the
C function returning `false` (allocation failed), the buffer being left as it was. -/
def aushape_gbuf_add_buf (gbuf : aushape_gbuf) (text : List Char) : Option aushape_gbuf :=
  match gbuf.room with
  | none => some { gbuf with ptr := gbuf.ptr ++ text }
  | some c =>
    if gbuf.ptr.length + text.length ≤ c then some { gbuf with ptr := gbuf.ptr ++ text }
    else none

/-- Modelled from the spec: `aushape_gbuf_add_str`. -/
def aushape_gbuf_add_str (gbuf : aushape_gbuf) (str : String) : Option aushape_gbuf :=
  aushape_gbuf_add_buf gbuf str.toList

/-- Modelled from the spec: `aushape_gbuf_add_char`. -/
def aushape_gbuf_add_char (gbuf : aushape_gbuf) (c : Char) : Option aushape_gbuf :=
  aushape_gbuf_add_buf gbuf [c]

/-- Modelled from the spec: `aushape_gbuf_empty`, truncate without deallocating. -/
def aushape_gbuf_empty (gbuf : aushape_gbuf) : aushape_gbuf :=
  { gbuf with ptr := [] }

/-- Modelled from the spec: the escaping done by `aushape_gbuf_add_str_xml` /
`aushape_gbuf_add_buf_xml` and `aushape_gbuf_add_str_json` / `aushape_gbuf_add_buf_json`
(gbuf.c is not among the sources). The two escaping functions are left open: the
theorems hold for all of them. -/
structure aushape_escaping where
  xml : List Char → List Char
  json : List Char → List Char

/-- Modelled from the spec: `aushape_gbuf_add_str_xml` / `aushape_gbuf_add_buf_xml`. -/
def aushape_gbuf_add_str_xml (E : aushape_escaping) (gbuf : aushape_gbuf)
    (str : List Char) : Option aushape_gbuf :=
  aushape_gbuf_add_buf gbuf (E.xml str)

/-- Modelled from the spec: `aushape_gbuf_add_str_json` / `aushape_gbuf_add_buf_json`. -/
def aushape_gbuf_add_str_json (E : aushape_escaping) (gbuf : aushape_gbuf)
    (str : List Char) : Option aushape_gbuf :=
  aushape_gbuf_add_buf gbuf (E.json str)

/-- Modelled from the spec: the text placed before a construct at nesting `level`:
a newline and `level` copies of the indentation unit if `level < fold_level`, nothing
otherwise. -/
def fold_space (format : aushape_format) (level : Nat) : List Char :=
  if level < format.fold_level then
    '\n' :: (List.replicate level format.indent_unit).flatten
  else []

/-- Modelled from the spec: `aushape_gbuf_space_opening`. -/
def aushape_gbuf_space_opening (gbuf : aushape_gbuf) (format : aushape_format)
    (level : Nat) : Option aushape_gbuf :=
  aushape_gbuf_add_buf gbuf (fold_space format level)

/-- Modelled from the spec: `aushape_gbuf_space_closing` (same rule, used before
closing a construct). -/
def aushape_gbuf_space_closing (gbuf : aushape_gbuf) (format : aushape_format)
    (level : Nat) : Option aushape_gbuf :=
  aushape_gbuf_add_buf gbuf (fold_space format level)

/-! ## The audit source (auparse) -/

/-- An audit field as auparse presents it: `auparse_get_field_name`,
`auparse_get_field_str` (raw value) and `auparse_interpret_field` (interpreted value),
each of which may return `NULL`. -/
structure au_field where
  name : Option (List Char)
  str : Option (List Char)
  interp : Option (List Char)
  deriving DecidableEq, Repr

/-- An audit record as auparse presents it: `auparse_get_record_text` and the fields
walked by `auparse_first_field` / `auparse_next_field`. -/
structure au_record where
  text : Option (List Char)
  fields : List au_field
  deriving DecidableEq, Repr

/-! ## Reading numbers with `sscanf` -/

/-- Largest value of `size_t`. -/
def SIZE_MAX : Nat := 2 ^ 64 - 1

/-- C `isspace` in the "C" locale. -/
def isspace (c : Char) : Bool :=
  c = ' ' || c = '\t' || c = '\n' || c = '\x0b' || c = '\x0c' || c = '\r'

/-- Value of a decimal digit. -/
def digit_val (c : Char) : Nat := c.toNat - 48

/-- Value of a string of decimal digits. -/
def decimal_val (ds : List Char) : Nat :=
  ds.foldl (fun acc c => 10 * acc + digit_val c) 0

/-- The `size_t` stored for a digit string of value `v` read with an optional minus
sign, as `strtoul` converts it: out of range gives `SIZE_MAX`, a minus sign negates in
unsigned arithmetic. -/
def strtoul_val (neg : Bool) (v : Nat) : Nat :=
  if v > SIZE_MAX then SIZE_MAX
  else if neg then (SIZE_MAX + 1 - v) % (SIZE_MAX + 1)
  else v

/-- The conversion `%zu` of `sscanf`: skip white space, read an optional sign and then
one or more decimal digits. Gives the number stored and the rest of the input, or
`none` on a matching failure. -/
def scan_zu (s : List Char) : Option (Nat × List Char) :=
  let s1 := s.dropWhile isspace
  let neg := decide (s1.head? = some '-')
  let s2 := if s1.head? = some '-' ∨ s1.head? = some '+' then s1.tail else s1
  let ds := s2.takeWhile Char.isDigit
  if ds = [] then none else some (strtoul_val neg (decimal_val ds), s2.dropWhile Char.isDigit)

/-- The test `sscanf(str, "%zu%n", &num, &end) >= 1 && (size_t)end == strlen(str)`;
gives `num` when it holds. -/
def sscanf_zu (str : List Char) : Option Nat :=
  match scan_zu str with
  | some (num, []) => some num
  | _ => none

/-- The test `sscanf(field_name, "a%zu%n", &arg_idx, &end) >= 1 &&
(size_t)end == strlen(field_name)`; gives `arg_idx` when it holds. -/
def sscanf_a_zu (field_name : List Char) : Option Nat :=
  match field_name with
  | 'a' :: t => sscanf_zu t
  | _ => none

/-- The test `sscanf(field_name, "a%zu_len%n", &arg_idx, &end) >= 1 &&
(size_t)end == strlen(field_name)`; gives `arg_idx` when it holds. `end` is only set
when the literal `_len` has been matched. -/
def sscanf_a_zu_len (field_name : List Char) : Option Nat :=
  match field_name with
  | 'a' :: t =>
    match scan_zu t with
    | some (arg_idx, rest) => if rest = "_len".toList then some arg_idx else none
    | none => none
  | _ => none

/-- The test `sscanf(field_name, "a%zu[%zu]%n", &arg_idx, &slice_idx, &end) >= 2 &&
(size_t)end == strlen(field_name)`; gives `arg_idx` and `slice_idx` when it holds. -/
def sscanf_a_zu_slice (field_name : List Char) : Option (Nat × Nat) :=
  match field_name with
  | 'a' :: t =>
    match scan_zu t with
    | some (arg_idx, '[' :: t2) =>
      match scan_zu t2 with
      | some (slice_idx, [']']) => some (arg_idx, slice_idx)
      | _ => none
    | _ => none
  | _ => none

/-! ## The collector -/

/-- The collector `struct aushape_conv_execve_coll`. Of the base collector `coll` it
keeps `format` (`coll->format`) and `gbuf`, the shared output buffer `coll->gbuf`
points to. -/
structure aushape_conv_execve_coll where
  format : aushape_format
  gbuf : aushape_gbuf
  raw : aushape_gbuf
  args : aushape_gbuf
  arg_num : Nat
  arg_idx : Nat
  got_len : Bool
  slice_idx : Nat
  len_total : Nat
  len_read : Nat
  deriving DecidableEq, Repr

/-- The validity check `aushape_conv_execve_coll_is_valid`. -/
def aushape_conv_execve_coll_is_valid (execve_coll : aushape_conv_execve_coll) : Bool :=
  aushape_gbuf_is_valid execve_coll.raw &&
  aushape_gbuf_is_valid execve_coll.args &&
  decide (execve_coll.arg_idx ≤ execve_coll.arg_num) &&
  (execve_coll.got_len ||
    (decide (execve_coll.slice_idx = 0) && decide (execve_coll.len_total = 0))) &&
  decide (execve_coll.len_read ≤ execve_coll.len_total)

/-- The emptiness check `aushape_conv_execve_coll_is_empty`. -/
def aushape_conv_execve_coll_is_empty (execve_coll : aushape_conv_execve_coll) : Bool :=
  decide (execve_coll.arg_num = 0)

/-- The reset `aushape_conv_execve_coll_empty`. -/
def aushape_conv_execve_coll_empty (execve_coll : aushape_conv_execve_coll) :
    aushape_conv_execve_coll :=
  { execve_coll with
    raw := aushape_gbuf_empty execve_coll.raw
    args := aushape_gbuf_empty execve_coll.args
    arg_num := 0
    arg_idx := 0
    got_len := false
    len_total := 0
    len_read := 0 }

/-- The statement `GUARD_BOOL(NOMEM, aushape_gbuf_...(&execve_coll->args, ...))`: `r` is
the outcome of the buffer operation on `args`; on failure the function leaves with
`NOMEM`, otherwise it goes on (`k`) with the grown buffer. -/
def guard_args (coll : aushape_conv_execve_coll) (r : Option aushape_gbuf)
    (k : aushape_conv_execve_coll → aushape_rc × aushape_conv_execve_coll) :
    aushape_rc × aushape_conv_execve_coll :=
  match r with
  | none => (aushape_rc.NOMEM, coll)
  | some g => k { coll with args := g }

/-- The statement `GUARD_BOOL(NOMEM, aushape_gbuf_...(&execve_coll->raw, ...))`. -/
def guard_raw (coll : aushape_conv_execve_coll) (r : Option aushape_gbuf)
    (k : aushape_conv_execve_coll → aushape_rc × aushape_conv_execve_coll) :
    aushape_rc × aushape_conv_execve_coll :=
  match r with
  | none => (aushape_rc.NOMEM, coll)
  | some g => k { coll with raw := g }

/-- The statement `GUARD_BOOL(NOMEM, aushape_gbuf_...(gbuf, ...))` on the shared output
buffer. -/
def guard_gbuf (coll : aushape_conv_execve_coll) (r : Option aushape_gbuf)
    (k : aushape_conv_execve_coll → aushape_rc × aushape_conv_execve_coll) :
    aushape_rc × aushape_conv_execve_coll :=
  match r with
  | none => (aushape_rc.NOMEM, coll)
  | some g => k { coll with gbuf := g }

/-- The statement `GUARD(rc_expr)`, also written `rc = ...; if (rc != AUSHAPE_RC_OK)
goto cleanup;`: `r` is the outcome of the call; unless it is `OK` the function leaves
with it, otherwise it goes on (`k`). -/
def guard_rc (r : aushape_rc × aushape_conv_execve_coll)
    (k : aushape_conv_execve_coll → aushape_rc × aushape_conv_execve_coll) :
    aushape_rc × aushape_conv_execve_coll :=
  match r with
  | (aushape_rc.OK, coll) => k coll
  | (rc, coll) => (rc, coll)

/-- Process the `argc` field: `aushape_conv_execve_coll_add_argc`. -/
def aushape_conv_execve_coll_add_argc (coll : aushape_conv_execve_coll) (_level : Nat)
    (au : au_field) : aushape_rc × aushape_conv_execve_coll :=
  if coll.arg_num ≠ 0 then (aushape_rc.CONV_INVALID_EXECVE, coll)
  else
    match au.str with
    | none => (aushape_rc.CONV_AUPARSE_FAILED, coll)
    | some str =>
      match sscanf_zu str with
      | none => (aushape_rc.CONV_INVALID_EXECVE, coll)
      | some num => (aushape_rc.OK, { coll with arg_num := num })

/-- Add the markup of one argument string: `aushape_conv_execve_coll_add_arg_str`. -/
def aushape_conv_execve_coll_add_arg_str (E : aushape_escaping)
    (coll : aushape_conv_execve_coll) (level : Nat) (str : List Char) :
    aushape_rc × aushape_conv_execve_coll :=
  match coll.format.lang with
  | aushape_lang.XML =>
    guard_args coll (aushape_gbuf_space_opening coll.args coll.format level) fun coll =>
    guard_args coll (aushape_gbuf_add_str coll.args "<a i=\"") fun coll =>
    guard_args coll (aushape_gbuf_add_str_xml E coll.args str) fun coll =>
    guard_args coll (aushape_gbuf_add_str coll.args "\"/>") fun coll =>
    (aushape_rc.OK, { coll with arg_idx := coll.arg_idx + 1 })
  | aushape_lang.JSON =>
    guard_args coll
      (if coll.arg_idx > 0 then aushape_gbuf_add_char coll.args ',' else some coll.args)
      fun coll =>
    guard_args coll (aushape_gbuf_space_opening coll.args coll.format level) fun coll =>
    guard_args coll (aushape_gbuf_add_str coll.args "\"") fun coll =>
    guard_args coll (aushape_gbuf_add_str_json E coll.args str) fun coll =>
    guard_args coll (aushape_gbuf_add_str coll.args "\"") fun coll =>
    (aushape_rc.OK, { coll with arg_idx := coll.arg_idx + 1 })

/-- The loop `while (execve_coll->arg_idx < arg_idx) { rc = ..._add_arg_str(coll, level,
""); if (rc != AUSHAPE_RC_OK) goto cleanup; }` ("Add skipped empty arguments"), followed
by `k` when the loop is left normally. The first argument bounds the number of
iterations; `target - coll.arg_idx` is always enough (theorem `add_skipped_exit`). -/
def add_skipped (E : aushape_escaping) (level : Nat) (target : Nat) :
    Nat → aushape_conv_execve_coll → aushape_rc × aushape_conv_execve_coll
  | 0, coll => (aushape_rc.OK, coll)
  | fuel + 1, coll =>
    if coll.arg_idx < target then
      guard_rc (aushape_conv_execve_coll_add_arg_str E coll level [])
        fun coll => add_skipped E level target fuel coll
    else (aushape_rc.OK, coll)

/-- Process a whole argument field `a<N>`: `aushape_conv_execve_coll_add_arg`. -/
def aushape_conv_execve_coll_add_arg (E : aushape_escaping)
    (coll : aushape_conv_execve_coll) (level : Nat) (arg_idx : Nat) (au : au_field) :
    aushape_rc × aushape_conv_execve_coll :=
  if ¬ (arg_idx ≥ coll.arg_idx ∧ arg_idx < coll.arg_num) then
    (aushape_rc.CONV_INVALID_EXECVE, coll)
  else
    guard_rc (add_skipped E level arg_idx (arg_idx - coll.arg_idx) coll) fun coll =>
    match au.interp with
    | none => (aushape_rc.CONV_AUPARSE_FAILED, coll)
    | some str => aushape_conv_execve_coll_add_arg_str E coll level str

/-- Process an argument length field `a<N>_len`:
`aushape_conv_execve_coll_add_arg_len`. -/
def aushape_conv_execve_coll_add_arg_len (E : aushape_escaping)
    (coll : aushape_conv_execve_coll) (level : Nat) (arg_idx : Nat) (au : au_field) :
    aushape_rc × aushape_conv_execve_coll :=
  if ¬ (arg_idx ≥ coll.arg_idx ∧ arg_idx < coll.arg_num ∧ coll.got_len = false) then
    (aushape_rc.CONV_INVALID_EXECVE, coll)
  else
    guard_rc (add_skipped E level arg_idx (arg_idx - coll.arg_idx) coll) fun coll =>
    let coll := { coll with got_len := true }
    match au.str with
    | none => (aushape_rc.CONV_AUPARSE_FAILED, coll)
    | some str =>
      match sscanf_zu str with
      | none => (aushape_rc.CONV_INVALID_EXECVE, coll)
      | some num => (aushape_rc.OK, { coll with len_total := num })

/-- The length of a slice counted towards `len_read`:
`len = (int_len == raw_len / 2) ? raw_len : int_len`. -/
def slice_len (raw_len int_len : Nat) : Nat :=
  if int_len = raw_len / 2 then raw_len else int_len

/-- The part "If we are starting a new argument: begin argument markup" of
`aushape_conv_execve_coll_add_arg_slice`, followed by `k`: each append is guarded on
its own, so that on `NOMEM` the argument buffer holds what was appended before. -/
def add_arg_slice_begin (coll : aushape_conv_execve_coll) (level slice_idx : Nat)
    (k : aushape_conv_execve_coll → aushape_rc × aushape_conv_execve_coll) :
    aushape_rc × aushape_conv_execve_coll :=
  if slice_idx = 0 then
    match coll.format.lang with
    | aushape_lang.XML =>
      guard_args coll (aushape_gbuf_space_opening coll.args coll.format level)
        fun coll =>
      guard_args coll (aushape_gbuf_add_str coll.args "<a i=\"") fun coll =>
      k coll
    | aushape_lang.JSON =>
      -- if it's not the first argument in the record
      guard_args coll
        (if coll.arg_idx > 0 then aushape_gbuf_add_char coll.args ',' else some coll.args)
        fun coll =>
      guard_args coll (aushape_gbuf_space_opening coll.args coll.format level)
        fun coll =>
      guard_args coll (aushape_gbuf_add_char coll.args '"') fun coll =>
      k coll
  else k coll

/-- Process an argument slice field `a<N>[<K>]`:
`aushape_conv_execve_coll_add_arg_slice`. -/
def aushape_conv_execve_coll_add_arg_slice (E : aushape_escaping)
    (coll : aushape_conv_execve_coll) (level : Nat) (arg_idx slice_idx : Nat)
    (au : au_field) : aushape_rc × aushape_conv_execve_coll :=
  if ¬ (arg_idx = coll.arg_idx ∧ arg_idx < coll.arg_num ∧ coll.got_len = true ∧
        slice_idx = coll.slice_idx) then
    (aushape_rc.CONV_INVALID_EXECVE, coll)
  else
    match au.str with
    | none => (aushape_rc.CONV_AUPARSE_FAILED, coll)
    | some raw_str =>
      match au.interp with
      | none => (aushape_rc.CONV_AUPARSE_FAILED, coll)
      | some int_str =>
        let len := slice_len raw_str.length int_str.length
        if ¬ (coll.len_read + len ≤ coll.len_total) then
          (aushape_rc.CONV_INVALID_EXECVE, coll)
        else
          -- begin argument markup, if we are starting a new argument
          add_arg_slice_begin coll level slice_idx fun coll =>
          -- add the slice
          guard_args coll
            (match coll.format.lang with
             | aushape_lang.XML => aushape_gbuf_add_str_xml E coll.args int_str
             | aushape_lang.JSON => aushape_gbuf_add_str_json E coll.args int_str)
            fun coll =>
          let coll := { coll with len_read := coll.len_read + len }
          if coll.len_read = coll.len_total then
            -- end argument markup
            guard_args coll
              (match coll.format.lang with
               | aushape_lang.XML => aushape_gbuf_add_str coll.args "\"/>"
               | aushape_lang.JSON => aushape_gbuf_add_char coll.args '"')
              fun coll =>
            (aushape_rc.OK,
              { coll with
                got_len := false
                slice_idx := 0
                len_total := 0
                len_read := 0
                arg_idx := coll.arg_idx + 1 })
          else
            (aushape_rc.OK, { coll with slice_idx := coll.slice_idx + 1 })

/-- The body of the loop over the fields of a record in `aushape_conv_execve_coll_add`:
the field name is read and the field is handed to its handler, the tests being made
in the order of the source. -/
def add_field (E : aushape_escaping) (l : Nat) (au : au_field)
    (coll : aushape_conv_execve_coll) : aushape_rc × aushape_conv_execve_coll :=
  match au.name with
  | none => (aushape_rc.CONV_AUPARSE_FAILED, coll)
  | some field_name =>
    if field_name = "type".toList then (aushape_rc.OK, coll)
    else if field_name = "node".toList then (aushape_rc.OK, coll)
    else if field_name = "argc".toList then aushape_conv_execve_coll_add_argc coll l au
    else
      match sscanf_a_zu field_name with
      | some arg_idx => aushape_conv_execve_coll_add_arg E coll l arg_idx au
      | none =>
        match sscanf_a_zu_len field_name with
        | some arg_idx => aushape_conv_execve_coll_add_arg_len E coll l arg_idx au
        | none =>
          match sscanf_a_zu_slice field_name with
          | some (arg_idx, slice_idx) =>
            aushape_conv_execve_coll_add_arg_slice E coll l arg_idx slice_idx au
          | none => (aushape_rc.CONV_INVALID_EXECVE, coll)

/-- The loop `do { ... } while (auparse_next_field(au) > 0)` of
`aushape_conv_execve_coll_add` over the fields from the current one on; it is left at
the first field whose handling does not return `OK`. -/
def add_fields (E : aushape_escaping) (l : Nat) :
    List au_field → aushape_conv_execve_coll → aushape_rc × aushape_conv_execve_coll
  | [], coll => (aushape_rc.OK, coll)
  | au :: rest, coll =>
    guard_rc (add_field E l au coll) fun coll => add_fields E l rest coll

/-- The nesting level at which `aushape_conv_execve_coll_add` renders arguments:
`l++` for XML, `l+=2` for JSON. -/
def arg_level (format : aushape_format) (level : Nat) : Nat :=
  match format.lang with
  | aushape_lang.XML => level + 1
  | aushape_lang.JSON => level + 2

/-- Consume one record: `aushape_conv_execve_coll_add` (`pfirst` is not used by it). -/
def aushape_conv_execve_coll_add (E : aushape_escaping) (coll : aushape_conv_execve_coll)
    (level : Nat) (au : au_record) : aushape_rc × aushape_conv_execve_coll :=
  let l := arg_level coll.format level
  guard_raw coll
    (if coll.arg_idx > 0 then aushape_gbuf_add_char coll.raw '\n' else some coll.raw)
    fun coll =>
  match au.text with
  | none => (aushape_rc.CONV_AUPARSE_FAILED, coll)
  | some raw =>
    guard_raw coll (aushape_gbuf_add_buf coll.raw raw) fun coll =>
    match au.fields with
    | [] => (aushape_rc.CONV_INVALID_EXECVE, coll)
    | first_field :: rest => add_fields E l (first_field :: rest) coll

/-- The records of one event handed to the collector one after the other, as the event
assembler does (`do { rc = aushape_conv_coll_add(...); if (rc != AUSHAPE_RC_OK) return
rc; } while (auparse_next_record(au) > 0)`). -/
def add_records (E : aushape_escaping) (level : Nat) :
    List au_record → aushape_conv_execve_coll → aushape_rc × aushape_conv_execve_coll
  | [], coll => (aushape_rc.OK, coll)
  | au :: rest, coll =>
    guard_rc (aushape_conv_execve_coll_add E coll level au)
      fun coll => add_records E level rest coll

/-- The part of `aushape_conv_execve_coll_end` after the prologue: the skipped empty
arguments are added, then the arguments and the epilogue are output. -/
def end_arguments (E : aushape_escaping) (level : Nat)
    (coll : aushape_conv_execve_coll) : aushape_rc × aushape_conv_execve_coll :=
  -- add skipped empty arguments
  guard_rc (add_skipped E (arg_level coll.format level) coll.arg_num
    (coll.arg_num - coll.arg_idx) coll) fun coll =>
  -- output arguments
  guard_gbuf coll (aushape_gbuf_add_buf coll.gbuf coll.args.ptr) fun coll =>
  -- output epilogue
  match coll.format.lang with
  | aushape_lang.XML =>
    guard_gbuf coll (aushape_gbuf_space_closing coll.gbuf coll.format level) fun coll =>
    guard_gbuf coll (aushape_gbuf_add_str coll.gbuf "</execve>") fun coll =>
    (aushape_rc.OK, coll)
  | aushape_lang.JSON =>
    guard_gbuf coll
      (if coll.args.ptr.length > 0 then
        aushape_gbuf_space_closing coll.gbuf coll.format (level + 1)
       else some coll.gbuf) fun coll =>
    guard_gbuf coll (aushape_gbuf_add_char coll.gbuf ']') fun coll =>
    guard_gbuf coll (aushape_gbuf_space_closing coll.gbuf coll.format level) fun coll =>
    guard_gbuf coll (aushape_gbuf_add_char coll.gbuf '\x7d') fun coll =>
    (aushape_rc.OK, coll)

/-- The return code and the collector on return from `aushape_conv_execve_coll_end`. -/
def end_run (E : aushape_escaping) (coll : aushape_conv_execve_coll) (level : Nat)
    (pfirst : Bool) : aushape_rc × aushape_conv_execve_coll :=
  -- output prologue
  match coll.format.lang with
  | aushape_lang.XML =>
    guard_gbuf coll (aushape_gbuf_space_opening coll.gbuf coll.format level) fun coll =>
    guard_gbuf coll (aushape_gbuf_add_str coll.gbuf "<execve raw=\"") fun coll =>
    guard_gbuf coll (aushape_gbuf_add_str_xml E coll.gbuf coll.raw.ptr) fun coll =>
    guard_gbuf coll (aushape_gbuf_add_str coll.gbuf "\">") fun coll =>
    end_arguments E level coll
  | aushape_lang.JSON =>
    guard_gbuf coll
      (if ¬ pfirst then aushape_gbuf_add_char coll.gbuf ',' else some coll.gbuf)
      fun coll =>
    guard_gbuf coll (aushape_gbuf_space_opening coll.gbuf coll.format level) fun coll =>
    guard_gbuf coll (aushape_gbuf_add_str coll.gbuf "\"execve\":\x7b") fun coll =>
    guard_gbuf coll (aushape_gbuf_space_opening coll.gbuf coll.format (level + 1))
      fun coll =>
    guard_gbuf coll (aushape_gbuf_add_str coll.gbuf "\"raw\":\"") fun coll =>
    guard_gbuf coll (aushape_gbuf_add_str_json E coll.gbuf coll.raw.ptr) fun coll =>
    guard_gbuf coll (aushape_gbuf_add_str coll.gbuf "\",") fun coll =>
    guard_gbuf coll (aushape_gbuf_space_opening coll.gbuf coll.format (level + 1))
      fun coll =>
    guard_gbuf coll (aushape_gbuf_add_str coll.gbuf "\"args\":[") fun coll =>
    end_arguments E level coll

/-- Finalize the event: `aushape_conv_execve_coll_end`. The third component of the
result is `*pfirst` on return: it is set to `false` just before the function returns
`OK` and left alone on the error paths. -/
def aushape_conv_execve_coll_end (E : aushape_escaping) (coll : aushape_conv_execve_coll)
    (level : Nat) (pfirst : Bool) : aushape_rc × aushape_conv_execve_coll × Bool :=
  let r := end_run E coll level pfirst
  (r.1, r.2, if r.1 = aushape_rc.OK then false else pfirst)

/-- One event through the collector: its records are consumed in order and, if none
of them fails, the event is finalized, as the event assembler does through the
dispatching collector. -/
def execve_event (E : aushape_escaping) (coll : aushape_conv_execve_coll) (level : Nat)
    (pfirst : Bool) (recs : List au_record) :
    aushape_rc × aushape_conv_execve_coll × Bool :=
  match add_records E level recs coll with
  | (aushape_rc.OK, coll1) => aushape_conv_execve_coll_end E coll1 level pfirst
  | (rc, coll1) => (rc, coll1, pfirst)

/-! ## Rendering of an argument list

What the argument buffer holds for a given list of arguments. An argument is given by
its pieces (one piece for a whole argument, the slices for a sliced one); each piece is
escaped on its own, as the collector receives them one by one. -/

/-- The collector with `text` appended to its argument buffer. -/
def push_args (coll : aushape_conv_execve_coll) (text : List Char) :
    aushape_conv_execve_coll :=
  { coll with args := { coll.args with ptr := coll.args.ptr ++ text } }

/-- Opening markup of the argument with index `idx`. -/
def arg_open (format : aushape_format) (level idx : Nat) : List Char :=
  match format.lang with
  | aushape_lang.XML => fold_space format level ++ "<a i=\"".toList
  | aushape_lang.JSON =>
    (if idx > 0 then [','] else []) ++ fold_space format level ++ "\"".toList

/-- Markup terminator of an argument. -/
def arg_close (format : aushape_format) : List Char :=
  match format.lang with
  | aushape_lang.XML => "\"/>".toList
  | aushape_lang.JSON => "\"".toList

/-- Escaping of a string in the language of the format. -/
def escape (E : aushape_escaping) (format : aushape_format) (str : List Char) :
    List Char :=
  match format.lang with
  | aushape_lang.XML => E.xml str
  | aushape_lang.JSON => E.json str

/-- Markup of the argument with index `idx` made of the given pieces. -/
def arg_markup (E : aushape_escaping) (format : aushape_format) (level idx : Nat)
    (pieces : List (List Char)) : List Char :=
  arg_open format level idx ++ (pieces.map (escape E format)).flatten ++ arg_close format

/-- Markup of consecutive arguments, the first of which has index `start`. -/
def args_markup (E : aushape_escaping) (format : aushape_format) (level : Nat) :
    Nat → List (List (List Char)) → List Char
  | _, [] => []
  | start, pieces :: rest =>
    arg_markup E format level start pieces ++ args_markup E format level (start + 1) rest

/-- The text that an accepted slice with slice index `K` and interpreted value
`int_str` adds to the argument buffer: the opening markup first if `K = 0`, the
terminator last if the slice completes the argument. -/
def slice_text (E : aushape_escaping) (format : aushape_format) (level idx K : Nat)
    (int_str : List Char) (closing : Bool) : List Char :=
  (if K = 0 then arg_open format level idx else []) ++ escape E format int_str ++
    (if closing then arg_close format else [])

/-- The collector after a slice with slice index `K`, interpreted value `int_str` and
counted length `len` has been accepted. -/
def slice_accept (E : aushape_escaping) (coll : aushape_conv_execve_coll)
    (level K : Nat) (int_str : List Char) (len : Nat) : aushape_conv_execve_coll :=
  if coll.len_read + len = coll.len_total then
    { push_args coll (slice_text E coll.format level coll.arg_idx K int_str true) with
      got_len := false
      slice_idx := 0
      len_total := 0
      len_read := 0
      arg_idx := coll.arg_idx + 1 }
  else
    { push_args coll (slice_text E coll.format level coll.arg_idx K int_str false) with
      len_read := coll.len_read + len
      slice_idx := coll.slice_idx + 1 }

/-! ## Kinds of fields -/

/-- What a field is to `aushape_conv_execve_coll_add`, which goes by the name of the
field. -/
inductive field_kind where
  /-- The name of the field cannot be read. -/
  | unreadable
  /-- The fields `type` and `node`, which are skipped. -/
  | skipped
  /-- The field `argc`. -/
  | argc
  /-- A whole argument, `a<N>`. -/
  | arg (arg_idx : Nat)
  /-- The length of an argument, `a<N>_len`. -/
  | arg_len (arg_idx : Nat)
  /-- A slice of an argument, `a<N>[<K>]`. -/
  | arg_slice (arg_idx slice_idx : Nat)
  /-- Any other name. -/
  | unknown
  deriving DecidableEq, Repr

/-- The kind of a field: the tests of `aushape_conv_execve_coll_add` on the field
name, in the order of the source. -/
def au_field.kind (au : au_field) : field_kind :=
  match au.name with
  | none => field_kind.unreadable
  | some field_name =>
    if field_name = "type".toList then field_kind.skipped
    else if field_name = "node".toList then field_kind.skipped
    else if field_name = "argc".toList then field_kind.argc
    else
      match sscanf_a_zu field_name with
      | some arg_idx => field_kind.arg arg_idx
      | none =>
        match sscanf_a_zu_len field_name with
        | some arg_idx => field_kind.arg_len arg_idx
        | none =>
          match sscanf_a_zu_slice field_name with
          | some (arg_idx, slice_idx) => field_kind.arg_slice arg_idx slice_idx
          | none => field_kind.unknown

/-- The collector with its raw log buffer replaced. -/
def set_raw (raw : aushape_gbuf) (coll : aushape_conv_execve_coll) :
    aushape_conv_execve_coll :=
  { coll with raw := raw }

/-- An outcome with the raw log buffer of its collector replaced. -/
def map_raw (raw : aushape_gbuf) (r : aushape_rc × aushape_conv_execve_coll) :
    aushape_rc × aushape_conv_execve_coll :=
  (r.1, set_raw raw r.2)

/-! ## Notions used to state the theorems -/

/-- The string `v` is a bare unsigned decimal integer of value `n`: one or more decimal
digits and nothing else. -/
def bare_decimal (v : List Char) (n : Nat) : Prop :=
  v ≠ [] ∧ (∀ c ∈ v, c.isDigit = true) ∧ decimal_val v = n

/-- A collector as it is created: every counter zero, the buffers empty and without a
bound on their growth. -/
def coll_zero (format : aushape_format) : aushape_conv_execve_coll :=
  { format := format
    gbuf := { ptr := [], room := none }
    raw := { ptr := [], room := none }
    args := { ptr := [], room := none }
    arg_num := 0
    arg_idx := 0
    got_len := false
    slice_idx := 0
    len_total := 0
    len_read := 0 }

/-- Escaping that leaves every string as it is, used in examples. -/
def escaping_id : aushape_escaping :=
  { xml := fun str => str, json := fun str => str }

/-- The format JSON with fold level 0, used in examples. -/
def format_json0 : aushape_format :=
  { lang := aushape_lang.JSON, fold_level := 0, events_per_doc := true, indent_unit := [' '] }

/-- A field given by its name, its raw value and its interpreted value. -/
def field_of (name str interp : String) : au_field :=
  { name := some name.toList, str := some str.toList, interp := some interp.toList }

/-- The record `argc=2 a0=/bin/ls a1_len=4 a1[0]=2f74` of the specification, the slice
being interpreted as `/t`. -/
def record_ls : au_record :=
  { text := some "type=EXECVE argc=2 a0=/bin/ls a1_len=4 a1[0]=2f74".toList
    fields := [field_of "argc" "2" "2", field_of "a0" "/bin/ls" "/bin/ls",
               field_of "a1_len" "4" "4", field_of "a1[0]" "2f74" "/t"] }

/-- The conditions under which a slice `a<N>[<K>]` of counted length `len` is taken:
the tests of `aushape_conv_execve_coll_add_arg_slice`. -/
def slice_guard (coll : aushape_conv_execve_coll) (N K len : Nat) : Prop :=
  N = coll.arg_idx ∧ N < coll.arg_num ∧ coll.got_len = true ∧ K = coll.slice_idx ∧
    coll.len_read + len ≤ coll.len_total

instance (coll : aushape_conv_execve_coll) (N K len : Nat) :
    Decidable (slice_guard coll N K len) := by
  unfold slice_guard
  infer_instance

/-- The collector with `text` appended to the shared output buffer. -/
def push_gbuf (coll : aushape_conv_execve_coll) (text : List Char) :
    aushape_conv_execve_coll :=
  { coll with gbuf := { coll.gbuf with ptr := coll.gbuf.ptr ++ text } }

/-- The text `aushape_conv_execve_coll_end` outputs before the arguments. -/
def end_prologue (E : aushape_escaping) (format : aushape_format) (level : Nat)
    (pfirst : Bool) (raw : List Char) : List Char :=
  match format.lang with
  | aushape_lang.XML =>
    fold_space format level ++ "<execve raw=\"".toList ++ E.xml raw ++ "\">".toList
  | aushape_lang.JSON =>
    (if pfirst then [] else [',']) ++ fold_space format level ++
      "\"execve\":\x7b".toList ++ fold_space format (level + 1) ++ "\"raw\":\"".toList ++
      E.json raw ++ "\",".toList ++ fold_space format (level + 1) ++ "\"args\":[".toList

/-- The text `aushape_conv_execve_coll_end` outputs after the arguments `args`. -/
def end_epilogue (format : aushape_format) (level : Nat) (args : List Char) : List Char :=
  match format.lang with
  | aushape_lang.XML => fold_space format level ++ "</execve>".toList
  | aushape_lang.JSON =>
    (if args.length > 0 then fold_space format (level + 1) else []) ++ [']'] ++
      fold_space format level ++ ['\x7d']

/-- The collector after `aushape_conv_execve_coll_end` has returned `OK`: the arguments
not yet seen have been added empty and the whole has been output. -/
def end_result (E : aushape_escaping) (coll : aushape_conv_execve_coll) (level : Nat)
    (pfirst : Bool) : aushape_conv_execve_coll :=
  let args := coll.args.ptr ++
    args_markup E coll.format (arg_level coll.format level) coll.arg_idx
      (List.replicate (coll.arg_num - coll.arg_idx) [[]])
  { coll with
    args := { coll.args with ptr := args }
    arg_idx := coll.arg_num
    gbuf := { coll.gbuf with
      ptr := coll.gbuf.ptr ++ (end_prologue E coll.format level pfirst coll.raw.ptr ++
        args ++ end_epilogue coll.format level args) } }

/-- The field is a slice of an argument, `a<N>[<K>]`. -/
def au_field.is_slice (au : au_field) : Bool :=
  match au.kind with
  | field_kind.arg_slice _ _ => true
  | _ => false

/-- The field is the length of an argument, `a<N>_len`. -/
def au_field.is_len (au : au_field) : Bool :=
  match au.kind with
  | field_kind.arg_len _ => true
  | _ => false

/-- The field is a whole argument, `a<N>`. -/
def au_field.is_arg (au : au_field) : Bool :=
  match au.kind with
  | field_kind.arg _ => true
  | _ => false

/-- The slice index `K` in the name of a slice field `a<N>[<K>]`. -/
def au_field.slice_no (au : au_field) : Nat :=
  match au.kind with
  | field_kind.arg_slice _ slice_idx => slice_idx
  | _ => 0

/-- The argument index `N` in the name of a field `a<N>`, `a<N>_len` or `a<N>[<K>]`. -/
def au_field.arg_no (au : au_field) : Nat :=
  match au.kind with
  | field_kind.arg arg_idx => arg_idx
  | field_kind.arg_len arg_idx => arg_idx
  | field_kind.arg_slice arg_idx _ => arg_idx
  | _ => 0

/-- The length counted for a slice field, from the lengths of its raw and of its
interpreted value. -/
def au_field.counted (au : au_field) : Nat :=
  match au.str, au.interp with
  | some raw_str, some int_str => slice_len raw_str.length int_str.length
  | _, _ => 0

/-- The slice fields among the given fields, in order. -/
def slices_of (fs : List au_field) : List au_field :=
  fs.filter fun g => g.is_slice

/-- The fields `pre` handled so far end with a length field `flen` of value `L`
followed by fields `mid` none of which is a length field, and the collector `c` keeps
the account of the slices in `mid`: `len_total` is `L`, the slices have the slice
indices `0, 1, ...` up to `slice_idx` (excluded) and their counted lengths add up to
`len_read`; if moreover `mid` holds no whole argument, `arg_idx` is the index `N` of
the length field and every slice carries it. -/
def open_since (pre : List au_field) (c : aushape_conv_execve_coll) : Prop :=
  ∃ (pre0 : List au_field) (flen : au_field) (mid : List au_field) (N L : Nat)
    (v : List Char),
    pre = pre0 ++ flen :: mid ∧ flen.kind = field_kind.arg_len N ∧ flen.str = some v ∧
    sscanf_zu v = some L ∧ (∀ g ∈ mid, g.is_len = false) ∧ c.len_total = L ∧
    (slices_of mid).map (fun g => g.slice_no) = List.range c.slice_idx ∧
    ((slices_of mid).map fun g => g.counted).sum = c.len_read ∧
    ((∀ g ∈ mid, g.is_arg = false) →
      c.arg_idx = N ∧ ∀ g ∈ slices_of mid, g.arg_no = N)

/-! ## How an event supplies its arguments -/

/-- How an event supplies one argument index: not at all, as a whole argument (the
field `a<N>`), or as a length field `a<N>_len` followed by slice fields. -/
inductive supply where
  | omitted
  | whole (au : au_field)
  | sliced (len : au_field) (slices : List au_field)

/-- The fields by which an argument is supplied, in order. -/
def supply.fields : supply → List au_field
  | supply.omitted => []
  | supply.whole au => [au]
  | supply.sliced len slices => len :: slices

/-- The value supplied for an argument, as the pieces it arrives in: the interpreted
value of the whole argument, the interpreted values of the slices, or the empty string
for an omitted argument. -/
def supply.pieces : supply → List (List Char)
  | supply.omitted => [[]]
  | supply.whole au => [au.interp.getD []]
  | supply.sliced _ slices => slices.map fun g => g.interp.getD []

/-- The fields are slices of the argument `N` with the slice indices `k`, `k + 1`,
... in order. -/
def slices_wf (N : Nat) : Nat → List au_field → Prop
  | _, [] => True
  | k, g :: rest => g.kind = field_kind.arg_slice N k ∧ slices_wf N (k + 1) rest

/-- The supply is one for the argument index `N`: an omission, the field `a<N>`, or
the field `a<N>_len` followed by complete slices: at least one slice, the slices
numbered from 0, and their counted lengths adding up to the length declared. -/
def supply.wf (N : Nat) : supply → Prop
  | supply.omitted => True
  | supply.whole au => au.kind = field_kind.arg N
  | supply.sliced len slices =>
    len.kind = field_kind.arg_len N ∧ slices ≠ [] ∧ slices_wf N 0 slices ∧
    len.str.bind sscanf_zu = some (slices.map fun g => g.counted).sum

/-- The supplies are for the argument indices `start`, `start + 1`, ... in order. -/
def supplies_wf : Nat → List supply → Prop
  | _, [] => True
  | start, s :: rest => s.wf start ∧ supplies_wf (start + 1) rest

/-- The field is not one of the skipped fields `type` and `node`. -/
def au_field.is_handled (au : au_field) : Bool :=
  decide (au.kind ≠ field_kind.skipped)

/-- A record whose sliced argument is not complete: `argc=1 a0_len=4 a0[0]=ab`, the
slice being two characters long. -/
def record_cut : au_record :=
  { text := some "type=EXECVE argc=1 a0_len=4 a0[0]=ab".toList
    fields := [field_of "argc" "1" "1", field_of "a0_len" "4" "4",
               field_of "a0[0]" "ab" "ab"] }
/-- The format XML with fold level 0, used in examples. -/
def format_xml0 : aushape_format :=
  { lang := aushape_lang.XML, fold_level := 0, events_per_doc := true, indent_unit := [' '] }

/-- The conditions on the counters in `aushape_conv_execve_coll_is_valid`:
`arg_idx <= arg_num`, `got_len || (slice_idx == 0 && len_total == 0)` and
`len_read <= len_total`. -/
def counters_valid (c : aushape_conv_execve_coll) : Prop :=
  c.arg_idx ≤ c.arg_num ∧ (c.got_len = false → c.slice_idx = 0 ∧ c.len_total = 0) ∧
  c.len_read ≤ c.len_total

/-- The collector `c1` differs from `c` at most in the argument buffer and in
`arg_idx`, and its argument buffer is valid if that of `c` is. -/
def arg_frame (c c1 : aushape_conv_execve_coll) : Prop :=
  c1.raw = c.raw ∧ c1.arg_num = c.arg_num ∧ c1.got_len = c.got_len ∧
  c1.slice_idx = c.slice_idx ∧ c1.len_total = c.len_total ∧ c1.len_read = c.len_read ∧
  (aushape_gbuf_is_valid c.args = true → aushape_gbuf_is_valid c1.args = true)

/-- The outcome `r` of an operation on the buffer `g` is, when the operation succeeds,
a valid buffer if `g` is one. -/
def grows (g : aushape_gbuf) (r : Option aushape_gbuf) : Prop :=
  ∀ g1, r = some g1 → aushape_gbuf_is_valid g = true → aushape_gbuf_is_valid g1 = true

/-! ## The event assembler (buf.c) -/

/-- The identification of an event, `au_event_t`, as `auparse_get_timestamp` returns
it: `sec`, `milli`, `serial` and `host` (`none` for `NULL`). -/
structure au_event where
  sec : Int
  milli : Nat
  serial : Nat
  host : Option (List Char)
  deriving DecidableEq, Repr

/-- The audit source positioned on an event, as `aushape_conv_buf_add_event` reads it:
`auparse_get_timestamp` (`none` for `NULL`) and the records that
`auparse_first_record` and `auparse_next_record` go through (`auparse_first_record(au)
<= 0` when there is none). `ρ` is what a collector reads of a record. -/
structure auparse_state (ρ : Type) where
  timestamp : Option au_event
  records : List ρ

/-- The C library calls made on the time of an event: the text that
`strftime(time_buf, sizeof(time_buf), "%Y-%m-%dT%H:%M:%S", tm)` and
`strftime(zone_buf, sizeof(zone_buf), "%z", tm)` leave in their buffers for
`tm = localtime(&e->sec)`. They depend on the time zone of the process and are left
open. -/
structure libc_time where
  time_buf : Int → List Char
  zone_buf : Int → List Char

/-- The conversion `%lu` of `printf`. -/
def fmt_lu (n : Nat) : List Char :=
  Nat.toDigits 10 n

/-- The conversion `%03u` of `printf`: the decimal digits, padded with zeros on the
left to three characters. -/
def fmt_03u (n : Nat) : List Char :=
  List.replicate (3 - (Nat.toDigits 10 n).length) '0' ++ Nat.toDigits 10 n

/-- The text left in `timestamp_buf` by `snprintf(timestamp_buf, sizeof(timestamp_buf),
"%s.%03u%.3s:%s", time_buf, e->milli, zone_buf, zone_buf + 3)`, the buffer holding 64
characters with the terminator. -/
def timestamp_buf (T : libc_time) (e : au_event) : List Char :=
  (T.time_buf e.sec ++ '.' :: fmt_03u e.milli ++ (T.zone_buf e.sec).take 3 ++
    ':' :: (T.zone_buf e.sec).drop 3).take 63

/-- Modelled from the spec: `aushape_gbuf_add_fmt`, given the text that the format
produces. -/
def aushape_gbuf_add_fmt (gbuf : aushape_gbuf) (text : List Char) : Option aushape_gbuf :=
  aushape_gbuf_add_buf gbuf text

/-- Modelled from the spec: the collector of a converter buffer (`buf->coll`, the
dispatching collector that `aushape_conv_buf_init` creates; coll.c and disp_coll.c are
not among the sources). `σ` is the state of the collector. `coll_add` stands for
`aushape_conv_coll_add(coll, level, &first, au)` and `coll_end` for
`aushape_conv_coll_end(coll, level, &first)`: they work on the state of the collector
and on the output buffer it shares with the converter buffer, and give the return
code, the state, the output buffer and `*first` on return. -/
structure aushape_conv_coll (σ ρ : Type) where
  coll_add : σ → aushape_gbuf → Nat → Bool → ρ → aushape_rc × σ × aushape_gbuf × Bool
  coll_end : σ → aushape_gbuf → Nat → Bool → aushape_rc × σ × aushape_gbuf × Bool

/-- The converter output buffer `struct aushape_conv_buf`: the format, the output
buffer and the state of the collector. -/
structure aushape_conv_buf (σ : Type) where
  format : aushape_format
  gbuf : aushape_gbuf
  coll : σ

/-- The macro `GUARD_RC(_expr)` of buf.c on an operation on `buf->gbuf`: "return
AUSHAPE_RC_NOMEM if it is false". -/
def buf_guard_rc {σ : Type} (buf : aushape_conv_buf σ) (r : Option aushape_gbuf)
    (k : aushape_conv_buf σ → aushape_rc × aushape_conv_buf σ) :
    aushape_rc × aushape_conv_buf σ :=
  match r with
  | none => (aushape_rc.NOMEM, buf)
  | some g => k { buf with gbuf := g }

/-- The macro `GUARD_BOOL(_expr)` of buf.c on an operation on `buf->gbuf`: "return
false if it is false". In a function that returns `enum aushape_rc`, `false` is the
value 0, taken here to be `AUSHAPE_RC_OK`, the code of success (the declaration of the
enumeration, rc.h, is not among the sources). -/
def buf_guard_bool {σ : Type} (buf : aushape_conv_buf σ) (r : Option aushape_gbuf)
    (k : aushape_conv_buf σ → aushape_rc × aushape_conv_buf σ) :
    aushape_rc × aushape_conv_buf σ :=
  match r with
  | none => (aushape_rc.OK, buf)
  | some g => k { buf with gbuf := g }

/-- The part "Output event header" of `aushape_conv_buf_add_event`, followed by `k`,
which is given the value of `l` at the end of the part. -/
def add_event_header {σ : Type} (E : aushape_escaping) (buf : aushape_conv_buf σ)
    (first : Bool) (l : Nat) (e : au_event) (timestamp_buf : List Char)
    (k : Nat → aushape_conv_buf σ → aushape_rc × aushape_conv_buf σ) :
    aushape_rc × aushape_conv_buf σ :=
  match buf.format.lang with
  | aushape_lang.XML =>
    buf_guard_rc buf (aushape_gbuf_space_opening buf.gbuf buf.format l) fun buf =>
    buf_guard_rc buf (aushape_gbuf_add_fmt buf.gbuf
      ("<event serial=\"".toList ++ fmt_lu e.serial ++ "\" time=\"".toList ++
        timestamp_buf ++ "\"".toList)) fun buf =>
    let close := fun (buf : aushape_conv_buf σ) =>
      buf_guard_rc buf (aushape_gbuf_add_str buf.gbuf ">") fun buf => k l buf
    match e.host with
    | some host =>
      buf_guard_rc buf (aushape_gbuf_add_str buf.gbuf " host=\"") fun buf =>
      buf_guard_rc buf (aushape_gbuf_add_str_xml E buf.gbuf host) fun buf =>
      buf_guard_rc buf (aushape_gbuf_add_str buf.gbuf "\"") fun buf =>
      close buf
    | none => close buf
  | aushape_lang.JSON =>
    buf_guard_bool buf
      (if ¬ first then aushape_gbuf_add_char buf.gbuf ',' else some buf.gbuf) fun buf =>
    buf_guard_rc buf (aushape_gbuf_space_opening buf.gbuf buf.format l) fun buf =>
    buf_guard_rc buf (aushape_gbuf_add_char buf.gbuf '\x7b') fun buf =>
    let l := l + 1
    buf_guard_rc buf (aushape_gbuf_space_opening buf.gbuf buf.format l) fun buf =>
    buf_guard_rc buf (aushape_gbuf_add_fmt buf.gbuf
      ("\"serial\":".toList ++ fmt_lu e.serial ++ ",".toList)) fun buf =>
    buf_guard_rc buf (aushape_gbuf_space_opening buf.gbuf buf.format l) fun buf =>
    buf_guard_rc buf (aushape_gbuf_add_fmt buf.gbuf
      ("\"time\":\"".toList ++ timestamp_buf ++ "\",".toList)) fun buf =>
    let close := fun (buf : aushape_conv_buf σ) =>
      buf_guard_rc buf (aushape_gbuf_space_opening buf.gbuf buf.format l) fun buf =>
      buf_guard_rc buf (aushape_gbuf_add_str buf.gbuf "\"records\":\x7b") fun buf =>
      k l buf
    match e.host with
    | some host =>
      buf_guard_rc buf (aushape_gbuf_space_opening buf.gbuf buf.format l) fun buf =>
      buf_guard_rc buf (aushape_gbuf_add_str buf.gbuf "\"host\":\"") fun buf =>
      buf_guard_rc buf (aushape_gbuf_add_str_json E buf.gbuf host) fun buf =>
      buf_guard_rc buf (aushape_gbuf_add_str buf.gbuf "\",") fun buf =>
      close buf
    | none => close buf

/-- The loop `do { rc = aushape_conv_coll_add(buf->coll, l, &first_record, au); if (rc
!= AUSHAPE_RC_OK) return rc; } while (auparse_next_record(au) > 0)` over the records
from the current one on. -/
def coll_add_records {σ ρ : Type} (C : aushape_conv_coll σ ρ) (l : Nat) :
    List ρ → σ → aushape_gbuf → Bool → aushape_rc × σ × aushape_gbuf × Bool
  | [], s, g, first_record => (aushape_rc.OK, s, g, first_record)
  | r :: rest, s, g, first_record =>
    match C.coll_add s g l first_record r with
    | (aushape_rc.OK, s1, g1, f1) => coll_add_records C l rest s1 g1 f1
    | (rc, s1, g1, f1) => (rc, s1, g1, f1)

/-- The part "Terminate event" of `aushape_conv_buf_add_event`, `l` being the level
after `l--`. -/
def add_event_footer {σ : Type} (buf : aushape_conv_buf σ) (l : Nat)
    (first_record : Bool) : aushape_rc × aushape_conv_buf σ :=
  match buf.format.lang with
  | aushape_lang.XML =>
    buf_guard_rc buf (aushape_gbuf_space_closing buf.gbuf buf.format l) fun buf =>
    buf_guard_rc buf (aushape_gbuf_add_str buf.gbuf "</event>") fun buf =>
    (aushape_rc.OK, buf)
  | aushape_lang.JSON =>
    buf_guard_rc buf
      (if ¬ first_record then aushape_gbuf_space_closing buf.gbuf buf.format l
       else some buf.gbuf) fun buf =>
    buf_guard_rc buf (aushape_gbuf_add_char buf.gbuf '\x7d') fun buf =>
    let l := l - 1
    buf_guard_rc buf (aushape_gbuf_space_closing buf.gbuf buf.format l) fun buf =>
    buf_guard_rc buf (aushape_gbuf_add_char buf.gbuf '\x7d') fun buf =>
    (aushape_rc.OK, buf)

/-- Add an event to the converter output buffer: `aushape_conv_buf_add_event`. The
result is the return code and the buffer as the function leaves it. -/
def aushape_conv_buf_add_event {σ ρ : Type} (E : aushape_escaping) (T : libc_time)
    (C : aushape_conv_coll σ ρ) (buf : aushape_conv_buf σ) (first : Bool)
    (au : auparse_state ρ) : aushape_rc × aushape_conv_buf σ :=
  let level : Nat := if buf.format.events_per_doc != false then 1 else 0
  let l := level
  match au.timestamp with
  | none => (aushape_rc.CONV_AUPARSE_FAILED, buf)
  | some e =>
    -- format timestamp
    let timestamp_buf := timestamp_buf T e
    -- output event header
    add_event_header E buf first l e timestamp_buf fun l buf =>
    -- output records
    let l := l + 1
    match au.records with
    | [] => (aushape_rc.CONV_AUPARSE_FAILED, buf)
    | r :: rest =>
      match coll_add_records C l (r :: rest) buf.coll buf.gbuf true with
      | (aushape_rc.OK, s1, g1, first_record) =>
        -- make sure the record sequence is complete and added, if any
        match C.coll_end s1 g1 l first_record with
        | (aushape_rc.OK, s2, g2, first_record) =>
          -- terminate event
          let l := l - 1
          add_event_footer { buf with gbuf := g2, coll := s2 } l first_record
        | (rc, s2, g2, _) => (rc, { buf with gbuf := g2, coll := s2 })
      | (rc, s1, g1, _) => (rc, { buf with gbuf := g1, coll := s1 })

/-- Add the document prologue: `aushape_conv_buf_add_prologue`. -/
def aushape_conv_buf_add_prologue {σ : Type} (buf : aushape_conv_buf σ) :
    aushape_rc × aushape_conv_buf σ :=
  buf_guard_rc buf (aushape_gbuf_space_opening buf.gbuf buf.format 0) fun buf =>
  match buf.format.lang with
  | aushape_lang.XML =>
    buf_guard_rc buf (aushape_gbuf_add_str buf.gbuf
      "<?xml version=\"1.0\" encoding=\"UTF-8\"?>") fun buf =>
    -- if level zero is unfolded, which is special for XML
    buf_guard_rc buf
      (if buf.format.fold_level > 0 then aushape_gbuf_add_char buf.gbuf '\n'
       else some buf.gbuf) fun buf =>
    buf_guard_rc buf (aushape_gbuf_space_opening buf.gbuf buf.format 0) fun buf =>
    buf_guard_rc buf (aushape_gbuf_add_str buf.gbuf "<log>") fun buf =>
    (aushape_rc.OK, buf)
  | aushape_lang.JSON =>
    buf_guard_rc buf (aushape_gbuf_add_char buf.gbuf '[') fun buf =>
    (aushape_rc.OK, buf)

/-- Add the document epilogue: `aushape_conv_buf_add_epilogue`. -/
def aushape_conv_buf_add_epilogue {σ : Type} (buf : aushape_conv_buf σ) :
    aushape_rc × aushape_conv_buf σ :=
  buf_guard_rc buf (aushape_gbuf_space_closing buf.gbuf buf.format 0) fun buf =>
  match buf.format.lang with
  | aushape_lang.XML =>
    buf_guard_rc buf (aushape_gbuf_add_str buf.gbuf "</log>") fun buf =>
    (aushape_rc.OK, buf)
  | aushape_lang.JSON =>
    buf_guard_rc buf (aushape_gbuf_add_char buf.gbuf ']') fun buf =>
    (aushape_rc.OK, buf)

/-! ## Notions used to state the theorems on the event assembler -/

/-- The records of an event through the collector, then its end, as
`aushape_conv_buf_add_event` calls them. -/
def coll_run {σ ρ : Type} (C : aushape_conv_coll σ ρ) (l : Nat) (recs : List ρ) (s : σ)
    (g : aushape_gbuf) : aushape_rc × σ × aushape_gbuf × Bool :=
  match coll_add_records C l recs s g true with
  | (aushape_rc.OK, s1, g1, first_record) => C.coll_end s1 g1 l first_record
  | r => r

/-- The text of the header of an event placed at nesting level `level`. -/
def event_header (E : aushape_escaping) (format : aushape_format) (first : Bool)
    (level : Nat) (e : au_event) (ts : List Char) : List Char :=
  match format.lang with
  | aushape_lang.XML =>
    fold_space format level ++ "<event serial=\"".toList ++ fmt_lu e.serial ++
    "\" time=\"".toList ++ ts ++ "\"".toList ++
    (match e.host with
     | some host => " host=\"".toList ++ E.xml host ++ "\"".toList
     | none => []) ++ ">".toList
  | aushape_lang.JSON =>
    (if first then [] else [',']) ++ fold_space format level ++ "\x7b".toList ++
    fold_space format (level + 1) ++ "\"serial\":".toList ++ fmt_lu e.serial ++
    ",".toList ++
    fold_space format (level + 1) ++ "\"time\":\"".toList ++ ts ++ "\",".toList ++
    (match e.host with
     | some host =>
       fold_space format (level + 1) ++ "\"host\":\"".toList ++ E.json host ++
       "\",".toList
     | none => []) ++
    fold_space format (level + 1) ++ "\"records\":\x7b".toList

/-- The nesting level given to the collector for an event placed at `level`. -/
def records_level (format : aushape_format) (level : Nat) : Nat :=
  match format.lang with
  | aushape_lang.XML => level + 1
  | aushape_lang.JSON => level + 2

/-- The text of the footer of an event placed at nesting level `level`; `first_record`
is the flag that the collector leaves. -/
def event_footer (format : aushape_format) (level : Nat) (first_record : Bool) :
    List Char :=
  match format.lang with
  | aushape_lang.XML => fold_space format level ++ "</event>".toList
  | aushape_lang.JSON =>
    (if first_record then [] else fold_space format (level + 1)) ++ "\x7d".toList ++
    fold_space format level ++ "\x7d".toList

/-- The text of an event without folding, as the specification gives it: serial `N`,
timestamp `TS`, optional host and collector output `R`. -/
def event_text (E : aushape_escaping) (lang : aushape_lang) (first : Bool)
    (e : au_event) (ts : List Char) (R : List Char) : List Char :=
  match lang with
  | aushape_lang.XML =>
    "<event serial=\"".toList ++ fmt_lu e.serial ++ "\" time=\"".toList ++ ts ++
    "\"".toList ++
    (match e.host with
     | some host => " host=\"".toList ++ E.xml host ++ "\"".toList
     | none => []) ++ ">".toList ++ R ++ "</event>".toList
  | aushape_lang.JSON =>
    (if first then [] else [',']) ++ "\x7b\"serial\":".toList ++ fmt_lu e.serial ++
    ",\"time\":\"".toList ++ ts ++ "\",".toList ++
    (match e.host with
     | some host => "\"host\":\"".toList ++ E.json host ++ "\",".toList
     | none => []) ++ "\"records\":\x7b".toList ++ R ++ "\x7d\x7d".toList

/-- A collector made of the EXECVE collector alone, used in examples: every record is
given to `aushape_conv_execve_coll_add`, the end is `aushape_conv_execve_coll_end`. -/
def execve_only (E : aushape_escaping) :
    aushape_conv_coll aushape_conv_execve_coll au_record :=
  { coll_add := fun s g l first au =>
      let r := aushape_conv_execve_coll_add E { s with gbuf := g } l au
      (r.1, r.2, r.2.gbuf, first)
    coll_end := fun s g l first =>
      let r := aushape_conv_execve_coll_end E { s with gbuf := g } l first
      (r.1, r.2.1, r.2.1.gbuf, r.2.2) }

/-- The C library calls on a machine in UTC at the epoch, used in examples. -/
def libc_utc0 : libc_time :=
  { time_buf := fun _ => "1970-01-01T00:00:00".toList, zone_buf := fun _ => "+0000".toList }

/-- The event of the specification: serial 100, second 0, the record `record_ls`. -/
def event_ls : auparse_state au_record :=
  { timestamp := some { sec := 0, milli := 0, serial := 100, host := none }
    records := [record_ls] }

/-- The format XML with fold level 1 and bare events (`events_per_doc` not set), used
in examples. -/
def format_xml_bare : aushape_format :=
  { lang := aushape_lang.XML, fold_level := 1, events_per_doc := false, indent_unit := [' '] }

/-- The number `m` below 1000 written with exactly three decimal digits, zeros
included. -/
def three_digits (m : Nat) : List Char :=
  [Nat.digitChar (m / 100), Nat.digitChar (m / 10 % 10), Nat.digitChar (m % 10)]

/-- The append of the `,` that separates a non-first JSON event from the one before
fails: the language is JSON, the event is not the first and `aushape_gbuf_add_char`
returns `false`. -/
def comma_fails {σ : Type} (buf : aushape_conv_buf σ) (first : Bool) : Prop :=
  buf.format.lang = aushape_lang.JSON ∧ first = false ∧
  aushape_gbuf_add_char buf.gbuf ',' = none

/-- The nesting level at which `aushape_conv_buf_add_event` places an event:
`level = buf->format.events_per_doc != 0`. -/
def event_level (format : aushape_format) : Nat :=
  if format.events_per_doc = true then 1 else 0

/-- The ways `aushape_conv_buf_add_event` can come to the outcome `r`: an append to the
output buffer failed with `NOMEM`, the source failed, the append of the separating `,`
failed and the function returned 0 with the buffer as it was, or the return code is
the one of the collector run on the records of the event. -/
def add_event_outcome {σ ρ : Type} (C : aushape_conv_coll σ ρ) (buf : aushape_conv_buf σ)
    (first : Bool) (au : auparse_state ρ) (r : aushape_rc × aushape_conv_buf σ) : Prop :=
  r.1 = aushape_rc.NOMEM ∨ r.1 = aushape_rc.CONV_AUPARSE_FAILED ∨
  (comma_fails buf first ∧ r = (aushape_rc.OK, buf)) ∨
  (∃ g, au.records ≠ [] ∧
    (coll_run C (records_level buf.format (event_level buf.format)) au.records
      buf.coll g).1 = r.1)

/-- The event of the specification without its record. -/
def event_bare : auparse_state au_record :=
  { timestamp := some { sec := 0, milli := 0, serial := 100, host := none }
    records := [] }

/-- What makes the handler of a field return `CONV_INVALID_EXECVE` in the collector
state `coll`: a test on the state made before anything of the field is read, or a
value that is read and is malformed; a name matched by no pattern. -/
def invalid_cause (coll : aushape_conv_execve_coll) (au : au_field) : Prop :=
  match au.kind with
  | field_kind.unreadable => False
  | field_kind.skipped => False
  | field_kind.argc =>
    coll.arg_num ≠ 0 ∨ ∃ v, au.str = some v ∧ sscanf_zu v = none
  | field_kind.arg N => ¬ (coll.arg_idx ≤ N ∧ N < coll.arg_num)
  | field_kind.arg_len N =>
    ¬ (coll.arg_idx ≤ N ∧ N < coll.arg_num ∧ coll.got_len = false) ∨
    ∃ v, au.str = some v ∧ sscanf_zu v = none
  | field_kind.arg_slice N K =>
    ¬ (N = coll.arg_idx ∧ N < coll.arg_num ∧ coll.got_len = true ∧ K = coll.slice_idx) ∨
    ∃ raw_str int_str, au.str = some raw_str ∧ au.interp = some int_str ∧
      ¬ (coll.len_read + slice_len raw_str.length int_str.length ≤ coll.len_total)
  | field_kind.unknown => True

/-- The record `argc=1 a0_len=4 a0[0]=ab a0=x`: a whole argument arrives for the
index whose slices are not complete. -/
def record_mixed : au_record :=
  { text := some "type=EXECVE argc=1 a0_len=4 a0[0]=ab a0=x".toList
    fields := [field_of "argc" "1" "1", field_of "a0_len" "4" "4",
               field_of "a0[0]" "ab" "ab", field_of "a0" "x" "x"] }

/-- A record without an `argc` field, as a record of another event part would be seen
by the collector: only the pseudo-field `type`. -/
def record_plain : au_record :=
  { text := some "type=EXECVE".toList, fields := [field_of "type" "EXECVE" "EXECVE"] }

/-- The record `argc=0`. -/
def record_argc0 : au_record :=
  { text := some "type=EXECVE argc=0".toList,
    fields := [field_of "type" "EXECVE" "EXECVE", field_of "argc" "0" "0"] }

/-- The collector `c` once the arguments from `arg_idx` up to the index `n`, not
included, have been added to the argument buffer as empty arguments at the level
`l`. -/
def skip_to (E : aushape_escaping) (l : Nat) (c : aushape_conv_execve_coll) (n : Nat) :
    aushape_conv_execve_coll :=
  { push_args c (args_markup E c.format l c.arg_idx
      (List.replicate (n - c.arg_idx) [[]])) with arg_idx := n }

/-- The collector `c1` is the collector `c2` itself, or `c2` is `c1`, in which no sliced
argument is in progress and whose argument buffer can always grow, with some further
arguments added empty. -/
def lags (E : aushape_escaping) (l : Nat) (c1 c2 : aushape_conv_execve_coll) : Prop :=
  c1 = c2 ∨
  (c1.got_len = false ∧ c1.args.room = none ∧ c1.arg_idx < c2.arg_idx ∧
    c2.arg_idx ≤ c1.arg_num ∧ c2 = skip_to E l c1 c2.arg_idx)

/-- The fields `argc=2 a0_len=4 a0[0]=ab a0= a1[1]=cd`: an empty whole argument arrives
for the index 0 while its slices are incomplete, and the next slice names index 1. -/
def fields_mixed_empty : List au_field :=
  [field_of "argc" "2" "2", field_of "a0_len" "4" "4", field_of "a0[0]" "ab" "ab",
   field_of "a0" "" "", field_of "a1[1]" "cd" "cd"]

/-- A field name that none of the three patterns matches: it does not begin with `a`,
or after the `a` comes nothing or a character that is neither white space, a sign nor a
digit, or after the `a` come decimal digits and then something that is neither the end
of the name, `_len` nor text beginning with `[`. -/
def no_a_form (nm : List Char) : Prop :=
  nm.head? ≠ some 'a' ∨
  (∃ t, nm = 'a' :: t ∧ ∀ c, t.head? = some c →
    isspace c = false ∧ c ≠ '+' ∧ c ≠ '-' ∧ c.isDigit = false) ∨
  (∃ ds n rest, nm = 'a' :: (ds ++ rest) ∧ bare_decimal ds n ∧ rest ≠ [] ∧
    rest ≠ "_len".toList ∧ rest.head? ≠ some '[' ∧
    ∀ c, rest.head? = some c → c.isDigit = false)

/-- The collector `c2` is the collector `c1` itself, or it is `c1` with some further
arguments added empty at the level `l`. -/
def skipped_ahead (E : aushape_escaping) (l : Nat) (c1 c2 : aushape_conv_execve_coll) :
    Prop :=
  c1 = c2 ∨
  (c1.arg_idx < c2.arg_idx ∧ c2.arg_idx ≤ c1.arg_num ∧ c2 = skip_to E l c1 c2.arg_idx)

/-- The fields `argc=3 a0=x`, after which the argument 1 is given empty or left out. -/
def fields_before_empty : List au_field :=
  [field_of "argc" "3" "3", field_of "a0" "x" "x"]

/-! ## Theorems -/

/-! ### The growing buffer -/

theorem add_buf_some {g g1 : aushape_gbuf} {t : List Char}
    (h : aushape_gbuf_add_buf g t = some g1) : g1 = { g with ptr := g.ptr ++ t } := by
  unfold aushape_gbuf_add_buf at h
  split at h
  · simpa using h.symm
  · split at h
    · simpa using h.symm
    · simp at h

theorem add_buf_unbounded {g : aushape_gbuf} (t : List Char) (h : g.room = none) :
    aushape_gbuf_add_buf g t = some { g with ptr := g.ptr ++ t } := by
  unfold aushape_gbuf_add_buf
  simp [h]

theorem guard_args_ok {coll s1 : aushape_conv_execve_coll} {t : List Char}
    {k : aushape_conv_execve_coll → aushape_rc × aushape_conv_execve_coll}
    (h : guard_args coll (aushape_gbuf_add_buf coll.args t) k = (aushape_rc.OK, s1)) :
    k (push_args coll t) = (aushape_rc.OK, s1) := by
  unfold guard_args at h
  split at h
  · simp at h
  · rename_i g hg
    rw [add_buf_some hg] at h
    exact h

theorem guard_args_unbounded {coll : aushape_conv_execve_coll} (t : List Char)
    (k : aushape_conv_execve_coll → aushape_rc × aushape_conv_execve_coll)
    (h : coll.args.room = none) :
    guard_args coll (aushape_gbuf_add_buf coll.args t) k = k (push_args coll t) := by
  rw [add_buf_unbounded t h]
  rfl

theorem guard_args_rc {coll : aushape_conv_execve_coll} {r : Option aushape_gbuf}
    {k : aushape_conv_execve_coll → aushape_rc × aushape_conv_execve_coll}
    {P : aushape_rc → Prop} (hP : P aushape_rc.NOMEM) (hk : ∀ c, P (k c).1) :
    P (guard_args coll r k).1 := by
  unfold guard_args
  split
  · exact hP
  · exact hk _

theorem push_args_room (coll : aushape_conv_execve_coll) (t : List Char) :
    (push_args coll t).args.room = coll.args.room := rfl

theorem push_args_push (coll : aushape_conv_execve_coll) (t u : List Char) :
    push_args (push_args coll t) u = push_args coll (t ++ u) := by
  simp [push_args]

theorem push_args_nil (coll : aushape_conv_execve_coll) : push_args coll [] = coll := by
  simp [push_args]

/-! ### Adding one argument -/

theorem add_arg_str_ok {E : aushape_escaping} {coll s1 : aushape_conv_execve_coll}
    {level : Nat} {str : List Char}
    (h : aushape_conv_execve_coll_add_arg_str E coll level str = (aushape_rc.OK, s1)) :
    s1 = { push_args coll (arg_markup E coll.format level coll.arg_idx [str]) with
           arg_idx := coll.arg_idx + 1 } := by
  unfold aushape_conv_execve_coll_add_arg_str at h
  split at h
  · rename_i hl
    simp only [aushape_gbuf_space_opening, aushape_gbuf_add_str,
      aushape_gbuf_add_str_xml] at h
    have h1 := guard_args_ok h
    have h2 := guard_args_ok h1
    have h3 := guard_args_ok h2
    have h4 := guard_args_ok h3
    simp [push_args] at h4
    simp [← h4, push_args, arg_markup, arg_open, arg_close, escape, hl]
  · rename_i hl
    simp only [aushape_gbuf_space_opening, aushape_gbuf_add_str,
      aushape_gbuf_add_str_json, aushape_gbuf_add_char] at h
    by_cases hi : coll.arg_idx > 0
    · simp only [hi, if_true] at h
      have h1 := guard_args_ok h
      have h2 := guard_args_ok h1
      have h3 := guard_args_ok h2
      have h4 := guard_args_ok h3
      have h5 := guard_args_ok h4
      simp [push_args] at h5
      simp [← h5, push_args, arg_markup, arg_open, arg_close, escape, hl, hi]
    · simp only [hi, if_false] at h
      rw [guard_args] at h
      have h2 := guard_args_ok h
      have h3 := guard_args_ok h2
      have h4 := guard_args_ok h3
      have h5 := guard_args_ok h4
      simp [push_args] at h5
      simp [← h5, push_args, arg_markup, arg_open, arg_close, escape, hl, hi]

theorem add_arg_str_unbounded (E : aushape_escaping) (coll : aushape_conv_execve_coll)
    (level : Nat) (str : List Char) (hroom : coll.args.room = none) :
    aushape_conv_execve_coll_add_arg_str E coll level str =
      (aushape_rc.OK,
        { push_args coll (arg_markup E coll.format level coll.arg_idx [str]) with
          arg_idx := coll.arg_idx + 1 }) := by
  unfold aushape_conv_execve_coll_add_arg_str
  split
  · rename_i hl
    simp only [aushape_gbuf_space_opening, aushape_gbuf_add_str,
      aushape_gbuf_add_str_xml]
    rw [guard_args_unbounded _ _ hroom, guard_args_unbounded _ _ (by simpa using hroom),
      guard_args_unbounded _ _ (by simpa using hroom),
      guard_args_unbounded _ _ (by simpa using hroom)]
    simp [push_args, arg_markup, arg_open, arg_close, escape, hl]
  · rename_i hl
    simp only [aushape_gbuf_space_opening, aushape_gbuf_add_str,
      aushape_gbuf_add_str_json, aushape_gbuf_add_char]
    by_cases hi : coll.arg_idx > 0
    · simp only [hi, if_true]
      rw [guard_args_unbounded _ _ hroom, guard_args_unbounded _ _ (by simpa using hroom),
        guard_args_unbounded _ _ (by simpa using hroom),
        guard_args_unbounded _ _ (by simpa using hroom),
        guard_args_unbounded _ _ (by simpa using hroom)]
      simp [push_args, arg_markup, arg_open, arg_close, escape, hl, hi]
    · simp only [hi, if_false]
      rw [guard_args]
      simp only []
      rw [guard_args_unbounded _ _ (by simpa using hroom),
        guard_args_unbounded _ _ (by simpa using hroom),
        guard_args_unbounded _ _ (by simpa using hroom),
        guard_args_unbounded _ _ (by simpa using hroom)]
      simp [push_args, arg_markup, arg_open, arg_close, escape, hl, hi]

theorem add_arg_str_rc (E : aushape_escaping) (coll : aushape_conv_execve_coll)
    (level : Nat) (str : List Char) :
    (aushape_conv_execve_coll_add_arg_str E coll level str).1 = aushape_rc.OK ∨
    (aushape_conv_execve_coll_add_arg_str E coll level str).1 = aushape_rc.NOMEM := by
  unfold aushape_conv_execve_coll_add_arg_str
  split <;>
  repeat (first
    | exact Or.inl rfl
    | refine guard_args_rc (P := fun rc => rc = aushape_rc.OK ∨ rc = aushape_rc.NOMEM)
        (Or.inr rfl) (fun c => ?_))

/-! ### Sequencing -/

theorem guard_rc_ok_iff {r : aushape_rc × aushape_conv_execve_coll}
    {k : aushape_conv_execve_coll → aushape_rc × aushape_conv_execve_coll}
    {s1 : aushape_conv_execve_coll} :
    guard_rc r k = (aushape_rc.OK, s1) ↔
      ∃ c, r = (aushape_rc.OK, c) ∧ k c = (aushape_rc.OK, s1) := by
  obtain ⟨rc, c⟩ := r
  cases rc <;> simp [guard_rc]

theorem guard_rc_of_ok {c : aushape_conv_execve_coll}
    (k : aushape_conv_execve_coll → aushape_rc × aushape_conv_execve_coll) :
    guard_rc (aushape_rc.OK, c) k = k c := rfl

theorem guard_rc_of_ne {r : aushape_rc × aushape_conv_execve_coll}
    (k : aushape_conv_execve_coll → aushape_rc × aushape_conv_execve_coll)
    (h : r.1 ≠ aushape_rc.OK) : guard_rc r k = r := by
  obtain ⟨rc, c⟩ := r
  cases rc <;> simp_all [guard_rc]

theorem guard_rc_rc {r : aushape_rc × aushape_conv_execve_coll}
    {k : aushape_conv_execve_coll → aushape_rc × aushape_conv_execve_coll}
    {P : aushape_rc → Prop} (hr : r.1 ≠ aushape_rc.OK → P r.1) (hk : ∀ c, P (k c).1) :
    P (guard_rc r k).1 := by
  obtain ⟨rc, c⟩ := r
  cases rc <;> first | exact hk _ | exact hr (by simp)

/-! ### The loop adding skipped empty arguments -/

theorem add_skipped_ok {E : aushape_escaping} {level target : Nat} :
    ∀ (fuel : Nat) (coll s1 : aushape_conv_execve_coll),
      coll.arg_idx + fuel = target →
      add_skipped E level target fuel coll = (aushape_rc.OK, s1) →
      s1 = { push_args coll (args_markup E coll.format level coll.arg_idx
               (List.replicate fuel [[]])) with arg_idx := target } := by
  intro fuel
  induction fuel with
  | zero =>
    intro coll s1 ht h
    simp only [add_skipped, Prod.mk.injEq, true_and] at h
    subst h
    simp [push_args, args_markup, ← ht]
  | succ n ih =>
    intro coll s1 ht h
    have hlt : coll.arg_idx < target := by omega
    simp only [add_skipped, hlt, if_true] at h
    obtain ⟨c, hc, hk⟩ := guard_rc_ok_iff.mp h
    have hc1 := add_arg_str_ok hc
    have hidx : c.arg_idx + n = target := by rw [hc1]; simp; omega
    have := ih c s1 hidx hk
    rw [this, hc1]
    simp [push_args, args_markup, List.replicate_succ]

theorem add_skipped_unbounded (E : aushape_escaping) (level target : Nat) :
    ∀ (fuel : Nat) (coll : aushape_conv_execve_coll),
      coll.arg_idx + fuel = target → coll.args.room = none →
      add_skipped E level target fuel coll =
        (aushape_rc.OK,
          { push_args coll (args_markup E coll.format level coll.arg_idx
              (List.replicate fuel [[]])) with arg_idx := target }) := by
  intro fuel
  induction fuel with
  | zero =>
    intro coll ht _
    simp [add_skipped, push_args, args_markup, ← ht]
  | succ n ih =>
    intro coll ht hroom
    have hlt : coll.arg_idx < target := by omega
    simp only [add_skipped, hlt, if_true]
    rw [add_arg_str_unbounded E coll level [] hroom, guard_rc_of_ok]
    rw [ih _ (by simp; omega) (by simpa [push_args] using hroom)]
    simp [push_args, args_markup, List.replicate_succ]

theorem add_skipped_rc (E : aushape_escaping) (level target : Nat) :
    ∀ (fuel : Nat) (coll : aushape_conv_execve_coll),
      (add_skipped E level target fuel coll).1 = aushape_rc.OK ∨
      (add_skipped E level target fuel coll).1 = aushape_rc.NOMEM := by
  intro fuel
  induction fuel with
  | zero => intro coll; exact Or.inl rfl
  | succ n ih =>
    intro coll
    simp only [add_skipped]
    split
    · refine guard_rc_rc (P := fun rc => rc = aushape_rc.OK ∨ rc = aushape_rc.NOMEM)
        (fun hne => ?_) (fun c => ih c)
      exact (add_arg_str_rc E coll level []).resolve_left hne |> Or.inr
    · exact Or.inl rfl

/-- The bound on the iterations of the loop is never what ends it: when the loop
returns `OK` its condition `arg_idx < target` is false. -/
theorem add_skipped_exit {E : aushape_escaping} {level target : Nat}
    {coll s1 : aushape_conv_execve_coll}
    (h : add_skipped E level target (target - coll.arg_idx) coll = (aushape_rc.OK, s1)) :
    ¬ s1.arg_idx < target := by
  by_cases hle : coll.arg_idx ≤ target
  · have := add_skipped_ok (target - coll.arg_idx) coll s1 (by omega) h
    rw [this]; simp
  · have h0 : target - coll.arg_idx = 0 := by omega
    rw [h0] at h
    simp only [add_skipped, Prod.mk.injEq, true_and] at h
    subst h; omega


theorem args_markup_append (E : aushape_escaping) (format : aushape_format) (level : Nat) :
    ∀ (xs ys : List (List (List Char))) (start : Nat),
      args_markup E format level start (xs ++ ys) =
        args_markup E format level start xs ++
          args_markup E format level (start + xs.length) ys := by
  intro xs
  induction xs with
  | nil => intro ys start; simp [args_markup]
  | cons x xs ih =>
    intro ys start
    simp [args_markup, ih, Nat.add_assoc, Nat.add_comm 1]

theorem add_buf_bind (g : aushape_gbuf) (t u : List Char) :
    (aushape_gbuf_add_buf g t).bind (fun g1 => aushape_gbuf_add_buf g1 u) =
      aushape_gbuf_add_buf g (t ++ u) := by
  unfold aushape_gbuf_add_buf
  cases hr : g.room with
  | none => simp [hr]
  | some c =>
    simp only [hr, List.length_append]
    by_cases h1 : g.ptr.length + t.length ≤ c
    · by_cases h3 : g.ptr.length + t.length + u.length ≤ c
      · have h2 : g.ptr.length + (t.length + u.length) ≤ c := by omega
        simp [h1, h2, h3, hr]
      · have h2 : ¬ g.ptr.length + (t.length + u.length) ≤ c := by omega
        simp [h1, h2, h3, hr]
    · have h2 : ¬ g.ptr.length + (t.length + u.length) ≤ c := by omega
      simp [h1, h2]

/-! ### The `argc` field -/

theorem add_argc_ok {coll s1 : aushape_conv_execve_coll} {level : Nat} {au : au_field}
    (h : aushape_conv_execve_coll_add_argc coll level au = (aushape_rc.OK, s1)) :
    coll.arg_num = 0 ∧ ∃ str num, au.str = some str ∧ sscanf_zu str = some num ∧
      s1 = { coll with arg_num := num } := by
  unfold aushape_conv_execve_coll_add_argc at h
  split at h
  · simp at h
  · rename_i h0
    split at h
    · simp at h
    · rename_i str hs
      split at h
      · simp at h
      · rename_i num hn
        simp at h
        exact ⟨by simpa using h0, str, num, hs, hn, h.symm⟩

/-! ### Whole arguments -/

theorem add_arg_ok {E : aushape_escaping} {coll s1 : aushape_conv_execve_coll}
    {level N : Nat} {au : au_field}
    (h : aushape_conv_execve_coll_add_arg E coll level N au = (aushape_rc.OK, s1)) :
    coll.arg_idx ≤ N ∧ N < coll.arg_num ∧ ∃ v, au.interp = some v ∧
      s1 = { push_args coll (args_markup E coll.format level coll.arg_idx
               (List.replicate (N - coll.arg_idx) [[]] ++ [[v]])) with
             arg_idx := N + 1 } := by
  unfold aushape_conv_execve_coll_add_arg at h
  split at h
  · simp at h
  · rename_i hg
    have hg1 : coll.arg_idx ≤ N ∧ N < coll.arg_num := by simpa using hg
    obtain ⟨c, hc, hk⟩ := guard_rc_ok_iff.mp h
    have hc1 := add_skipped_ok _ _ _ (by omega) hc
    split at hk
    · simp at hk
    · rename_i v hv
      refine ⟨hg1.1, hg1.2, v, hv, ?_⟩
      rw [add_arg_str_ok hk, hc1]
      have hN : coll.arg_idx + (N - coll.arg_idx) = N := by omega
      simp [push_args, args_markup_append, args_markup, hN]

theorem add_arg_unbounded (E : aushape_escaping) (coll : aushape_conv_execve_coll)
    (level N : Nat) (au : au_field) (v : List Char)
    (hlo : coll.arg_idx ≤ N) (hhi : N < coll.arg_num) (hv : au.interp = some v)
    (hroom : coll.args.room = none) :
    aushape_conv_execve_coll_add_arg E coll level N au =
      (aushape_rc.OK,
        { push_args coll (args_markup E coll.format level coll.arg_idx
            (List.replicate (N - coll.arg_idx) [[]] ++ [[v]])) with
          arg_idx := N + 1 }) := by
  unfold aushape_conv_execve_coll_add_arg
  have hg : (N ≥ coll.arg_idx ∧ N < coll.arg_num) := ⟨hlo, hhi⟩
  simp only [hg, not_true_eq_false, if_false, and_self]
  rw [add_skipped_unbounded E level N _ coll (by omega) hroom, guard_rc_of_ok]
  simp only [hv]
  rw [add_arg_str_unbounded _ _ _ _ (by simpa [push_args] using hroom)]
  have hN : coll.arg_idx + (N - coll.arg_idx) = N := by omega
  simp [push_args, args_markup_append, args_markup, hN]

theorem add_arg_rc (E : aushape_escaping) (coll : aushape_conv_execve_coll)
    (level N : Nat) (au : au_field) :
    (aushape_conv_execve_coll_add_arg E coll level N au).1 = aushape_rc.CONV_INVALID_EXECVE ↔
      ¬ (coll.arg_idx ≤ N ∧ N < coll.arg_num) := by
  unfold aushape_conv_execve_coll_add_arg
  split
  · rename_i hg; simpa using hg
  · rename_i hg
    have hg1 : coll.arg_idx ≤ N ∧ N < coll.arg_num := by simpa using hg
    simp only [hg1, and_self, not_true_eq_false, iff_false]
    refine guard_rc_rc (P := fun rc => ¬ rc = aushape_rc.CONV_INVALID_EXECVE)
      (fun hne => ?_) (fun c => ?_)
    · rcases add_skipped_rc E level N (N - coll.arg_idx) coll with h | h
      · exact absurd h hne
      · rw [h]; simp
    · split
      · simp
      · rcases add_arg_str_rc E c level (by assumption) with h | h <;> rw [h] <;> simp

/-! ### Argument lengths -/

theorem add_arg_len_ok {E : aushape_escaping} {coll s1 : aushape_conv_execve_coll}
    {level N : Nat} {au : au_field}
    (h : aushape_conv_execve_coll_add_arg_len E coll level N au = (aushape_rc.OK, s1)) :
    coll.arg_idx ≤ N ∧ N < coll.arg_num ∧ coll.got_len = false ∧
    ∃ str num, au.str = some str ∧ sscanf_zu str = some num ∧
      s1 = { push_args coll (args_markup E coll.format level coll.arg_idx
               (List.replicate (N - coll.arg_idx) [[]])) with
             arg_idx := N, got_len := true, len_total := num } := by
  unfold aushape_conv_execve_coll_add_arg_len at h
  split at h
  · simp at h
  · rename_i hg
    have hg1 : coll.arg_idx ≤ N ∧ N < coll.arg_num ∧ coll.got_len = false := by
      simpa using hg
    obtain ⟨c, hc, hk⟩ := guard_rc_ok_iff.mp h
    have hc1 := add_skipped_ok _ _ _ (by omega) hc
    simp only at hk
    split at hk
    · simp at hk
    · rename_i str hs
      split at hk
      · simp at hk
      · rename_i num hn
        refine ⟨hg1.1, hg1.2.1, hg1.2.2, str, num, hs, hn, ?_⟩
        simp only [Prod.mk.injEq, true_and] at hk
        rw [← hk, hc1]

theorem add_arg_len_unbounded (E : aushape_escaping) (coll : aushape_conv_execve_coll)
    (level N : Nat) (au : au_field) (str : List Char) (num : Nat)
    (hlo : coll.arg_idx ≤ N) (hhi : N < coll.arg_num) (hgl : coll.got_len = false)
    (hs : au.str = some str) (hn : sscanf_zu str = some num)
    (hroom : coll.args.room = none) :
    aushape_conv_execve_coll_add_arg_len E coll level N au =
      (aushape_rc.OK,
        { push_args coll (args_markup E coll.format level coll.arg_idx
            (List.replicate (N - coll.arg_idx) [[]])) with
          arg_idx := N, got_len := true, len_total := num }) := by
  unfold aushape_conv_execve_coll_add_arg_len
  have hg : (N ≥ coll.arg_idx ∧ N < coll.arg_num ∧ coll.got_len = false) := ⟨hlo, hhi, hgl⟩
  simp only [hg, not_true_eq_false, if_false, and_self]
  rw [add_skipped_unbounded E level N _ coll (by omega) hroom, guard_rc_of_ok]
  simp only [hs, hn]

/-! ### Argument slices -/

theorem guard_args_some (coll : aushape_conv_execve_coll)
    (k : aushape_conv_execve_coll → aushape_rc × aushape_conv_execve_coll) :
    guard_args coll (some coll.args) k = k coll := rfl

theorem add_arg_slice_begin_ok {coll s1 : aushape_conv_execve_coll} {level K : Nat}
    {k : aushape_conv_execve_coll → aushape_rc × aushape_conv_execve_coll}
    (h : add_arg_slice_begin coll level K k = (aushape_rc.OK, s1)) :
    k (if K = 0 then push_args coll (arg_open coll.format level coll.arg_idx) else coll) =
      (aushape_rc.OK, s1) := by
  unfold add_arg_slice_begin at h
  by_cases hK : K = 0
  · simp only [hK, if_true] at h ⊢
    cases hl : coll.format.lang with
    | XML =>
      simp only [hl, aushape_gbuf_space_opening, aushape_gbuf_add_str] at h
      have h1 := guard_args_ok h
      have h2 := guard_args_ok h1
      simpa [push_args, arg_open, hl] using h2
    | JSON =>
      simp only [hl, aushape_gbuf_space_opening, aushape_gbuf_add_char] at h
      by_cases hi : coll.arg_idx > 0
      · simp only [hi, if_true] at h
        have h1 := guard_args_ok h
        have h2 := guard_args_ok h1
        have h3 := guard_args_ok h2
        simpa [push_args, arg_open, hl, hi] using h3
      · simp only [hi, if_false] at h
        rw [guard_args_some] at h
        have h2 := guard_args_ok h
        have h3 := guard_args_ok h2
        simpa [push_args, arg_open, hl, hi] using h3
  · simp only [hK, if_false] at h ⊢
    exact h

theorem add_arg_slice_begin_unbounded (coll : aushape_conv_execve_coll) (level K : Nat)
    (k : aushape_conv_execve_coll → aushape_rc × aushape_conv_execve_coll)
    (hroom : coll.args.room = none) :
    add_arg_slice_begin coll level K k =
      k (if K = 0 then push_args coll (arg_open coll.format level coll.arg_idx)
         else coll) := by
  unfold add_arg_slice_begin
  by_cases hK : K = 0
  · simp only [hK, if_true]
    cases hl : coll.format.lang with
    | XML =>
      simp only [aushape_gbuf_space_opening, aushape_gbuf_add_str]
      rw [guard_args_unbounded _ _ hroom, guard_args_unbounded _ _ (by simpa using hroom)]
      simp [push_args, arg_open, hl]
    | JSON =>
      simp only [aushape_gbuf_space_opening, aushape_gbuf_add_char]
      by_cases hi : coll.arg_idx > 0
      · simp only [hi, if_true]
        rw [guard_args_unbounded _ _ hroom, guard_args_unbounded _ _ (by simpa using hroom),
          guard_args_unbounded _ _ (by simpa using hroom)]
        simp [push_args, arg_open, hl, hi]
      · simp only [hi, if_false]
        rw [guard_args_some, guard_args_unbounded _ _ hroom,
          guard_args_unbounded _ _ (by simpa using hroom)]
        simp [push_args, arg_open, hl, hi]
  · simp only [hK, if_false]

theorem add_arg_slice_begin_rc {coll : aushape_conv_execve_coll} {level K : Nat}
    {k : aushape_conv_execve_coll → aushape_rc × aushape_conv_execve_coll}
    {P : aushape_rc → Prop} (hP : P aushape_rc.NOMEM) (hk : ∀ c, P (k c).1) :
    P (add_arg_slice_begin coll level K k).1 := by
  unfold add_arg_slice_begin
  split
  · cases coll.format.lang with
    | XML => exact guard_args_rc hP fun c => guard_args_rc hP fun c => hk c
    | JSON =>
      exact guard_args_rc hP fun c => guard_args_rc hP fun c => guard_args_rc hP fun c =>
        hk c
  · exact hk coll

theorem slice_put_eq (E : aushape_escaping) (coll : aushape_conv_execve_coll)
    (int_str : List Char) :
    (match coll.format.lang with
      | aushape_lang.XML => aushape_gbuf_add_str_xml E coll.args int_str
      | aushape_lang.JSON => aushape_gbuf_add_str_json E coll.args int_str) =
    aushape_gbuf_add_buf coll.args (escape E coll.format int_str) := by
  cases hl : coll.format.lang <;>
    simp [aushape_gbuf_add_str_xml, aushape_gbuf_add_str_json, escape, hl]

theorem slice_close_eq (coll : aushape_conv_execve_coll) :
    (match coll.format.lang with
      | aushape_lang.XML => aushape_gbuf_add_str coll.args "\"/>"
      | aushape_lang.JSON => aushape_gbuf_add_char coll.args '"') =
    aushape_gbuf_add_buf coll.args (arg_close coll.format) := by
  cases hl : coll.format.lang <;>
    simp [aushape_gbuf_add_str, aushape_gbuf_add_char, arg_close, hl]



theorem add_arg_slice_ok {E : aushape_escaping} {coll s1 : aushape_conv_execve_coll}
    {level N K : Nat} {au : au_field}
    (h : aushape_conv_execve_coll_add_arg_slice E coll level N K au = (aushape_rc.OK, s1)) :
    N = coll.arg_idx ∧ N < coll.arg_num ∧ coll.got_len = true ∧ K = coll.slice_idx ∧
    ∃ raw_str int_str, au.str = some raw_str ∧ au.interp = some int_str ∧
      coll.len_read + slice_len raw_str.length int_str.length ≤ coll.len_total ∧
      s1 = slice_accept E coll level K int_str
             (slice_len raw_str.length int_str.length) := by
  unfold aushape_conv_execve_coll_add_arg_slice at h
  split at h
  · simp at h
  · rename_i hg
    have hg1 : N = coll.arg_idx ∧ N < coll.arg_num ∧ coll.got_len = true ∧
        K = coll.slice_idx := by simpa using hg
    split at h
    · simp at h
    · rename_i raw_str hr
      split at h
      · simp at h
      · rename_i int_str hi
        simp only at h
        split at h
        · simp at h
        · rename_i hle
          have hle1 : coll.len_read + slice_len raw_str.length int_str.length ≤
              coll.len_total := by simpa using hle
          refine ⟨hg1.1, hg1.2.1, hg1.2.2.1, hg1.2.2.2, raw_str, int_str, hr, hi, hle1, ?_⟩
          have h0 := add_arg_slice_begin_ok h
          by_cases hK : K = 0
          · simp only [hK, if_true] at h0
            have h1 := h0
            rw [slice_put_eq] at h1
            have h2 := guard_args_ok h1
            simp only at h2
            by_cases hfin : coll.len_read + slice_len raw_str.length int_str.length =
                coll.len_total
            · have hfin1 : (push_args (push_args coll (arg_open coll.format level
                  coll.arg_idx)) (escape E (push_args coll (arg_open coll.format level
                  coll.arg_idx)).format int_str)).len_read +
                  slice_len raw_str.length int_str.length =
                  (push_args (push_args coll (arg_open coll.format level
                  coll.arg_idx)) (escape E (push_args coll (arg_open coll.format level
                  coll.arg_idx)).format int_str)).len_total := hfin
              rw [if_pos hfin1, slice_close_eq] at h2
              have h3 := guard_args_ok h2
              simp only [Prod.mk.injEq, true_and] at h3
              simp [← h3, slice_accept, slice_text, hfin, hK, push_args]
            · have hfin1 : ¬ (push_args (push_args coll (arg_open coll.format level
                  coll.arg_idx)) (escape E (push_args coll (arg_open coll.format level
                  coll.arg_idx)).format int_str)).len_read +
                  slice_len raw_str.length int_str.length =
                  (push_args (push_args coll (arg_open coll.format level
                  coll.arg_idx)) (escape E (push_args coll (arg_open coll.format level
                  coll.arg_idx)).format int_str)).len_total := hfin
              rw [if_neg hfin1] at h2
              simp only [Prod.mk.injEq, true_and] at h2
              simp [← h2, slice_accept, slice_text, hfin, hK, push_args]
          · simp only [hK, if_false] at h0
            rw [slice_put_eq] at h0
            have h2 := guard_args_ok h0
            simp only at h2
            by_cases hfin : coll.len_read + slice_len raw_str.length int_str.length =
                coll.len_total
            · have hfin1 : (push_args coll (escape E coll.format int_str)).len_read +
                  slice_len raw_str.length int_str.length =
                  (push_args coll (escape E coll.format int_str)).len_total := hfin
              rw [if_pos hfin1, slice_close_eq] at h2
              have h3 := guard_args_ok h2
              simp only [Prod.mk.injEq, true_and] at h3
              simp [← h3, slice_accept, slice_text, hfin, hK, push_args]
            · have hfin1 : ¬ (push_args coll (escape E coll.format int_str)).len_read +
                  slice_len raw_str.length int_str.length =
                  (push_args coll (escape E coll.format int_str)).len_total := hfin
              rw [if_neg hfin1] at h2
              simp only [Prod.mk.injEq, true_and] at h2
              simp [← h2, slice_accept, slice_text, hfin, hK, push_args]

theorem add_arg_slice_unbounded (E : aushape_escaping) (coll : aushape_conv_execve_coll)
    (level N K : Nat) (au : au_field) (raw_str int_str : List Char)
    (hN : N = coll.arg_idx) (hnum : N < coll.arg_num) (hgl : coll.got_len = true)
    (hK : K = coll.slice_idx) (hr : au.str = some raw_str) (hi : au.interp = some int_str)
    (hle : coll.len_read + slice_len raw_str.length int_str.length ≤ coll.len_total)
    (hroom : coll.args.room = none) :
    aushape_conv_execve_coll_add_arg_slice E coll level N K au =
      (aushape_rc.OK,
        slice_accept E coll level K int_str (slice_len raw_str.length int_str.length)) := by
  unfold aushape_conv_execve_coll_add_arg_slice
  have hg : (N = coll.arg_idx ∧ N < coll.arg_num ∧ coll.got_len = true ∧
      K = coll.slice_idx) := ⟨hN, hnum, hgl, hK⟩
  rw [if_neg (not_not.mpr hg)]
  simp only [hr, hi]
  rw [if_neg (not_not.mpr hle), add_arg_slice_begin_unbounded _ _ _ _ hroom]
  by_cases hK0 : K = 0
  · simp only [hK0, if_true]
    rw [slice_put_eq,
      guard_args_unbounded _ _ (by simpa [push_args] using hroom)]
    by_cases hfin : coll.len_read + slice_len raw_str.length int_str.length =
        coll.len_total
    · have hfin1 : (push_args (push_args coll (arg_open coll.format level
          coll.arg_idx)) (escape E (push_args coll (arg_open coll.format level
          coll.arg_idx)).format int_str)).len_read +
          slice_len raw_str.length int_str.length =
          (push_args (push_args coll (arg_open coll.format level
          coll.arg_idx)) (escape E (push_args coll (arg_open coll.format level
          coll.arg_idx)).format int_str)).len_total := hfin
      rw [if_pos hfin1, slice_close_eq,
        guard_args_unbounded _ _ (by simpa [push_args] using hroom)]
      simp [slice_accept, slice_text, hfin, hK0, push_args]
    · have hfin1 : ¬ (push_args (push_args coll (arg_open coll.format level
          coll.arg_idx)) (escape E (push_args coll (arg_open coll.format level
          coll.arg_idx)).format int_str)).len_read +
          slice_len raw_str.length int_str.length =
          (push_args (push_args coll (arg_open coll.format level
          coll.arg_idx)) (escape E (push_args coll (arg_open coll.format level
          coll.arg_idx)).format int_str)).len_total := hfin
      rw [if_neg hfin1]
      simp [slice_accept, slice_text, hfin, hK0, push_args]
  · simp only [hK0, if_false]
    rw [slice_put_eq, guard_args_unbounded _ _ hroom]
    by_cases hfin : coll.len_read + slice_len raw_str.length int_str.length =
        coll.len_total
    · have hfin1 : (push_args coll (escape E coll.format int_str)).len_read +
          slice_len raw_str.length int_str.length =
          (push_args coll (escape E coll.format int_str)).len_total := hfin
      rw [if_pos hfin1, slice_close_eq,
        guard_args_unbounded _ _ (by simpa [push_args] using hroom)]
      simp [slice_accept, slice_text, hfin, hK0, push_args]
    · have hfin1 : ¬ (push_args coll (escape E coll.format int_str)).len_read +
          slice_len raw_str.length int_str.length =
          (push_args coll (escape E coll.format int_str)).len_total := hfin
      rw [if_neg hfin1]
      simp [slice_accept, slice_text, hfin, hK0, push_args]

theorem add_arg_slice_invalid (E : aushape_escaping) (coll : aushape_conv_execve_coll)
    (level N K : Nat) (au : au_field) (raw_str int_str : List Char)
    (hr : au.str = some raw_str) (hi : au.interp = some int_str)
    (hne : ¬ (N = coll.arg_idx ∧ N < coll.arg_num ∧ coll.got_len = true ∧
      K = coll.slice_idx ∧
      coll.len_read + slice_len raw_str.length int_str.length ≤ coll.len_total)) :
    aushape_conv_execve_coll_add_arg_slice E coll level N K au =
      (aushape_rc.CONV_INVALID_EXECVE, coll) := by
  unfold aushape_conv_execve_coll_add_arg_slice
  by_cases hg : (N = coll.arg_idx ∧ N < coll.arg_num ∧ coll.got_len = true ∧
      K = coll.slice_idx)
  · rw [if_neg (not_not.mpr hg)]
    simp only [hr, hi]
    have hle : ¬ coll.len_read + slice_len raw_str.length int_str.length ≤
        coll.len_total := fun hle => hne ⟨hg.1, hg.2.1, hg.2.2.1, hg.2.2.2, hle⟩
    rw [if_pos hle]
  · rw [if_pos hg]



/-! ### Fields of a record -/

theorem add_field_eq (E : aushape_escaping) (l : Nat) (au : au_field)
    (coll : aushape_conv_execve_coll) :
    add_field E l au coll =
      match au.kind with
      | field_kind.unreadable => (aushape_rc.CONV_AUPARSE_FAILED, coll)
      | field_kind.skipped => (aushape_rc.OK, coll)
      | field_kind.argc => aushape_conv_execve_coll_add_argc coll l au
      | field_kind.arg arg_idx => aushape_conv_execve_coll_add_arg E coll l arg_idx au
      | field_kind.arg_len arg_idx =>
        aushape_conv_execve_coll_add_arg_len E coll l arg_idx au
      | field_kind.arg_slice arg_idx slice_idx =>
        aushape_conv_execve_coll_add_arg_slice E coll l arg_idx slice_idx au
      | field_kind.unknown => (aushape_rc.CONV_INVALID_EXECVE, coll) := by
  unfold add_field au_field.kind
  cases au.name with
  | none => rfl
  | some field_name =>
    simp only
    split_ifs
    · rfl
    · rfl
    · rfl
    · cases sscanf_a_zu field_name with
      | some n => rfl
      | none =>
        cases sscanf_a_zu_len field_name with
        | some n => rfl
        | none =>
          cases sscanf_a_zu_slice field_name with
          | some p => rfl
          | none => rfl

theorem add_fields_append (E : aushape_escaping) (l : Nat) :
    ∀ (fs gs : List au_field) (coll : aushape_conv_execve_coll),
      add_fields E l (fs ++ gs) coll =
        guard_rc (add_fields E l fs coll) fun c => add_fields E l gs c := by
  intro fs
  induction fs with
  | nil => intro gs coll; rfl
  | cons f fs ih =>
    intro gs coll
    simp only [List.cons_append, add_fields]
    obtain ⟨rc, c⟩ := add_field E l f coll
    cases rc <;> simp [guard_rc, ih]

theorem add_fields_ok_append {E : aushape_escaping} {l : Nat} {fs gs : List au_field}
    {coll s1 : aushape_conv_execve_coll}
    (h : add_fields E l (fs ++ gs) coll = (aushape_rc.OK, s1)) :
    ∃ c, add_fields E l fs coll = (aushape_rc.OK, c) ∧
      add_fields E l gs c = (aushape_rc.OK, s1) := by
  rw [add_fields_append] at h
  exact guard_rc_ok_iff.mp h

theorem add_fields_cons_ok {E : aushape_escaping} {l : Nat} {f : au_field}
    {gs : List au_field} {coll s1 : aushape_conv_execve_coll}
    (h : add_fields E l (f :: gs) coll = (aushape_rc.OK, s1)) :
    ∃ c, add_field E l f coll = (aushape_rc.OK, c) ∧
      add_fields E l gs c = (aushape_rc.OK, s1) := by
  simp only [add_fields] at h
  exact guard_rc_ok_iff.mp h

theorem add_fields_singleton (E : aushape_escaping) (l : Nat) (f : au_field)
    (coll : aushape_conv_execve_coll) :
    add_fields E l [f] coll = add_field E l f coll := by
  simp only [add_fields]
  obtain ⟨rc, c⟩ := add_field E l f coll
  cases rc <;> rfl



/-! ### The handling of fields does not look at the raw log buffer -/

theorem guard_args_raw {raw : aushape_gbuf} {coll : aushape_conv_execve_coll}
    {o : Option aushape_gbuf}
    {k : aushape_conv_execve_coll → aushape_rc × aushape_conv_execve_coll}
    (hk : ∀ c, k (set_raw raw c) = map_raw raw (k c)) :
    guard_args (set_raw raw coll) o k = map_raw raw (guard_args coll o k) := by
  cases o with
  | none => rfl
  | some g => exact hk { coll with args := g }

theorem guard_rc_raw {raw : aushape_gbuf} {r : aushape_rc × aushape_conv_execve_coll}
    {k : aushape_conv_execve_coll → aushape_rc × aushape_conv_execve_coll}
    (hk : ∀ c, k (set_raw raw c) = map_raw raw (k c)) :
    guard_rc (map_raw raw r) k = map_raw raw (guard_rc r k) := by
  obtain ⟨rc, c⟩ := r
  cases rc <;> first | rfl | exact hk c

theorem add_arg_str_raw (E : aushape_escaping) (raw : aushape_gbuf)
    (coll : aushape_conv_execve_coll) (level : Nat) (str : List Char) :
    aushape_conv_execve_coll_add_arg_str E (set_raw raw coll) level str =
      map_raw raw (aushape_conv_execve_coll_add_arg_str E coll level str) := by
  unfold aushape_conv_execve_coll_add_arg_str
  cases hl : coll.format.lang with
  | XML =>
    have hl1 : (set_raw raw coll).format.lang = aushape_lang.XML := hl
    simp only [hl1]
    exact guard_args_raw fun c => guard_args_raw fun c => guard_args_raw fun c =>
      guard_args_raw fun c => rfl
  | JSON =>
    have hl1 : (set_raw raw coll).format.lang = aushape_lang.JSON := hl
    simp only [hl1]
    exact guard_args_raw fun c => guard_args_raw fun c => guard_args_raw fun c =>
      guard_args_raw fun c => guard_args_raw fun c => rfl

theorem add_skipped_raw (E : aushape_escaping) (raw : aushape_gbuf) (level target : Nat) :
    ∀ (fuel : Nat) (coll : aushape_conv_execve_coll),
      add_skipped E level target fuel (set_raw raw coll) =
        map_raw raw (add_skipped E level target fuel coll) := by
  intro fuel
  induction fuel with
  | zero => intro coll; rfl
  | succ n ih =>
    intro coll
    simp only [add_skipped]
    have : (set_raw raw coll).arg_idx = coll.arg_idx := rfl
    rw [this]
    split
    · rw [add_arg_str_raw]
      exact guard_rc_raw fun c => ih c
    · rfl

theorem add_argc_raw (raw : aushape_gbuf) (coll : aushape_conv_execve_coll) (level : Nat)
    (au : au_field) :
    aushape_conv_execve_coll_add_argc (set_raw raw coll) level au =
      map_raw raw (aushape_conv_execve_coll_add_argc coll level au) := by
  unfold aushape_conv_execve_coll_add_argc
  have : (set_raw raw coll).arg_num = coll.arg_num := rfl
  rw [this]
  split
  · rfl
  · cases au.str with
    | none => rfl
    | some str =>
      dsimp only
      cases sscanf_zu str with
      | none => rfl
      | some num => rfl

theorem add_arg_raw (E : aushape_escaping) (raw : aushape_gbuf)
    (coll : aushape_conv_execve_coll) (level N : Nat) (au : au_field) :
    aushape_conv_execve_coll_add_arg E (set_raw raw coll) level N au =
      map_raw raw (aushape_conv_execve_coll_add_arg E coll level N au) := by
  unfold aushape_conv_execve_coll_add_arg
  have h1 : (set_raw raw coll).arg_num = coll.arg_num := rfl
  have h2 : (set_raw raw coll).arg_idx = coll.arg_idx := rfl
  rw [h1, h2]
  split
  · rfl
  · rw [add_skipped_raw]
    refine guard_rc_raw fun c => ?_
    cases au.interp with
    | none => rfl
    | some str => exact add_arg_str_raw E raw c level str

theorem add_arg_len_raw (E : aushape_escaping) (raw : aushape_gbuf)
    (coll : aushape_conv_execve_coll) (level N : Nat) (au : au_field) :
    aushape_conv_execve_coll_add_arg_len E (set_raw raw coll) level N au =
      map_raw raw (aushape_conv_execve_coll_add_arg_len E coll level N au) := by
  unfold aushape_conv_execve_coll_add_arg_len
  have h1 : (set_raw raw coll).arg_num = coll.arg_num := rfl
  have h2 : (set_raw raw coll).arg_idx = coll.arg_idx := rfl
  have h3 : (set_raw raw coll).got_len = coll.got_len := rfl
  rw [h1, h2, h3]
  split
  · rfl
  · rw [add_skipped_raw]
    refine guard_rc_raw fun c => ?_
    cases au.str with
    | none => rfl
    | some str =>
      dsimp only
      cases sscanf_zu str with
      | none => rfl
      | some num => rfl

theorem add_arg_slice_begin_raw {raw : aushape_gbuf} {coll : aushape_conv_execve_coll}
    {level K : Nat}
    {k : aushape_conv_execve_coll → aushape_rc × aushape_conv_execve_coll}
    (hk : ∀ c, k (set_raw raw c) = map_raw raw (k c)) :
    add_arg_slice_begin (set_raw raw coll) level K k =
      map_raw raw (add_arg_slice_begin coll level K k) := by
  unfold add_arg_slice_begin
  have hf : (set_raw raw coll).format = coll.format := rfl
  rw [hf]
  split
  · cases coll.format.lang with
    | XML => exact guard_args_raw fun c => guard_args_raw fun c => hk c
    | JSON =>
      exact guard_args_raw fun c => guard_args_raw fun c => guard_args_raw fun c => hk c
  · exact hk coll

theorem add_arg_slice_raw (E : aushape_escaping) (raw : aushape_gbuf)
    (coll : aushape_conv_execve_coll) (level N K : Nat) (au : au_field) :
    aushape_conv_execve_coll_add_arg_slice E (set_raw raw coll) level N K au =
      map_raw raw (aushape_conv_execve_coll_add_arg_slice E coll level N K au) := by
  unfold aushape_conv_execve_coll_add_arg_slice
  have h1 : (set_raw raw coll).arg_num = coll.arg_num := rfl
  have h2 : (set_raw raw coll).arg_idx = coll.arg_idx := rfl
  have h3 : (set_raw raw coll).got_len = coll.got_len := rfl
  have h4 : (set_raw raw coll).slice_idx = coll.slice_idx := rfl
  have h5 : (set_raw raw coll).len_read = coll.len_read := rfl
  have h6 : (set_raw raw coll).len_total = coll.len_total := rfl
  rw [h1, h2, h3, h4, h5, h6]
  split
  · rfl
  · cases au.str with
    | none => rfl
    | some raw_str =>
      cases au.interp with
      | none => rfl
      | some int_str =>
        dsimp only
        split
        · rfl
        · refine add_arg_slice_begin_raw fun c => guard_args_raw fun c => ?_
          have h7 : (set_raw raw c).len_read = c.len_read := rfl
          have h8 : (set_raw raw c).len_total = c.len_total := rfl
          rw [h7, h8]
          split
          · refine @guard_args_raw raw
              { c with len_read := c.len_read + slice_len raw_str.length int_str.length }
              _ _ ?_
            intro c2
            rfl
          · rfl

theorem add_field_raw (E : aushape_escaping) (raw : aushape_gbuf) (l : Nat)
    (au : au_field) (coll : aushape_conv_execve_coll) :
    add_field E l au (set_raw raw coll) = map_raw raw (add_field E l au coll) := by
  rw [add_field_eq, add_field_eq]
  cases au.kind with
  | unreadable => rfl
  | skipped => rfl
  | argc => exact add_argc_raw raw coll l au
  | arg n => exact add_arg_raw E raw coll l n au
  | arg_len n => exact add_arg_len_raw E raw coll l n au
  | arg_slice n k => exact add_arg_slice_raw E raw coll l n k au
  | unknown => rfl

theorem add_fields_raw (E : aushape_escaping) (raw : aushape_gbuf) (l : Nat) :
    ∀ (fs : List au_field) (coll : aushape_conv_execve_coll),
      add_fields E l fs (set_raw raw coll) = map_raw raw (add_fields E l fs coll) := by
  intro fs
  induction fs with
  | nil => intro coll; rfl
  | cons f fs ih =>
    intro coll
    simp only [add_fields]
    rw [add_field_raw]
    exact guard_rc_raw fun c => ih c



/-! ### What the handling of a field leaves alone -/

theorem add_field_ok_frame {E : aushape_escaping} {l : Nat} {au : au_field}
    {coll s1 : aushape_conv_execve_coll}
    (h : add_field E l au coll = (aushape_rc.OK, s1)) :
    s1.format = coll.format ∧ s1.raw = coll.raw ∧ s1.gbuf = coll.gbuf ∧
      s1.args.room = coll.args.room := by
  rw [add_field_eq] at h
  cases hk : au.kind with
  | unreadable => simp [hk] at h
  | skipped =>
    simp only [hk, Prod.mk.injEq, true_and] at h
    subst h; simp
  | argc =>
    simp only [hk] at h
    obtain ⟨_, str, num, _, _, hs⟩ := add_argc_ok h
    subst hs; simp
  | arg n =>
    simp only [hk] at h
    obtain ⟨_, _, v, _, hs⟩ := add_arg_ok h
    subst hs; simp [push_args]
  | arg_len n =>
    simp only [hk] at h
    obtain ⟨_, _, _, str, num, _, _, hs⟩ := add_arg_len_ok h
    subst hs; simp [push_args]
  | arg_slice n k =>
    simp only [hk] at h
    obtain ⟨_, _, _, _, raw_str, int_str, _, _, _, hs⟩ := add_arg_slice_ok h
    subst hs
    unfold slice_accept
    split <;> simp [push_args]
  | unknown => simp [hk] at h

theorem add_fields_ok_frame {E : aushape_escaping} {l : Nat} :
    ∀ {fs : List au_field} {coll s1 : aushape_conv_execve_coll},
      add_fields E l fs coll = (aushape_rc.OK, s1) →
      s1.format = coll.format ∧ s1.raw = coll.raw ∧ s1.gbuf = coll.gbuf ∧
        s1.args.room = coll.args.room := by
  intro fs
  induction fs with
  | nil =>
    intro coll s1 h
    simp only [add_fields, Prod.mk.injEq, true_and] at h
    subst h; simp
  | cons f fs ih =>
    intro coll s1 h
    obtain ⟨c, hc, hk⟩ := add_fields_cons_ok h
    have h1 := add_field_ok_frame hc
    have h2 := ih hk
    exact ⟨h2.1.trans h1.1, h2.2.1.trans h1.2.1, h2.2.2.1.trans h1.2.2.1,
      h2.2.2.2.trans h1.2.2.2⟩

/-! ### Records -/

theorem guard_raw_ok {coll s1 : aushape_conv_execve_coll} {t : List Char}
    {k : aushape_conv_execve_coll → aushape_rc × aushape_conv_execve_coll}
    (h : guard_raw coll (aushape_gbuf_add_buf coll.raw t) k = (aushape_rc.OK, s1)) :
    k (set_raw { coll.raw with ptr := coll.raw.ptr ++ t } coll) = (aushape_rc.OK, s1) := by
  unfold guard_raw at h
  split at h
  · simp at h
  · rename_i g hg
    rw [add_buf_some hg] at h
    exact h

/-- The text that consuming a record appends to the raw log buffer: a newline if
`arg_idx > 0`, then the text of the record. -/
theorem add_ok {E : aushape_escaping} {coll s1 : aushape_conv_execve_coll} {level : Nat}
    {au : au_record}
    (h : aushape_conv_execve_coll_add E coll level au = (aushape_rc.OK, s1)) :
    ∃ text, au.text = some text ∧ au.fields ≠ [] ∧
      add_fields E (arg_level coll.format level) au.fields
        (set_raw { coll.raw with
          ptr := coll.raw.ptr ++ ((if coll.arg_idx > 0 then ['\n'] else []) ++ text) } coll)
        = (aushape_rc.OK, s1) := by
  unfold aushape_conv_execve_coll_add at h
  simp only [aushape_gbuf_add_char] at h
  by_cases hi : coll.arg_idx > 0
  · simp only [hi, if_true] at h
    have h1 := guard_raw_ok h
    split at h1
    · simp at h1
    · rename_i text ht
      have h2 := guard_raw_ok h1
      split at h2
      · simp at h2
      · rename_i f fs hf
        refine ⟨text, ht, by simp [hf], ?_⟩
        rw [hf]
        simpa [set_raw, hi] using h2
  · simp only [hi, if_false] at h
    have h1 : (match au.text with
        | none => (aushape_rc.CONV_AUPARSE_FAILED, coll)
        | some raw =>
          guard_raw coll (aushape_gbuf_add_buf coll.raw raw) fun coll =>
          match au.fields with
          | [] => (aushape_rc.CONV_INVALID_EXECVE, coll)
          | first_field :: rest =>
            add_fields E (arg_level coll.format level) (first_field :: rest) coll) =
        (aushape_rc.OK, s1) := h
    split at h1
    · simp at h1
    · rename_i text ht
      have h2 := guard_raw_ok h1
      split at h2
      · simp at h2
      · rename_i f fs hf
        refine ⟨text, ht, by simp [hf], ?_⟩
        rw [hf]
        simpa [set_raw, hi] using h2

theorem set_raw_eq_of {raw : aushape_gbuf} {x y : aushape_conv_execve_coll}
    (h : set_raw raw x = set_raw raw y) (hr : x.raw = y.raw) : x = y := by
  cases x; cases y
  simp only [set_raw, aushape_conv_execve_coll.mk.injEq] at h
  simp only at hr
  simp only [aushape_conv_execve_coll.mk.injEq]
  exact ⟨h.1, h.2.1, hr, h.2.2.2⟩

theorem set_raw_raw (raw : aushape_gbuf) (c : aushape_conv_execve_coll) :
    (set_raw raw c).raw = raw := rfl

theorem set_raw_set_raw (a b : aushape_gbuf) (c : aushape_conv_execve_coll) :
    set_raw a (set_raw b c) = set_raw a c := rfl

theorem set_raw_self (c : aushape_conv_execve_coll) : set_raw c.raw c = c := rfl

theorem map_raw_ok {raw : aushape_gbuf} {r : aushape_rc × aushape_conv_execve_coll}
    {c : aushape_conv_execve_coll} (h : map_raw raw r = (aushape_rc.OK, c)) :
    ∃ c0, r = (aushape_rc.OK, c0) ∧ set_raw raw c0 = c := by
  obtain ⟨rc, c0⟩ := r
  simp only [map_raw, Prod.mk.injEq] at h
  exact ⟨c0, by rw [h.1], h.2⟩

/-- The fields of the records of an event, handled one after the other, give the
collector that consuming the records gives, but for the raw log buffer. -/
theorem add_records_fields {E : aushape_escaping} {level : Nat} :
    ∀ {recs : List au_record} {coll s1 : aushape_conv_execve_coll},
      add_records E level recs coll = (aushape_rc.OK, s1) →
      add_fields E (arg_level coll.format level) (recs.flatMap fun r => r.fields) coll =
        (aushape_rc.OK, set_raw coll.raw s1) ∧ s1.format = coll.format := by
  intro recs
  induction recs with
  | nil =>
    intro coll s1 h
    simp only [add_records, Prod.mk.injEq, true_and] at h
    subst h
    exact ⟨rfl, rfl⟩
  | cons r rest ih =>
    intro coll s1 h
    simp only [add_records] at h
    obtain ⟨c, hc, hk⟩ := guard_rc_ok_iff.mp h
    obtain ⟨text, _, _, hf⟩ := add_ok hc
    rw [add_fields_raw] at hf
    obtain ⟨c0, hc0, hset⟩ := map_raw_ok hf
    obtain ⟨hrest, hfmt⟩ := ih hk
    have hfr := add_fields_ok_frame hc0
    have hcf : c.format = coll.format := by rw [← hset]; exact hfr.1
    rw [hcf, ← hset, add_fields_raw] at hrest
    obtain ⟨x, hx, hxs⟩ := map_raw_ok hrest
    have hxfr := add_fields_ok_frame hx
    refine ⟨?_, hfmt.trans hcf⟩
    simp only [List.flatMap_cons]
    rw [add_fields_append, hc0, guard_rc_of_ok, hx]
    congr 1
    apply @set_raw_eq_of (set_raw { coll.raw with
          ptr := coll.raw.ptr ++ ((if coll.arg_idx > 0 then ['\n'] else []) ++ text) } c0).raw
    · simp only [set_raw_raw, set_raw_set_raw] at hxs ⊢
      exact hxs
    · rw [hxfr.2.1, hfr.2.1]; rfl



/-! ### Reading bare decimal numbers -/

theorem isspace_of_isDigit {c : Char} (h : c.isDigit = true) : isspace c = false := by
  unfold isspace
  simp only [Bool.or_eq_false_iff, decide_eq_false_iff_not]
  refine ⟨⟨⟨⟨⟨?_, ?_⟩, ?_⟩, ?_⟩, ?_⟩, ?_⟩ <;>
    (rintro rfl; exact absurd h (by decide))

theorem not_sign_of_isDigit {c : Char} (h : c.isDigit = true) : c ≠ '-' ∧ c ≠ '+' := by
  constructor <;> (rintro rfl; exact absurd h (by decide))

theorem sscanf_zu_bare {v : List Char} {n : Nat} (hv : bare_decimal v n)
    (hn : n ≤ SIZE_MAX) : sscanf_zu v = some n := by
  obtain ⟨hne, hd, hval⟩ := hv
  cases v with
  | nil => exact absurd rfl hne
  | cons c t =>
    have hc : c.isDigit = true := hd c (by simp)
    have hsp := isspace_of_isDigit hc
    have hsg := not_sign_of_isDigit hc
    have htw : (c :: t).takeWhile Char.isDigit = c :: t :=
      List.takeWhile_eq_self_iff.mpr hd
    have hdw : (c :: t).dropWhile Char.isDigit = [] :=
      List.dropWhile_eq_nil_iff.mpr hd
    have hscan : scan_zu (c :: t) = some (n, []) := by
      unfold scan_zu
      simp only [List.dropWhile_cons, hsp, Bool.false_eq_true, if_false, List.head?_cons,
        Option.some.injEq, hsg.1, hsg.2, or_self, htw, hdw, decide_False]
      simp [strtoul_val, hval, Nat.not_lt.mpr hn]
    simp [sscanf_zu, hscan]



theorem add_arg_slice_rc (E : aushape_escaping) (coll : aushape_conv_execve_coll)
    (level N K : Nat) (au : au_field) :
    (aushape_conv_execve_coll_add_arg_slice E coll level N K au).1 = aushape_rc.OK ∨
    (aushape_conv_execve_coll_add_arg_slice E coll level N K au).1 = aushape_rc.NOMEM ∨
    (aushape_conv_execve_coll_add_arg_slice E coll level N K au).1 =
      aushape_rc.CONV_AUPARSE_FAILED ∨
    aushape_conv_execve_coll_add_arg_slice E coll level N K au =
      (aushape_rc.CONV_INVALID_EXECVE, coll) := by
  unfold aushape_conv_execve_coll_add_arg_slice
  split
  · exact Or.inr (Or.inr (Or.inr rfl))
  · split
    · exact Or.inr (Or.inr (Or.inl rfl))
    · split
      · exact Or.inr (Or.inr (Or.inl rfl))
      · dsimp only
        split
        · exact Or.inr (Or.inr (Or.inr rfl))
        · have key : ∀ r : aushape_rc × aushape_conv_execve_coll,
              (r.1 = aushape_rc.OK ∨ r.1 = aushape_rc.NOMEM) →
              (r.1 = aushape_rc.OK ∨ r.1 = aushape_rc.NOMEM ∨
                r.1 = aushape_rc.CONV_AUPARSE_FAILED ∨
                r = (aushape_rc.CONV_INVALID_EXECVE, coll)) := by
            intro r hr
            rcases hr with h | h
            · exact Or.inl h
            · exact Or.inr (Or.inl h)
          apply key
          refine add_arg_slice_begin_rc (P := fun rc => rc = aushape_rc.OK ∨ rc = aushape_rc.NOMEM)
            (Or.inr rfl) (fun c => ?_)
          refine guard_args_rc (P := fun rc => rc = aushape_rc.OK ∨ rc = aushape_rc.NOMEM)
            (Or.inr rfl) (fun c => ?_)
          dsimp only
          split
          · refine guard_args_rc
              (P := fun rc => rc = aushape_rc.OK ∨ rc = aushape_rc.NOMEM)
              (Or.inr rfl) (fun c => ?_)
            exact Or.inl rfl
          · exact Or.inl rfl

/-! ### Claims on single fields -/

/-- C4: a slice field `a<N>[<K>]` whose raw and interpreted values can be read is taken
only if `N = arg_idx`, `N < arg_num`, `got_len` holds, `K = slice_idx` and `len_read`
plus the counted length of the slice does not exceed `len_total`; under these
conditions it is taken unless memory runs out (and it is taken when the argument buffer
can always grow); in every other case processing returns `CONV_INVALID_EXECVE`
(InvalidSequence) with the collector, counters and buffers, unchanged. -/
theorem add_arg_slice_accept_iff (E : aushape_escaping) (coll : aushape_conv_execve_coll)
    (level N K : Nat) (au : au_field) (raw_str int_str : List Char)
    (hr : au.str = some raw_str) (hi : au.interp = some int_str) :
    ((aushape_conv_execve_coll_add_arg_slice E coll level N K au).1 = aushape_rc.OK →
      slice_guard coll N K (slice_len raw_str.length int_str.length)) ∧
    (slice_guard coll N K (slice_len raw_str.length int_str.length) →
      coll.args.room = none →
      (aushape_conv_execve_coll_add_arg_slice E coll level N K au).1 = aushape_rc.OK) ∧
    (slice_guard coll N K (slice_len raw_str.length int_str.length) →
      (aushape_conv_execve_coll_add_arg_slice E coll level N K au).1 = aushape_rc.OK ∨
      (aushape_conv_execve_coll_add_arg_slice E coll level N K au).1 = aushape_rc.NOMEM) ∧
    (¬ slice_guard coll N K (slice_len raw_str.length int_str.length) →
      aushape_conv_execve_coll_add_arg_slice E coll level N K au =
        (aushape_rc.CONV_INVALID_EXECVE, coll)) := by
  have hinv := add_arg_slice_invalid E coll level N K au raw_str int_str hr hi
  refine ⟨?_, ?_, ?_, ?_⟩
  · intro hok
    by_contra hng
    rw [hinv hng] at hok
    simp at hok
  · intro hg hroom
    rw [add_arg_slice_unbounded E coll level N K au raw_str int_str hg.1 hg.2.1 hg.2.2.1
      hg.2.2.2.1 hr hi hg.2.2.2.2 hroom]
  · intro hg
    rcases add_arg_slice_rc E coll level N K au with h | h | h | h
    · exact Or.inl h
    · exact Or.inr h
    · exfalso
      unfold aushape_conv_execve_coll_add_arg_slice at h
      have hg4 : (N = coll.arg_idx ∧ N < coll.arg_num ∧ coll.got_len = true ∧
          K = coll.slice_idx) := ⟨hg.1, hg.2.1, hg.2.2.1, hg.2.2.2.1⟩
      rw [if_neg (not_not.mpr hg4)] at h
      simp only [hr, hi] at h
      rw [if_neg (not_not.mpr hg.2.2.2.2)] at h
      revert h
      refine add_arg_slice_begin_rc (P := fun rc => ¬ rc = aushape_rc.CONV_AUPARSE_FAILED)
        (by decide) (fun c => ?_)
      refine guard_args_rc (P := fun rc => ¬ rc = aushape_rc.CONV_AUPARSE_FAILED)
        (by decide) (fun c => ?_)
      dsimp only
      split
      · refine guard_args_rc (P := fun rc => ¬ rc = aushape_rc.CONV_AUPARSE_FAILED)
          (by decide) (fun c => ?_)
        simp
      · simp
    · exfalso
      have hu := add_arg_slice_invalid E coll level N K au raw_str int_str hr hi
      unfold aushape_conv_execve_coll_add_arg_slice at h
      have hg4 : (N = coll.arg_idx ∧ N < coll.arg_num ∧ coll.got_len = true ∧
          K = coll.slice_idx) := ⟨hg.1, hg.2.1, hg.2.2.1, hg.2.2.2.1⟩
      rw [if_neg (not_not.mpr hg4)] at h
      simp only [hr, hi] at h
      rw [if_neg (not_not.mpr hg.2.2.2.2)] at h
      have h1 := congrArg Prod.fst h
      revert h1
      refine add_arg_slice_begin_rc (P := fun rc => ¬ rc = aushape_rc.CONV_INVALID_EXECVE)
        (by decide) (fun c => ?_)
      refine guard_args_rc (P := fun rc => ¬ rc = aushape_rc.CONV_INVALID_EXECVE)
        (by decide) (fun c => ?_)
      dsimp only
      split
      · refine guard_args_rc (P := fun rc => ¬ rc = aushape_rc.CONV_INVALID_EXECVE)
          (by decide) (fun c => ?_)
        simp
      · simp
  · exact hinv

/-- C4, witness: the slice `a1[0]` with raw value `2f74` and interpreted value `/t`
arriving after `a1_len=4`. -/
theorem add_arg_slice_accept_iff_witness :
    (aushape_conv_execve_coll_add_arg_slice escaping_id
      { coll_zero format_json0 with arg_num := 2, arg_idx := 1, got_len := true,
                                    len_total := 4 }
      2 1 0 (field_of "a1[0]" "2f74" "/t")).1 = aushape_rc.OK ∧
    (aushape_conv_execve_coll_add_arg_slice escaping_id
      { coll_zero format_json0 with arg_num := 2, arg_idx := 1, got_len := true,
                                    len_total := 4 }
      2 1 1 (field_of "a1[1]" "2f74" "/t")) =
      (aushape_rc.CONV_INVALID_EXECVE,
        { coll_zero format_json0 with arg_num := 2, arg_idx := 1, got_len := true,
                                      len_total := 4 }) :=
  ⟨(add_arg_slice_accept_iff escaping_id _ 2 1 0 (field_of "a1[0]" "2f74" "/t")
      "2f74".toList "/t".toList rfl rfl).2.1 (by decide) rfl,
   (add_arg_slice_accept_iff escaping_id _ 2 1 1 (field_of "a1[1]" "2f74" "/t")
      "2f74".toList "/t".toList rfl rfl).2.2.2 (by decide)⟩



/-- C5: the length counted for a slice is the raw length not only when the interpreted
length is exactly half of it, but also for an odd raw length `2 * i + 1` with
interpreted length `i` (the code compares with `raw_len / 2`, which rounds down). A
double-quoted slice of one character, raw `"x"` (3 characters) interpreted `x`, is
counted as 3: following `a1_len=1` it is rejected with `CONV_INVALID_EXECVE`. In the
other cases the claim holds: the raw length is counted when `2 * i = r`, the
interpreted length when `i` differs from `r / 2`. -/
theorem slice_len_odd_raw :
    slice_len 3 1 = 3 ∧
    (∀ i, slice_len (2 * i + 1) i = 2 * i + 1) ∧
    (∀ r i, 2 * i = r → slice_len r i = r) ∧
    (∀ r i, i ≠ r / 2 → slice_len r i = i) ∧
    (aushape_conv_execve_coll_add escaping_id (coll_zero format_json0) 0
      { text := some "type=EXECVE argc=2 a0=ls a1_len=1 a1[0]=\"x\"".toList
        fields := [field_of "argc" "2" "2", field_of "a0" "ls" "ls",
                   field_of "a1_len" "1" "1", field_of "a1[0]" "\"x\"" "x"] }).1 =
      aushape_rc.CONV_INVALID_EXECVE := by
  refine ⟨by decide, ?_, ?_, ?_, by decide⟩
  · intro i
    have : i = (2 * i + 1) / 2 := by omega
    simp [slice_len, ← this]
  · intro r i h
    have : i = r / 2 := by omega
    simp [slice_len, this]
  · intro r i h
    simp [slice_len, h]

/-- C7, as the code has it: processing an `argc` field returns `CONV_INVALID_EXECVE`
with the collector unchanged whenever `arg_num` is already non-zero; when `arg_num` is
0 and the value of the field can be read, the outcome is decided by `sscanf` with
`%zu%n`: if it reads a number consuming the whole value, the field is accepted,
`arg_num` becomes that number and nothing else changes, otherwise the result is
`CONV_INVALID_EXECVE` with the collector unchanged. A bare unsigned decimal integer
`n` not above `SIZE_MAX` is read as `n`. -/
theorem add_argc_spec (coll : aushape_conv_execve_coll) (level : Nat) (au : au_field) :
    (coll.arg_num ≠ 0 →
      aushape_conv_execve_coll_add_argc coll level au =
        (aushape_rc.CONV_INVALID_EXECVE, coll)) ∧
    (∀ v n, coll.arg_num = 0 → au.str = some v → sscanf_zu v = some n →
      aushape_conv_execve_coll_add_argc coll level au =
        (aushape_rc.OK, { coll with arg_num := n })) ∧
    (∀ v, coll.arg_num = 0 → au.str = some v → sscanf_zu v = none →
      aushape_conv_execve_coll_add_argc coll level au =
        (aushape_rc.CONV_INVALID_EXECVE, coll)) ∧
    (∀ v n, bare_decimal v n → n ≤ SIZE_MAX → sscanf_zu v = some n) := by
  refine ⟨?_, ?_, ?_, ?_⟩
  · intro h
    simp [aushape_conv_execve_coll_add_argc, h]
  · intro v n h0 hv hn
    simp [aushape_conv_execve_coll_add_argc, h0, hv, hn]
  · intro v h0 hv hn
    simp [aushape_conv_execve_coll_add_argc, h0, hv, hn]
  · intro v n hb hn
    exact sscanf_zu_bare hb hn

/-- C7, counterexample: the value `+3` is not a bare unsigned decimal integer, yet the
field `argc=+3` is accepted and sets `arg_num` to 3. -/
theorem add_argc_signed_value :
    (¬ ∃ n, bare_decimal "+3".toList n) ∧
    (coll_zero format_json0).arg_num = 0 ∧
    aushape_conv_execve_coll_add_argc (coll_zero format_json0) 0
      (field_of "argc" "+3" "+3") =
      (aushape_rc.OK, { coll_zero format_json0 with arg_num := 3 }) := by
  refine ⟨?_, rfl, by decide⟩
  rintro ⟨n, _, hd, _⟩
  exact absurd (hd '+' (by decide)) (by decide)

/-- C9: processing a whole-argument field `a<N>` returns `CONV_INVALID_EXECVE`
(InvalidSequence) if and only if `N < arg_idx` or `N >= arg_num`, and in that case
the collector is returned as it was: nothing is appended to the argument buffer and no
field changes. -/
theorem add_arg_invalid_iff (E : aushape_escaping) (coll : aushape_conv_execve_coll)
    (level N : Nat) (au : au_field) :
    ((aushape_conv_execve_coll_add_arg E coll level N au).1 =
        aushape_rc.CONV_INVALID_EXECVE ↔ (N < coll.arg_idx ∨ N ≥ coll.arg_num)) ∧
    ((aushape_conv_execve_coll_add_arg E coll level N au).1 =
        aushape_rc.CONV_INVALID_EXECVE →
      aushape_conv_execve_coll_add_arg E coll level N au =
        (aushape_rc.CONV_INVALID_EXECVE, coll)) := by
  have hiff := add_arg_rc E coll level N au
  have hrange : ¬ (coll.arg_idx ≤ N ∧ N < coll.arg_num) ↔
      (N < coll.arg_idx ∨ N ≥ coll.arg_num) := by
    constructor
    · intro h; by_contra hc; exact h ⟨by omega, by omega⟩
    · rintro (h | h) ⟨h1, h2⟩ <;> omega
  refine ⟨hiff.trans hrange, ?_⟩
  intro h
  have hg := hiff.mp h
  unfold aushape_conv_execve_coll_add_arg
  rw [if_pos (by simpa using hg)]



/-! ### Finalizing -/

theorem guard_gbuf_ok {coll s1 : aushape_conv_execve_coll} {t : List Char}
    {k : aushape_conv_execve_coll → aushape_rc × aushape_conv_execve_coll}
    (h : guard_gbuf coll (aushape_gbuf_add_buf coll.gbuf t) k = (aushape_rc.OK, s1)) :
    k (push_gbuf coll t) = (aushape_rc.OK, s1) := by
  unfold guard_gbuf at h
  split at h
  · simp at h
  · rename_i g hg
    rw [add_buf_some hg] at h
    exact h

theorem guard_gbuf_unbounded {coll : aushape_conv_execve_coll} (t : List Char)
    (k : aushape_conv_execve_coll → aushape_rc × aushape_conv_execve_coll)
    (h : coll.gbuf.room = none) :
    guard_gbuf coll (aushape_gbuf_add_buf coll.gbuf t) k = k (push_gbuf coll t) := by
  rw [add_buf_unbounded t h]
  rfl

theorem guard_gbuf_some (coll : aushape_conv_execve_coll)
    (k : aushape_conv_execve_coll → aushape_rc × aushape_conv_execve_coll) :
    guard_gbuf coll (some coll.gbuf) k = k coll := rfl

theorem end_arguments_ok {E : aushape_escaping} {level : Nat}
    {coll s1 : aushape_conv_execve_coll} (hle : coll.arg_idx ≤ coll.arg_num)
    (h : end_arguments E level coll = (aushape_rc.OK, s1)) :
    s1 = push_gbuf
      { push_args coll (args_markup E coll.format (arg_level coll.format level)
          coll.arg_idx (List.replicate (coll.arg_num - coll.arg_idx) [[]])) with
        arg_idx := coll.arg_num }
      ((coll.args.ptr ++ args_markup E coll.format (arg_level coll.format level)
          coll.arg_idx (List.replicate (coll.arg_num - coll.arg_idx) [[]])) ++
        end_epilogue coll.format level
          (coll.args.ptr ++ args_markup E coll.format (arg_level coll.format level)
            coll.arg_idx (List.replicate (coll.arg_num - coll.arg_idx) [[]]))) := by
  unfold end_arguments at h
  obtain ⟨c, hc, hk⟩ := guard_rc_ok_iff.mp h
  have hc1 := add_skipped_ok _ _ _ (by omega) hc
  have h1 := guard_gbuf_ok hk
  cases hl : coll.format.lang with
  | XML =>
    have hl1 : (push_gbuf c c.args.ptr).format.lang = aushape_lang.XML := by
      rw [hc1]; exact hl
    simp only [hl1, aushape_gbuf_space_closing, aushape_gbuf_add_str] at h1
    have h2 := guard_gbuf_ok h1
    have h3 := guard_gbuf_ok h2
    simp only [Prod.mk.injEq, true_and] at h3
    rw [← h3, hc1]
    simp [push_gbuf, push_args, end_epilogue, hl]
  | JSON =>
    have hl1 : (push_gbuf c c.args.ptr).format.lang = aushape_lang.JSON := by
      rw [hc1]; exact hl
    simp only [hl1, aushape_gbuf_space_closing, aushape_gbuf_add_char] at h1
    by_cases hlen : (push_gbuf c c.args.ptr).args.ptr.length > 0
    · rw [if_pos hlen] at h1
      have h2 := guard_gbuf_ok h1
      have h3 := guard_gbuf_ok h2
      have h4 := guard_gbuf_ok h3
      have h5 := guard_gbuf_ok h4
      simp only [Prod.mk.injEq, true_and] at h5
      have hlen1 : (coll.args.ptr ++ args_markup E coll.format (arg_level coll.format level)
          coll.arg_idx (List.replicate (coll.arg_num - coll.arg_idx) [[]])).length > 0 := by
        rw [hc1] at hlen; simpa [push_gbuf, push_args] using hlen
      rw [← h5, hc1]
      simp only [end_epilogue, hl, if_pos hlen1]
      simp [push_gbuf, push_args]
    · rw [if_neg hlen, guard_gbuf_some] at h1
      have h3 := guard_gbuf_ok h1
      have h4 := guard_gbuf_ok h3
      have h5 := guard_gbuf_ok h4
      simp only [Prod.mk.injEq, true_and] at h5
      have hlen1 : ¬ (coll.args.ptr ++ args_markup E coll.format
          (arg_level coll.format level)
          coll.arg_idx (List.replicate (coll.arg_num - coll.arg_idx) [[]])).length > 0 := by
        rw [hc1] at hlen; simpa [push_gbuf, push_args] using hlen
      rw [← h5, hc1]
      simp only [end_epilogue, hl, if_neg hlen1]
      simp [push_gbuf, push_args]

theorem end_arguments_unbounded (E : aushape_escaping) (level : Nat)
    (coll : aushape_conv_execve_coll) (hle : coll.arg_idx ≤ coll.arg_num)
    (hg : coll.gbuf.room = none) (ha : coll.args.room = none) :
    end_arguments E level coll = (aushape_rc.OK, push_gbuf
      { push_args coll (args_markup E coll.format (arg_level coll.format level)
          coll.arg_idx (List.replicate (coll.arg_num - coll.arg_idx) [[]])) with
        arg_idx := coll.arg_num }
      ((coll.args.ptr ++ args_markup E coll.format (arg_level coll.format level)
          coll.arg_idx (List.replicate (coll.arg_num - coll.arg_idx) [[]])) ++
        end_epilogue coll.format level
          (coll.args.ptr ++ args_markup E coll.format (arg_level coll.format level)
            coll.arg_idx (List.replicate (coll.arg_num - coll.arg_idx) [[]])))) := by
  unfold end_arguments
  rw [add_skipped_unbounded E _ _ _ coll (by omega) ha, guard_rc_of_ok,
    guard_gbuf_unbounded _ _ (by simpa [push_args] using hg)]
  cases hl : coll.format.lang with
  | XML =>
    simp only [push_gbuf, push_args, hl, aushape_gbuf_space_closing, aushape_gbuf_add_str]
    rw [guard_gbuf_unbounded _ _ (by simpa using hg),
      guard_gbuf_unbounded _ _ (by simpa [push_gbuf] using hg)]
    simp [push_gbuf, end_epilogue, hl]
  | JSON =>
    simp only [push_gbuf, push_args, hl, aushape_gbuf_space_closing, aushape_gbuf_add_char]
    by_cases hlen : (coll.args.ptr ++ args_markup E coll.format (arg_level coll.format level)
          coll.arg_idx (List.replicate (coll.arg_num - coll.arg_idx) [[]])).length > 0
    · rw [if_pos hlen]
      rw [guard_gbuf_unbounded _ _ (by simpa using hg),
        guard_gbuf_unbounded _ _ (by simpa [push_gbuf] using hg),
        guard_gbuf_unbounded _ _ (by simpa [push_gbuf] using hg),
        guard_gbuf_unbounded _ _ (by simpa [push_gbuf] using hg)]
      simp only [end_epilogue, hl, if_pos hlen]
      simp [push_gbuf]
    · rw [if_neg hlen, guard_gbuf_some]
      rw [guard_gbuf_unbounded _ _ (by simpa using hg),
        guard_gbuf_unbounded _ _ (by simpa [push_gbuf] using hg),
        guard_gbuf_unbounded _ _ (by simpa [push_gbuf] using hg)]
      simp only [end_epilogue, hl, if_neg hlen]
      simp [push_gbuf]

theorem end_run_ok {E : aushape_escaping} {level : Nat} {pfirst : Bool}
    {coll s1 : aushape_conv_execve_coll} (hle : coll.arg_idx ≤ coll.arg_num)
    (h : end_run E coll level pfirst = (aushape_rc.OK, s1)) :
    s1 = end_result E coll level pfirst := by
  unfold end_run at h
  cases hl : coll.format.lang with
  | XML =>
    simp only [hl, aushape_gbuf_space_opening, aushape_gbuf_add_str,
      aushape_gbuf_add_str_xml] at h
    have h1 := guard_gbuf_ok h
    have h2 := guard_gbuf_ok h1
    have h3 := guard_gbuf_ok h2
    have h4 := guard_gbuf_ok h3
    have h5 := end_arguments_ok (by simpa [push_gbuf] using hle) h4
    rw [h5]
    simp [push_gbuf, push_args, end_result, end_prologue, hl]
  | JSON =>
    simp only [hl, aushape_gbuf_space_opening, aushape_gbuf_add_str,
      aushape_gbuf_add_str_json, aushape_gbuf_add_char] at h
    cases pfirst with
    | true =>
      simp only [not_true_eq_false, if_false] at h
      rw [guard_gbuf_some] at h
      have h2 := guard_gbuf_ok h
      have h3 := guard_gbuf_ok h2
      have h4 := guard_gbuf_ok h3
      have h5 := guard_gbuf_ok h4
      have h6 := guard_gbuf_ok h5
      have h7 := guard_gbuf_ok h6
      have h8 := guard_gbuf_ok h7
      have h9 := guard_gbuf_ok h8
      have h10 := end_arguments_ok (by simpa [push_gbuf] using hle) h9
      rw [h10]
      simp [push_gbuf, push_args, end_result, end_prologue, hl]
    | false =>
      simp only [Bool.false_eq_true, not_false_eq_true, if_true] at h
      have h1 := guard_gbuf_ok h
      have h2 := guard_gbuf_ok h1
      have h3 := guard_gbuf_ok h2
      have h4 := guard_gbuf_ok h3
      have h5 := guard_gbuf_ok h4
      have h6 := guard_gbuf_ok h5
      have h7 := guard_gbuf_ok h6
      have h8 := guard_gbuf_ok h7
      have h9 := guard_gbuf_ok h8
      have h10 := end_arguments_ok (by simpa [push_gbuf] using hle) h9
      rw [h10]
      simp [push_gbuf, push_args, end_result, end_prologue, hl]

theorem end_run_unbounded (E : aushape_escaping) (level : Nat) (pfirst : Bool)
    (coll : aushape_conv_execve_coll) (hle : coll.arg_idx ≤ coll.arg_num)
    (hg : coll.gbuf.room = none) (ha : coll.args.room = none) :
    end_run E coll level pfirst = (aushape_rc.OK, end_result E coll level pfirst) := by
  unfold end_run
  cases hl : coll.format.lang with
  | XML =>
    simp only [aushape_gbuf_space_opening, aushape_gbuf_add_str,
      aushape_gbuf_add_str_xml]
    rw [guard_gbuf_unbounded _ _ hg,
      guard_gbuf_unbounded _ _ (by simpa [push_gbuf] using hg),
      guard_gbuf_unbounded _ _ (by simpa [push_gbuf] using hg),
      guard_gbuf_unbounded _ _ (by simpa [push_gbuf] using hg),
      end_arguments_unbounded E level _ (by simpa [push_gbuf] using hle)
        (by simpa [push_gbuf] using hg) (by simpa [push_gbuf] using ha)]
    simp [push_gbuf, push_args, end_result, end_prologue, hl]
  | JSON =>
    simp only [aushape_gbuf_space_opening, aushape_gbuf_add_str,
      aushape_gbuf_add_str_json, aushape_gbuf_add_char]
    cases pfirst with
    | true =>
      simp only [not_true_eq_false, if_false]
      rw [guard_gbuf_some, guard_gbuf_unbounded _ _ hg,
        guard_gbuf_unbounded _ _ (by simpa [push_gbuf] using hg),
        guard_gbuf_unbounded _ _ (by simpa [push_gbuf] using hg),
        guard_gbuf_unbounded _ _ (by simpa [push_gbuf] using hg),
        guard_gbuf_unbounded _ _ (by simpa [push_gbuf] using hg),
        guard_gbuf_unbounded _ _ (by simpa [push_gbuf] using hg),
        guard_gbuf_unbounded _ _ (by simpa [push_gbuf] using hg),
        guard_gbuf_unbounded _ _ (by simpa [push_gbuf] using hg),
        end_arguments_unbounded E level _ (by simpa [push_gbuf] using hle)
          (by simpa [push_gbuf] using hg) (by simpa [push_gbuf] using ha)]
      simp [push_gbuf, push_args, end_result, end_prologue, hl]
    | false =>
      simp only [Bool.false_eq_true, not_false_eq_true, if_true]
      rw [guard_gbuf_unbounded _ _ hg,
        guard_gbuf_unbounded _ _ (by simpa [push_gbuf] using hg),
        guard_gbuf_unbounded _ _ (by simpa [push_gbuf] using hg),
        guard_gbuf_unbounded _ _ (by simpa [push_gbuf] using hg),
        guard_gbuf_unbounded _ _ (by simpa [push_gbuf] using hg),
        guard_gbuf_unbounded _ _ (by simpa [push_gbuf] using hg),
        guard_gbuf_unbounded _ _ (by simpa [push_gbuf] using hg),
        guard_gbuf_unbounded _ _ (by simpa [push_gbuf] using hg),
        guard_gbuf_unbounded _ _ (by simpa [push_gbuf] using hg),
        end_arguments_unbounded E level _ (by simpa [push_gbuf] using hle)
          (by simpa [push_gbuf] using hg) (by simpa [push_gbuf] using ha)]
      simp [push_gbuf, push_args, end_result, end_prologue, hl]



/-! ### Runs without allocation failure -/

theorem guard_raw_unbounded {coll : aushape_conv_execve_coll} (t : List Char)
    (k : aushape_conv_execve_coll → aushape_rc × aushape_conv_execve_coll)
    (h : coll.raw.room = none) :
    guard_raw coll (aushape_gbuf_add_buf coll.raw t) k =
      k (set_raw { coll.raw with ptr := coll.raw.ptr ++ t } coll) := by
  rw [add_buf_unbounded t h]
  rfl

theorem add_unbounded (E : aushape_escaping) (coll : aushape_conv_execve_coll)
    (level : Nat) (text : List Char) (f : au_field) (fs : List au_field)
    (hroom : coll.raw.room = none) :
    aushape_conv_execve_coll_add E coll level { text := some text, fields := f :: fs } =
      add_fields E (arg_level coll.format level) (f :: fs)
        (set_raw { coll.raw with
          ptr := coll.raw.ptr ++ ((if coll.arg_idx > 0 then ['\n'] else []) ++ text) }
          coll) := by
  unfold aushape_conv_execve_coll_add
  simp only [aushape_gbuf_add_char]
  by_cases hi : coll.arg_idx > 0
  · simp only [hi, if_true]
    rw [guard_raw_unbounded _ _ hroom, guard_raw_unbounded _ _ (by simpa [set_raw] using hroom)]
    simp [set_raw]
  · simp only [hi, if_false]
    show guard_raw coll (aushape_gbuf_add_buf coll.raw text) _ = _
    rw [guard_raw_unbounded _ _ hroom]
    simp [set_raw]

theorem add_fields_nil (E : aushape_escaping) (l : Nat)
    (coll : aushape_conv_execve_coll) :
    add_fields E l [] coll = (aushape_rc.OK, coll) := rfl

theorem add_fields_cons (E : aushape_escaping) (l : Nat) (f : au_field)
    (fs : List au_field) (coll : aushape_conv_execve_coll) :
    add_fields E l (f :: fs) coll =
      guard_rc (add_field E l f coll) fun c => add_fields E l fs c := rfl

theorem add_field_argc (E : aushape_escaping) (l : Nat) (au : au_field)
    (coll : aushape_conv_execve_coll) (v : List Char) (n : Nat)
    (hk : au.kind = field_kind.argc) (h0 : coll.arg_num = 0) (hv : au.str = some v)
    (hn : sscanf_zu v = some n) :
    add_field E l au coll = (aushape_rc.OK, { coll with arg_num := n }) := by
  rw [add_field_eq, hk]
  simp [aushape_conv_execve_coll_add_argc, h0, hv, hn]

theorem add_field_arg (E : aushape_escaping) (l N : Nat) (au : au_field)
    (coll : aushape_conv_execve_coll) (v : List Char)
    (hk : au.kind = field_kind.arg N) (hlo : coll.arg_idx ≤ N) (hhi : N < coll.arg_num)
    (hv : au.interp = some v) (hroom : coll.args.room = none) :
    add_field E l au coll =
      (aushape_rc.OK,
        { push_args coll (args_markup E coll.format l coll.arg_idx
            (List.replicate (N - coll.arg_idx) [[]] ++ [[v]])) with
          arg_idx := N + 1 }) := by
  rw [add_field_eq, hk]
  exact add_arg_unbounded E coll l N au v hlo hhi hv hroom

theorem add_field_arg_len (E : aushape_escaping) (l N : Nat) (au : au_field)
    (coll : aushape_conv_execve_coll) (str : List Char) (num : Nat)
    (hk : au.kind = field_kind.arg_len N) (hlo : coll.arg_idx ≤ N)
    (hhi : N < coll.arg_num) (hgl : coll.got_len = false) (hs : au.str = some str)
    (hn : sscanf_zu str = some num) (hroom : coll.args.room = none) :
    add_field E l au coll =
      (aushape_rc.OK,
        { push_args coll (args_markup E coll.format l coll.arg_idx
            (List.replicate (N - coll.arg_idx) [[]])) with
          arg_idx := N, got_len := true, len_total := num }) := by
  rw [add_field_eq, hk]
  exact add_arg_len_unbounded E coll l N au str num hlo hhi hgl hs hn hroom

theorem add_field_arg_slice (E : aushape_escaping) (l N K : Nat) (au : au_field)
    (coll : aushape_conv_execve_coll) (raw_str int_str : List Char)
    (hk : au.kind = field_kind.arg_slice N K)
    (hg : slice_guard coll N K (slice_len raw_str.length int_str.length))
    (hr : au.str = some raw_str) (hi : au.interp = some int_str)
    (hroom : coll.args.room = none) :
    add_field E l au coll =
      (aushape_rc.OK,
        slice_accept E coll l K int_str (slice_len raw_str.length int_str.length)) := by
  rw [add_field_eq, hk]
  exact add_arg_slice_unbounded E coll l N K au raw_str int_str hg.1 hg.2.1 hg.2.2.1
    hg.2.2.2.1 hr hi hg.2.2.2.2 hroom

/-- C2: for `arg_idx <= N < arg_num` and a readable interpreted value `v`, processing
the whole-argument field `a<N>` either fails for lack of memory or appends exactly
`N - arg_idx` empty-string arguments followed by the argument `v` to the argument
buffer and sets `arg_idx` to `N + 1`, leaving `arg_num`, `got_len`, `slice_idx`,
`len_total` and `len_read` unchanged; it succeeds when the argument buffer can always
grow. In particular an event of one record with `argc=3` and only `a0=v0` and `a2=v2`
is consumed and finalized with the argument list `[v0, "", v2]`. -/
theorem add_arg_whole (E : aushape_escaping) (coll : aushape_conv_execve_coll)
    (level N : Nat) (au : au_field) (v : List Char)
    (hlo : coll.arg_idx ≤ N) (hhi : N < coll.arg_num) (hv : au.interp = some v) :
    (∀ s1, aushape_conv_execve_coll_add_arg E coll level N au = (aushape_rc.OK, s1) →
      s1.args.ptr = coll.args.ptr ++ args_markup E coll.format level coll.arg_idx
        (List.replicate (N - coll.arg_idx) [[]] ++ [[v]]) ∧
      s1.arg_idx = N + 1 ∧ s1.arg_num = coll.arg_num ∧ s1.got_len = coll.got_len ∧
      s1.slice_idx = coll.slice_idx ∧ s1.len_total = coll.len_total ∧
      s1.len_read = coll.len_read) ∧
    (coll.args.room = none →
      (aushape_conv_execve_coll_add_arg E coll level N au).1 = aushape_rc.OK) ∧
    ((aushape_conv_execve_coll_add_arg E coll level N au).1 = aushape_rc.OK ∨
      (aushape_conv_execve_coll_add_arg E coll level N au).1 = aushape_rc.NOMEM) ∧
    (∀ (format : aushape_format) (lvl : Nat) (pfirst : Bool) (text v0 v2 : List Char)
        (r0 r2 : Option (List Char)),
      ∃ s2,
        execve_event E (coll_zero format) lvl pfirst
          [{ text := some text
             fields := [field_of "argc" "3" "3",
                        { name := some "a0".toList, str := r0, interp := some v0 },
                        { name := some "a2".toList, str := r2, interp := some v2 }] }] =
          (aushape_rc.OK, s2, false) ∧
        s2.args.ptr = args_markup E format (arg_level format lvl) 0 [[v0], [[]], [v2]] ∧
        s2.arg_idx = 3 ∧ s2.arg_num = 3) := by
  refine ⟨?_, ?_, ?_, ?_⟩
  · intro s1 h
    obtain ⟨_, _, w, hw, hs⟩ := add_arg_ok h
    rw [hv] at hw
    cases hw
    subst hs
    simp [push_args]
  · intro hroom
    rw [add_arg_unbounded E coll level N au v hlo hhi hv hroom]
  · unfold aushape_conv_execve_coll_add_arg
    rw [if_neg (not_not.mpr ⟨hlo, hhi⟩)]
    refine guard_rc_rc (P := fun rc => rc = aushape_rc.OK ∨ rc = aushape_rc.NOMEM)
      (fun hne => ?_) (fun c => ?_)
    · exact Or.inr ((add_skipped_rc E level N (N - coll.arg_idx) coll).resolve_left hne)
    · simp only [hv]
      exact add_arg_str_rc E c level v
  · intro format lvl pfirst text v0 v2 r0 r2
    have hadd : ∃ s1,
        aushape_conv_execve_coll_add E (coll_zero format) lvl
          { text := some text
            fields := [field_of "argc" "3" "3",
                       { name := some "a0".toList, str := r0, interp := some v0 },
                       { name := some "a2".toList, str := r2, interp := some v2 }] } =
          (aushape_rc.OK, s1) ∧
        s1.args.ptr = args_markup E format (arg_level format lvl) 0 [[v0], [[]], [v2]] ∧
        s1.arg_idx = 3 ∧ s1.arg_num = 3 ∧ s1.gbuf.room = none ∧ s1.args.room = none ∧
        s1.format = format := by
      rw [add_unbounded E _ _ _ _ _ rfl, add_fields_cons,
        add_field_argc E _ _ _ "3".toList 3 (by decide) rfl rfl (by decide),
        guard_rc_of_ok, add_fields_cons,
        add_field_arg E _ 0 _ _ v0 (by rfl) (by simp [set_raw, coll_zero])
          (by simp [set_raw, coll_zero]) rfl rfl,
        guard_rc_of_ok, add_fields_cons,
        add_field_arg E _ 2 _ _ v2 (by rfl) (by simp [set_raw, coll_zero, push_args])
          (by simp [set_raw, coll_zero, push_args]) rfl rfl,
        guard_rc_of_ok, add_fields_nil]
      refine ⟨_, rfl, ?_, rfl, rfl, rfl, rfl, rfl⟩
      simp [push_args, set_raw, coll_zero, args_markup]
    obtain ⟨s1, h1, hargs, hidx, hnum, hg, ha, hf⟩ := hadd
    refine ⟨end_result E s1 lvl pfirst, ?_, ?_, ?_, ?_⟩
    · simp only [execve_event, add_records, h1, guard_rc, aushape_conv_execve_coll_end]
      rw [end_run_unbounded E lvl pfirst s1 (by omega) hg ha]
      simp
    · simp [end_result, hargs, hidx, hnum, args_markup, hf]
    · simp [end_result, hnum]
    · simp [end_result, hnum]

/-- C2, witness: the field `a2=v2` arriving when `arg_idx` is 1 and `arg_num` is 3. -/
theorem add_arg_whole_witness :
    (aushape_conv_execve_coll_add_arg escaping_id
      { coll_zero format_json0 with arg_num := 3, arg_idx := 1 } 2 2
      (field_of "a2" "v2" "v2")).1 = aushape_rc.OK :=
  (add_arg_whole escaping_id { coll_zero format_json0 with arg_num := 3, arg_idx := 1 }
    2 2 (field_of "a2" "v2" "v2") "v2".toList (by decide) (by decide) rfl).2.1 rfl



/-- C3: when a slice `a<N>[<K>]` with raw value `raw_str` and interpreted value
`int_str`, of counted length `len`, is accepted: if `len_read + len = len_total` the
argument is closed, that is its markup terminator is appended after the slice,
`got_len` becomes false, `slice_idx`, `len_total` and `len_read` become 0 and
`arg_idx` increases by exactly 1; otherwise `slice_idx` increases by exactly 1,
`len_read` increases by `len`, and `arg_idx`, `got_len` and `len_total` are unchanged.
In particular, in JSON with fold level 0, the record `argc=2 a0=/bin/ls a1_len=4
a1[0]=2f74` (interpreted `/t`) is consumed and finalized with the argument list
`["/bin/ls", "/t"]`, the second argument being closed after its single slice. -/
theorem add_arg_slice_effect (E : aushape_escaping) (coll s1 : aushape_conv_execve_coll)
    (level N K : Nat) (au : au_field) (raw_str int_str : List Char)
    (hr : au.str = some raw_str) (hi : au.interp = some int_str)
    (h : aushape_conv_execve_coll_add_arg_slice E coll level N K au =
      (aushape_rc.OK, s1)) :
    (coll.len_read + slice_len raw_str.length int_str.length = coll.len_total →
      s1.args.ptr =
        coll.args.ptr ++ slice_text E coll.format level coll.arg_idx K int_str true ∧
      s1.got_len = false ∧ s1.slice_idx = 0 ∧ s1.len_total = 0 ∧ s1.len_read = 0 ∧
      s1.arg_idx = coll.arg_idx + 1 ∧ s1.arg_num = coll.arg_num) ∧
    (coll.len_read + slice_len raw_str.length int_str.length ≠ coll.len_total →
      s1.args.ptr =
        coll.args.ptr ++ slice_text E coll.format level coll.arg_idx K int_str false ∧
      s1.slice_idx = coll.slice_idx + 1 ∧
      s1.len_read = coll.len_read + slice_len raw_str.length int_str.length ∧
      s1.arg_idx = coll.arg_idx ∧ s1.got_len = coll.got_len ∧
      s1.len_total = coll.len_total ∧ s1.arg_num = coll.arg_num) ∧
    (∀ (format : aushape_format) (lvl : Nat) (pfirst : Bool) (text : List Char),
      format.lang = aushape_lang.JSON → format.fold_level = 0 →
      ∃ s2,
        execve_event E (coll_zero format) lvl pfirst
          [{ text := some text
             fields := [field_of "argc" "2" "2", field_of "a0" "/bin/ls" "/bin/ls",
                        field_of "a1_len" "4" "4", field_of "a1[0]" "2f74" "/t"] }] =
          (aushape_rc.OK, s2, false) ∧
        s2.args.ptr = args_markup E format (arg_level format lvl) 0
          [["/bin/ls".toList], ["/t".toList]] ∧
        s2.args.ptr = "\"".toList ++ E.json "/bin/ls".toList ++ "\",\"".toList ++
          E.json "/t".toList ++ "\"".toList ∧
        s2.arg_idx = 2 ∧ s2.got_len = false ∧ s2.slice_idx = 0 ∧ s2.len_total = 0 ∧
        s2.len_read = 0) := by
  obtain ⟨_, _, _, _, r, i, hr1, hi1, _, hs⟩ := add_arg_slice_ok h
  rw [hr] at hr1
  rw [hi] at hi1
  cases hr1
  cases hi1
  refine ⟨?_, ?_, ?_⟩
  · intro hfin
    subst hs
    simp [slice_accept, hfin, push_args]
  · intro hfin
    subst hs
    simp [slice_accept, hfin, push_args]
  · intro format lvl pfirst text hl hfold
    have hadd : ∃ c,
        aushape_conv_execve_coll_add E (coll_zero format) lvl
          { text := some text
            fields := [field_of "argc" "2" "2", field_of "a0" "/bin/ls" "/bin/ls",
                       field_of "a1_len" "4" "4", field_of "a1[0]" "2f74" "/t"] } =
          (aushape_rc.OK, c) ∧
        c.args.ptr = args_markup E format (arg_level format lvl) 0
          [["/bin/ls".toList], ["/t".toList]] ∧
        c.arg_idx = 2 ∧ c.arg_num = 2 ∧ c.gbuf.room = none ∧ c.args.room = none ∧
        c.format = format ∧ c.got_len = false ∧ c.slice_idx = 0 ∧ c.len_total = 0 ∧
        c.len_read = 0 := by
      rw [add_unbounded E _ _ _ _ _ rfl, add_fields_cons,
        add_field_argc E _ _ _ "2".toList 2 (by decide) rfl rfl (by decide),
        guard_rc_of_ok, add_fields_cons,
        add_field_arg E _ 0 _ _ "/bin/ls".toList (by decide) (by simp [set_raw, coll_zero])
          (by simp [set_raw, coll_zero]) rfl rfl,
        guard_rc_of_ok, add_fields_cons,
        add_field_arg_len E _ 1 _ _ "4".toList 4 (by decide)
          (by simp [set_raw, coll_zero, push_args])
          (by simp [set_raw, coll_zero, push_args]) rfl rfl (by decide) rfl,
        guard_rc_of_ok, add_fields_cons,
        add_field_arg_slice E _ 1 0 _ _ "2f74".toList "/t".toList (by decide)
          (by simp [slice_guard, set_raw, coll_zero, push_args, slice_len]) rfl rfl rfl,
        guard_rc_of_ok, add_fields_nil]
      refine ⟨_, rfl, ?_, ?_, ?_, ?_, ?_, ?_, ?_, ?_, ?_, ?_⟩ <;>
        simp [slice_accept, slice_text, slice_len, push_args, set_raw, coll_zero,
          args_markup, arg_markup]
    obtain ⟨c, h1, hargs, hidx, hnum, hg, ha, hf, hgl, hsl, hlt, hlr⟩ := hadd
    refine ⟨end_result E c lvl pfirst, ?_, ?_, ?_, ?_, ?_, ?_, ?_, ?_⟩
    · simp only [execve_event, add_records, h1, guard_rc, aushape_conv_execve_coll_end]
      rw [end_run_unbounded E lvl pfirst c (by omega) hg ha]
      simp
    · simp [end_result, hargs, hidx, hnum, args_markup, hf]
    · simp [end_result, hargs, hidx, hnum, args_markup, hf, arg_markup, arg_open,
        arg_close, escape, hl, fold_space, hfold]
    · simp [end_result, hnum]
    · simp [end_result, hgl]
    · simp [end_result, hsl]
    · simp [end_result, hlt]
    · simp [end_result, hlr]

/-- C3, witness: the slice `a1[0]=2f74` (interpreted `/t`) after `a1_len=4` closes the
argument. -/
theorem add_arg_slice_effect_witness :
    (aushape_conv_execve_coll_add_arg_slice escaping_id
      { coll_zero format_json0 with arg_num := 2, arg_idx := 1, got_len := true,
                                    len_total := 4 }
      2 1 0 (field_of "a1[0]" "2f74" "/t")).2.got_len = false ∧
    (aushape_conv_execve_coll_add_arg_slice escaping_id
      { coll_zero format_json0 with arg_num := 2, arg_idx := 1, got_len := true,
                                    len_total := 4 }
      2 1 0 (field_of "a1[0]" "2f74" "/t")).2.arg_idx = 2 :=
  have h := (add_arg_slice_effect escaping_id
    { coll_zero format_json0 with arg_num := 2, arg_idx := 1, got_len := true,
                                  len_total := 4 }
    _ 2 1 0 (field_of "a1[0]" "2f74" "/t") "2f74".toList "/t".toList rfl rfl
    (by decide)).1 (by decide)
  ⟨h.2.1, h.2.2.2.2.2.1⟩



theorem is_valid_idle {coll : aushape_conv_execve_coll}
    (hvalid : aushape_conv_execve_coll_is_valid coll = true) (hgl : coll.got_len = false) :
    coll.slice_idx = 0 ∧ coll.len_total = 0 ∧ coll.len_read = 0 := by
  unfold aushape_conv_execve_coll_is_valid at hvalid
  simp only [Bool.and_eq_true, Bool.or_eq_true, decide_eq_true_eq, hgl,
    Bool.false_eq_true, false_or] at hvalid
  obtain ⟨⟨_, h1, h2⟩, h3⟩ := hvalid
  exact ⟨h1, h2, by omega⟩

/-- C10, as the code has it: for a valid collector and a field `a<N>_len` whose value
is a bare unsigned decimal integer `L` not above `SIZE_MAX`: the field is accepted only if
`arg_idx <= N < arg_num` and `got_len` is false, and under these conditions it is
accepted unless memory runs out (it is accepted when the argument buffer can always
grow); otherwise the result is `CONV_INVALID_EXECVE` and the collector is unchanged. On
acceptance the skipped indices `[arg_idx, N)` are filled with empty-string arguments,
`arg_idx` becomes `N`, `got_len` becomes true, `len_total` becomes `L`, and `slice_idx`
and `len_read` stay 0. In particular `a2_len` arriving when `arg_idx` is 0 and
`arg_num >= 3` succeeds and fills the indices 0 and 1 with empty arguments. -/
theorem add_arg_len_spec (E : aushape_escaping) (coll : aushape_conv_execve_coll)
    (level N : Nat) (au : au_field) (v : List Char) (L : Nat)
    (hvalid : aushape_conv_execve_coll_is_valid coll = true)
    (hv : au.str = some v) (hL : bare_decimal v L) (hmax : L ≤ SIZE_MAX) :
    ((aushape_conv_execve_coll_add_arg_len E coll level N au).1 = aushape_rc.OK →
      coll.arg_idx ≤ N ∧ N < coll.arg_num ∧ coll.got_len = false) ∧
    (coll.arg_idx ≤ N ∧ N < coll.arg_num ∧ coll.got_len = false →
      coll.args.room = none →
      (aushape_conv_execve_coll_add_arg_len E coll level N au).1 = aushape_rc.OK) ∧
    (coll.arg_idx ≤ N ∧ N < coll.arg_num ∧ coll.got_len = false →
      (aushape_conv_execve_coll_add_arg_len E coll level N au).1 = aushape_rc.OK ∨
      (aushape_conv_execve_coll_add_arg_len E coll level N au).1 = aushape_rc.NOMEM) ∧
    (¬ (coll.arg_idx ≤ N ∧ N < coll.arg_num ∧ coll.got_len = false) →
      aushape_conv_execve_coll_add_arg_len E coll level N au =
        (aushape_rc.CONV_INVALID_EXECVE, coll)) ∧
    (∀ s1, aushape_conv_execve_coll_add_arg_len E coll level N au = (aushape_rc.OK, s1) →
      s1.args.ptr = coll.args.ptr ++ args_markup E coll.format level coll.arg_idx
        (List.replicate (N - coll.arg_idx) [[]]) ∧
      s1.arg_idx = N ∧ s1.got_len = true ∧ s1.len_total = L ∧
      s1.slice_idx = 0 ∧ s1.len_read = 0 ∧ s1.arg_num = coll.arg_num) ∧
    (N = 2 → coll.arg_idx = 0 → 3 ≤ coll.arg_num → coll.got_len = false →
      coll.args.room = none →
      ∃ s1, aushape_conv_execve_coll_add_arg_len E coll level N au = (aushape_rc.OK, s1) ∧
        s1.args.ptr = coll.args.ptr ++ (arg_markup E coll.format level 0 [[]] ++
          arg_markup E coll.format level 1 [[]]) ∧
        s1.arg_idx = 2 ∧ s1.got_len = true ∧ s1.len_total = L) := by
  have hn : sscanf_zu v = some L := sscanf_zu_bare hL hmax
  have hinv : ¬ (coll.arg_idx ≤ N ∧ N < coll.arg_num ∧ coll.got_len = false) →
      aushape_conv_execve_coll_add_arg_len E coll level N au =
        (aushape_rc.CONV_INVALID_EXECVE, coll) := by
    intro hng
    unfold aushape_conv_execve_coll_add_arg_len
    rw [if_pos hng]
  refine ⟨?_, ?_, ?_, hinv, ?_, ?_⟩
  · intro hok
    by_contra hng
    rw [hinv hng] at hok
    simp at hok
  · intro hg hroom
    rw [add_arg_len_unbounded E coll level N au v L hg.1 hg.2.1 hg.2.2 hv hn hroom]
  · intro hg
    unfold aushape_conv_execve_coll_add_arg_len
    rw [if_neg (not_not.mpr hg)]
    refine guard_rc_rc (P := fun rc => rc = aushape_rc.OK ∨ rc = aushape_rc.NOMEM)
      (fun hne => ?_) (fun c => ?_)
    · exact Or.inr ((add_skipped_rc E level N (N - coll.arg_idx) coll).resolve_left hne)
    · simp [hv, hn]
  · intro s1 h
    obtain ⟨_, _, hgl, str, num, hs, hnum, hs1⟩ := add_arg_len_ok h
    rw [hv] at hs
    cases hs
    rw [hn] at hnum
    cases hnum
    obtain ⟨hsl, _, hlr⟩ := is_valid_idle hvalid hgl
    subst hs1
    simp [push_args, hsl, hlr]
  · intro hN hidx hnum hgl hroom
    subst hN
    refine ⟨_, add_arg_len_unbounded E coll level 2 au v L (by omega) (by omega) hgl hv hn
      hroom, ?_, rfl, rfl, rfl⟩
    simp [push_args, hidx, args_markup, List.replicate]

/-- C10, witness: `a2_len=4` arriving when `arg_idx` is 0 and `arg_num` is 3. -/
theorem add_arg_len_spec_witness :
    (aushape_conv_execve_coll_add_arg_len escaping_id
      { coll_zero format_json0 with arg_num := 3 } 2 2
      (field_of "a2_len" "4" "4")).1 = aushape_rc.OK :=
  (add_arg_len_spec escaping_id { coll_zero format_json0 with arg_num := 3 } 2 2
    (field_of "a2_len" "4" "4") "4".toList 4 (by decide) rfl
    ⟨by decide, by decide, by decide⟩ (by decide)).2.1 (by decide) rfl



/-! ### The number of arguments is set once -/

theorem add_field_ok_arg_num {E : aushape_escaping} {l : Nat} {au : au_field}
    {coll s1 : aushape_conv_execve_coll}
    (h : add_field E l au coll = (aushape_rc.OK, s1)) (h0 : coll.arg_num ≠ 0) :
    s1.arg_num = coll.arg_num := by
  rw [add_field_eq] at h
  cases hk : au.kind with
  | unreadable => simp [hk] at h
  | skipped =>
    simp only [hk, Prod.mk.injEq, true_and] at h
    subst h; rfl
  | argc =>
    simp only [hk] at h
    exact absurd (add_argc_ok h).1 h0
  | arg n =>
    simp only [hk] at h
    obtain ⟨_, _, v, _, hs⟩ := add_arg_ok h
    subst hs; simp [push_args]
  | arg_len n =>
    simp only [hk] at h
    obtain ⟨_, _, _, str, num, _, _, hs⟩ := add_arg_len_ok h
    subst hs; simp [push_args]
  | arg_slice n k =>
    simp only [hk] at h
    obtain ⟨_, _, _, _, raw_str, int_str, _, _, _, hs⟩ := add_arg_slice_ok h
    subst hs
    unfold slice_accept
    split <;> simp [push_args]
  | unknown => simp [hk] at h

theorem add_fields_ok_arg_num {E : aushape_escaping} {l : Nat} :
    ∀ {fs : List au_field} {coll s1 : aushape_conv_execve_coll},
      add_fields E l fs coll = (aushape_rc.OK, s1) → coll.arg_num ≠ 0 →
      s1.arg_num = coll.arg_num := by
  intro fs
  induction fs with
  | nil =>
    intro coll s1 h _
    simp only [add_fields, Prod.mk.injEq, true_and] at h
    subst h; rfl
  | cons f fs ih =>
    intro coll s1 h h0
    obtain ⟨c, hc, hk⟩ := add_fields_cons_ok h
    have h1 := add_field_ok_arg_num hc h0
    rw [ih hk (by rw [h1]; exact h0), h1]

theorem arg_num_after_argc {E : aushape_escaping} {l : Nat} {pre mid : List au_field}
    {a1 : au_field} {coll c : aushape_conv_execve_coll}
    (hk1 : a1.kind = field_kind.argc) (hval : a1.str.bind sscanf_zu ≠ some 0)
    (h : add_fields E l (pre ++ a1 :: mid) coll = (aushape_rc.OK, c)) :
    c.arg_num ≠ 0 := by
  obtain ⟨c0, _, h1⟩ := add_fields_ok_append h
  obtain ⟨c1, hc1, h2⟩ := add_fields_cons_ok h1
  rw [add_field_eq, hk1] at hc1
  obtain ⟨_, str, num, hs, hn, hc⟩ := add_argc_ok hc1
  have hnum : num ≠ 0 := by
    rintro rfl
    exact hval (by simp [hs, hn])
  have h1n : c1.arg_num ≠ 0 := by rw [hc]; exact hnum
  rw [add_fields_ok_arg_num h2 h1n]
  exact h1n

/-- C8, as the code has it: if the fields of the records of an event contain two
`argc` fields and the value of the first does not read as 0, then consuming the
records does not succeed; and whenever all the fields before the second `argc` field
are accepted, the second `argc` field is rejected with `CONV_INVALID_EXECVE`
(InvalidSequence), the collector being left as it was. -/
theorem second_argc_rejected (E : aushape_escaping) (level : Nat)
    (recs : List au_record) (coll : aushape_conv_execve_coll)
    (pre mid post : List au_field) (a1 a2 : au_field)
    (hsplit : (recs.flatMap fun r => r.fields) = pre ++ a1 :: (mid ++ a2 :: post))
    (hk1 : a1.kind = field_kind.argc) (hk2 : a2.kind = field_kind.argc)
    (hval : a1.str.bind sscanf_zu ≠ some 0) :
    (add_records E level recs coll).1 ≠ aushape_rc.OK ∧
    (∀ l c, add_fields E l (pre ++ a1 :: mid) coll = (aushape_rc.OK, c) →
      add_field E l a2 c = (aushape_rc.CONV_INVALID_EXECVE, c)) := by
  have hsecond : ∀ l c, add_fields E l (pre ++ a1 :: mid) coll = (aushape_rc.OK, c) →
      add_field E l a2 c = (aushape_rc.CONV_INVALID_EXECVE, c) := by
    intro l c h
    have h0 := arg_num_after_argc hk1 hval h
    rw [add_field_eq, hk2]
    simp [aushape_conv_execve_coll_add_argc, h0]
  refine ⟨?_, hsecond⟩
  intro hok
  have hrun : add_records E level recs coll =
      (aushape_rc.OK, (add_records E level recs coll).2) := by
    rw [← hok]
  have hflat := (add_records_fields hrun).1
  rw [hsplit] at hflat
  have hassoc : pre ++ a1 :: (mid ++ a2 :: post) = (pre ++ a1 :: mid) ++ a2 :: post := by
    simp
  rw [hassoc] at hflat
  obtain ⟨c, hc, hrest⟩ := add_fields_ok_append hflat
  obtain ⟨c2, hc2, _⟩ := add_fields_cons_ok hrest
  rw [hsecond _ c hc] at hc2
  simp at hc2

/-- C8, witness: a record with the fields `argc=3` and `argc=4`. -/
theorem second_argc_rejected_witness :
    (add_records escaping_id 0
      [{ text := some "type=EXECVE argc=3 argc=4".toList
         fields := [field_of "argc" "3" "3", field_of "argc" "4" "4"] }]
      (coll_zero format_json0)).1 ≠ aushape_rc.OK :=
  (second_argc_rejected escaping_id 0
    [{ text := some "type=EXECVE argc=3 argc=4".toList
       fields := [field_of "argc" "3" "3", field_of "argc" "4" "4"] }]
    (coll_zero format_json0) [] [] [] (field_of "argc" "3" "3") (field_of "argc" "4" "4")
    rfl (by decide) (by decide) (by decide)).1

/-- C8, counterexample: a first field `argc=0` leaves `arg_num` at 0, so that a second
field `argc=5` in the same record is accepted: the record is consumed and the event
finalized without error. -/
theorem second_argc_accepted :
    (execve_event escaping_id (coll_zero format_json0) 0 true
      [{ text := some "type=EXECVE argc=0 argc=5".toList
         fields := [field_of "argc" "0" "0", field_of "argc" "5" "5"] }]).1 =
      aushape_rc.OK ∧
    (add_records escaping_id 0
      [{ text := some "type=EXECVE argc=0 argc=5".toList
         fields := [field_of "argc" "0" "0", field_of "argc" "5" "5"] }]
      (coll_zero format_json0)).2.arg_num = 5 := by
  decide



/-! ### Slices of an argument -/

theorem slices_of_snoc (mid : List au_field) (g : au_field) :
    slices_of (mid ++ [g]) = slices_of mid ++ (if g.is_slice = true then [g] else []) := by
  simp only [slices_of, List.filter_append, List.filter_cons, List.filter_nil]

/-- A field that is neither a length nor a slice, and after which the counters of the
slices are as before, extends the fields since the length field. -/
theorem open_since_snoc {pre : List au_field} {c c1 : aushape_conv_execve_coll}
    {g : au_field} (h : open_since pre c) (hlen : g.is_len = false)
    (hsl : g.is_slice = false) (h1 : c1.len_total = c.len_total)
    (h2 : c1.slice_idx = c.slice_idx) (h3 : c1.len_read = c.len_read)
    (h4 : g.is_arg = false → c1.arg_idx = c.arg_idx) :
    open_since (pre ++ [g]) c1 := by
  obtain ⟨pre0, flen, mid, N, L, v, hpre, hk, hv, hL, hmid, htot, hno, hsum, harg⟩ := h
  refine ⟨pre0, flen, mid ++ [g], N, L, v, ?_, hk, hv, hL, ?_, ?_, ?_, ?_, ?_⟩
  · rw [hpre]; simp
  · intro x hx
    rcases List.mem_append.mp hx with hx | hx
    · exact hmid x hx
    · rw [List.mem_singleton.mp hx]; exact hlen
  · rw [h1]; exact htot
  · rw [slices_of_snoc, hsl, h2]; simpa using hno
  · rw [slices_of_snoc, hsl, h3]; simpa using hsum
  · intro hall
    have hallmid : ∀ x ∈ mid, x.is_arg = false := fun x hx =>
      hall x (List.mem_append.mpr (Or.inl hx))
    have hg : g.is_arg = false := hall g (by simp)
    obtain ⟨ha, hs⟩ := harg hallmid
    refine ⟨by rw [h4 hg]; exact ha, ?_⟩
    rw [slices_of_snoc, hsl]
    simpa using hs

theorem open_inv {E : aushape_escaping} {l : Nat} {coll : aushape_conv_execve_coll}
    (h0 : coll.got_len = false) (h0s : coll.slice_idx = 0) (h0r : coll.len_read = 0) :
    ∀ (pre : List au_field) (c : aushape_conv_execve_coll),
      add_fields E l pre coll = (aushape_rc.OK, c) →
      (c.got_len = false → c.slice_idx = 0 ∧ c.len_read = 0) ∧
      (c.got_len = true → open_since pre c) := by
  intro pre
  induction pre using List.reverseRecOn with
  | nil =>
    intro c h
    simp only [add_fields, Prod.mk.injEq, true_and] at h
    subst h
    exact ⟨fun _ => ⟨h0s, h0r⟩, fun h => by rw [h0] at h; cases h⟩
  | append_singleton init g ih =>
    intro c h
    obtain ⟨c1, hc1, hg⟩ := add_fields_ok_append h
    rw [add_fields_singleton, add_field_eq] at hg
    obtain ⟨hidle, hopen⟩ := ih c1 hc1
    cases hk : g.kind with
    | unreadable => simp [hk] at hg
    | unknown => simp [hk] at hg
    | skipped =>
      simp only [hk, Prod.mk.injEq, true_and] at hg
      subst hg
      exact ⟨hidle, fun hgl => open_since_snoc (hopen hgl)
        (by simp [au_field.is_len, hk]) (by simp [au_field.is_slice, hk]) rfl rfl rfl
        (fun _ => rfl)⟩
    | argc =>
      simp only [hk] at hg
      obtain ⟨_, str, num, _, _, hs⟩ := add_argc_ok hg
      subst hs
      exact ⟨hidle, fun hgl => open_since_snoc (hopen hgl)
        (by simp [au_field.is_len, hk]) (by simp [au_field.is_slice, hk]) rfl rfl rfl
        (fun _ => rfl)⟩
    | arg n =>
      simp only [hk] at hg
      obtain ⟨_, _, v, _, hs⟩ := add_arg_ok hg
      subst hs
      exact ⟨hidle, fun hgl => open_since_snoc (hopen hgl)
        (by simp [au_field.is_len, hk]) (by simp [au_field.is_slice, hk]) rfl rfl rfl
        (fun ha => by simp [au_field.is_arg, hk] at ha)⟩
    | arg_len n =>
      simp only [hk] at hg
      obtain ⟨_, _, hgl1, str, num, hstr, hnum, hs⟩ := add_arg_len_ok hg
      obtain ⟨hs0, hr0⟩ := hidle hgl1
      subst hs
      refine ⟨fun hgl => by simp at hgl, fun _ => ?_⟩
      refine ⟨init, g, [], n, num, str, rfl, hk, hstr, hnum, by simp, rfl, ?_, ?_, ?_⟩
      · simp [slices_of, push_args, hs0]
      · simp [slices_of, push_args, hr0]
      · intro _
        exact ⟨rfl, by simp [slices_of]⟩
    | arg_slice n k =>
      simp only [hk] at hg
      obtain ⟨hn, _, hgl1, hk1, raw_str, int_str, hr, hi, hle, hs⟩ := add_arg_slice_ok hg
      obtain ⟨pre0, flen, mid, N, L, v, hpre, hkl, hv, hL, hmid, htot, hno, hsum, harg⟩ :=
        hopen hgl1
      by_cases hfin : c1.len_read + slice_len raw_str.length int_str.length = c1.len_total
      · have hc : c.got_len = false ∧ c.slice_idx = 0 ∧ c.len_read = 0 := by
          rw [hs]; simp [slice_accept, hfin]
        exact ⟨fun _ => hc.2, fun hgl => by rw [hc.1] at hgl; cases hgl⟩
      · have hc : c.got_len = true ∧ c.slice_idx = c1.slice_idx + 1 ∧
            c.len_read = c1.len_read + slice_len raw_str.length int_str.length ∧
            c.len_total = c1.len_total ∧ c.arg_idx = c1.arg_idx := by
          rw [hs]; simp [slice_accept, hfin, push_args, hgl1]
        refine ⟨fun hgl => (by rw [hc.1] at hgl; cases hgl), fun _ => ?_⟩
        have hgs : g.is_slice = true := by simp [au_field.is_slice, hk]
        have hgn : g.slice_no = k := by simp [au_field.slice_no, hk]
        have hgc : g.counted = slice_len raw_str.length int_str.length := by
          simp [au_field.counted, hr, hi]
        refine ⟨pre0, flen, mid ++ [g], N, L, v, ?_, hkl, hv, hL, ?_, ?_, ?_, ?_, ?_⟩
        · rw [hpre]; simp
        · intro x hx
          rcases List.mem_append.mp hx with hx | hx
          · exact hmid x hx
          · rw [List.mem_singleton.mp hx]; simp [au_field.is_len, hk]
        · rw [hc.2.2.2.1]; exact htot
        · rw [slices_of_snoc, hgs, hc.2.1]
          simp only [if_true, List.map_append, List.map_cons, List.map_nil, hno, hgn, hk1,
            List.range_succ]
        · rw [slices_of_snoc, hgs, hc.2.2.1]
          simp [hsum, hgc]
        · intro hall
          have hallmid : ∀ x ∈ mid, x.is_arg = false := fun x hx =>
            hall x (List.mem_append.mpr (Or.inl hx))
          obtain ⟨ha, hsl⟩ := harg hallmid
          refine ⟨by rw [hc.2.2.2.2]; exact ha, ?_⟩
          rw [slices_of_snoc, hgs]
          intro x hx
          simp only [if_true, List.mem_append, List.mem_singleton] at hx
          rcases hx with hx | hx
          · exact hsl x hx
          · rw [hx]
            simp only [au_field.arg_no, hk]
            rw [hn, ha]



/-- Trace of a sliced argument: in a sequence of records consumed without error from a
valid collector with no argument in progress, take a slice field `f` that closes its
argument (after it no argument is in progress). Then the fields before `f` end with an
accepted length field
`flen`, `a<N>_len` of value `L`, followed by fields `mid` holding no other length field,
and the slices accepted since, those of `mid` and `f`, have the slice indices
`0, 1, ..., m` in that order without a gap, and their counted lengths (by the
half-length rule of the code, `slice_len`) add up to `L`; if no whole-argument field
stands between the length field and `f`, all these slices carry the argument index
`N` of the length field. A slice that would make the running total exceed `len_total`
is rejected with `CONV_INVALID_EXECVE` (InvalidSequence), the collector unchanged. -/
theorem sliced_argument_closed (E : aushape_escaping) (level : Nat)
    (recs : List au_record) (coll s1 : aushape_conv_execve_coll)
    (pre post : List au_field) (f : au_field)
    (hvalid : aushape_conv_execve_coll_is_valid coll = true)
    (hidle : coll.got_len = false)
    (hacc : add_records E level recs coll = (aushape_rc.OK, s1))
    (hsplit : (recs.flatMap fun r => r.fields) = pre ++ f :: post)
    (hf : f.is_slice = true)
    (hclosed : (add_fields E (arg_level coll.format level) (pre ++ [f]) coll).2.got_len =
      false) :
    (∃ (pre0 : List au_field) (flen : au_field) (mid : List au_field) (N L : Nat)
        (v : List Char),
      pre = pre0 ++ flen :: mid ∧ flen.kind = field_kind.arg_len N ∧
      flen.str = some v ∧ sscanf_zu v = some L ∧ (∀ g ∈ mid, g.is_len = false) ∧
      (slices_of (mid ++ [f])).map (fun g => g.slice_no) =
        List.range (slices_of (mid ++ [f])).length ∧
      ((slices_of (mid ++ [f])).map fun g => g.counted).sum = L ∧
      ((∀ g ∈ mid, g.is_arg = false) → ∀ g ∈ slices_of (mid ++ [f]), g.arg_no = N)) ∧
    (∀ (c : aushape_conv_execve_coll) (l N K : Nat) (au : au_field)
        (raw_str int_str : List Char),
      au.str = some raw_str → au.interp = some int_str →
      c.len_read + slice_len raw_str.length int_str.length > c.len_total →
      aushape_conv_execve_coll_add_arg_slice E c l N K au =
        (aushape_rc.CONV_INVALID_EXECVE, c)) := by
  refine ⟨?_, ?_⟩
  · obtain ⟨hs0, _, hr0⟩ := is_valid_idle hvalid hidle
    have hflat := (add_records_fields hacc).1
    rw [hsplit] at hflat
    obtain ⟨c1, hc1, hrest⟩ := add_fields_ok_append hflat
    obtain ⟨c2, hc2, _⟩ := add_fields_cons_ok hrest
    have hrun : add_fields E (arg_level coll.format level) (pre ++ [f]) coll =
        (aushape_rc.OK, c2) := by
      rw [add_fields_append, hc1, guard_rc_of_ok, add_fields_singleton, hc2]
    rw [hrun] at hclosed
    simp only at hclosed
    -- the closing field is a slice
    obtain ⟨n, k, hk⟩ : ∃ n k, f.kind = field_kind.arg_slice n k := by
      unfold au_field.is_slice at hf
      split at hf
      · rename_i n k hk; exact ⟨n, k, hk⟩
      · cases hf
    rw [add_field_eq, hk] at hc2
    obtain ⟨hn, _, hgl1, hk1, raw_str, int_str, hr, hi, hle, hs⟩ := add_arg_slice_ok hc2
    have hfin : c1.len_read + slice_len raw_str.length int_str.length = c1.len_total := by
      by_contra hne
      rw [hs] at hclosed
      simp [slice_accept, hne, push_args, hgl1] at hclosed
    obtain ⟨pre0, flen, mid, N, L, v, hpre, hkl, hv, hL, hmid, htot, hno, hsum, harg⟩ :=
      (open_inv hidle hs0 hr0 pre c1 hc1).2 hgl1
    have hgs : f.is_slice = true := hf
    have hgn : f.slice_no = k := by simp [au_field.slice_no, hk]
    have hgc : f.counted = slice_len raw_str.length int_str.length := by
      simp [au_field.counted, hr, hi]
    have hcount : (slices_of mid).length = c1.slice_idx := by
      have := congrArg List.length hno
      simpa using this
    refine ⟨pre0, flen, mid, N, L, v, hpre, hkl, hv, hL, hmid, ?_, ?_, ?_⟩
    · rw [slices_of_snoc, hgs]
      simp only [if_true, List.map_append, List.map_cons, List.map_nil, List.length_append,
        List.length_singleton, hcount, hno, hgn, hk1, List.range_succ]
    · rw [slices_of_snoc, hgs]
      simp only [if_true, List.map_append, List.map_cons, List.map_nil, List.sum_append,
        List.sum_cons, List.sum_nil, hsum, hgc, Nat.add_zero]
      rw [hfin, htot]
    · intro hall
      obtain ⟨ha, hsl⟩ := harg hall
      rw [slices_of_snoc, hgs]
      intro x hx
      simp only [if_true, List.mem_append, List.mem_singleton] at hx
      rcases hx with hx | hx
      · exact hsl x hx
      · rw [hx]
        simp only [au_field.arg_no, hk]
        rw [hn, ha]
  · intro c l N K au raw_str int_str hr hi hgt
    exact add_arg_slice_invalid E c l N K au raw_str int_str hr hi
      (fun hg => absurd hg.2.2.2.2 (by omega))

/-- The trace of a sliced argument on the record `argc=2 a0=/bin/ls a1_len=4
a1[0]=2f74`, whose last field closes the argument 1. -/
theorem sliced_argument_closed_witness :
    ∃ (flen : au_field) (N L : Nat),
      flen.kind = field_kind.arg_len N ∧ flen.str.bind sscanf_zu = some L := by
  obtain ⟨_, flen, _, N, L, v, _, hk, hv, hL, _⟩ :=
    (sliced_argument_closed escaping_id 0 [record_ls] (coll_zero format_json0)
      (add_records escaping_id 0 [record_ls] (coll_zero format_json0)).2
      [field_of "argc" "2" "2", field_of "a0" "/bin/ls" "/bin/ls",
       field_of "a1_len" "4" "4"] [] (field_of "a1[0]" "2f74" "/t")
      (by decide) rfl (by decide) rfl (by decide) (by decide)).1
  exact ⟨flen, N, L, hk, by simp [hv, hL]⟩



/-! ### The argument list of an event -/

theorem add_fields_filter (E : aushape_escaping) (l : Nat) :
    ∀ (fs : List au_field) (coll : aushape_conv_execve_coll),
      add_fields E l (fs.filter fun g => g.is_handled) coll = add_fields E l fs coll := by
  intro fs
  induction fs with
  | nil => intro coll; rfl
  | cons f fs ih =>
    intro coll
    by_cases hk : f.kind = field_kind.skipped
    · have hf : f.is_handled = false := by simp [au_field.is_handled, hk]
      rw [List.filter_cons_of_neg (by simp [hf]), add_fields_cons, add_field_eq, hk]
      simp only [guard_rc_of_ok]
      exact ih coll
    · have hf : f.is_handled = true := by simp [au_field.is_handled, hk]
      rw [List.filter_cons_of_pos (by simp [hf]), add_fields_cons, add_fields_cons]
      congr 1
      funext c
      exact ih c

/-- The slices of an argument in progress, accepted one after the other and adding up
to what is missing of the declared length, close the argument with the last of
them. -/
theorem run_slices {E : aushape_escaping} {l N : Nat} :
    ∀ (sl : List au_field) (k : Nat) (c c1 : aushape_conv_execve_coll),
      sl ≠ [] → slices_wf N k sl →
      c.len_read + (sl.map fun g => g.counted).sum = c.len_total →
      add_fields E l sl c = (aushape_rc.OK, c1) →
      c.arg_idx = N ∧ c1.got_len = false ∧ c1.len_read = 0 ∧ c1.arg_idx = N + 1 ∧
      c1.arg_num = c.arg_num ∧
      c1.args.ptr = c.args.ptr ++ ((if k = 0 then arg_open c.format l N else []) ++
        (sl.map fun g => escape E c.format (g.interp.getD [])).flatten ++
        arg_close c.format) := by
  intro sl
  induction sl with
  | nil => intro k c c1 hne; exact absurd rfl hne
  | cons g rest ih =>
    intro k c c1 _ hwf hsum hrun
    obtain ⟨hk, hwfr⟩ := hwf
    obtain ⟨c2, hc2, hrest⟩ := add_fields_cons_ok hrun
    rw [add_field_eq, hk] at hc2
    obtain ⟨hn, _, hgl, hk1, raw_str, int_str, hr, hi, hle, hs⟩ := add_arg_slice_ok hc2
    have hgc : g.counted = slice_len raw_str.length int_str.length := by
      simp [au_field.counted, hr, hi]
    have hgi : g.interp.getD [] = int_str := by simp [hi]
    simp only [List.map_cons, List.sum_cons, hgc] at hsum
    cases rest with
    | nil =>
      simp only [add_fields, Prod.mk.injEq, true_and] at hrest
      subst hrest
      have hfin : c.len_read + slice_len raw_str.length int_str.length = c.len_total := by
        simpa using hsum
      rw [hs]
      simp [slice_accept, hfin, push_args, slice_text, hgi, ← hn]
    | cons g1 rest1 =>
      have hg1 := hwfr.1
      obtain ⟨c3, hc3, _⟩ := add_fields_cons_ok hrest
      rw [add_field_eq, hg1] at hc3
      obtain ⟨_, _, hgl2, _⟩ := add_arg_slice_ok hc3
      have hfin : ¬ c.len_read + slice_len raw_str.length int_str.length =
          c.len_total := by
        intro hfin
        rw [hs] at hgl2
        simp [slice_accept, hfin] at hgl2
      have hc2' : c2.len_read = c.len_read + slice_len raw_str.length int_str.length ∧
          c2.len_total = c.len_total ∧ c2.arg_num = c.arg_num ∧ c2.format = c.format ∧
          c2.args.ptr = c.args.ptr ++
            ((if k = 0 then arg_open c.format l c.arg_idx else []) ++
              escape E c.format int_str) := by
        rw [hs]
        simp [slice_accept, hfin, push_args, slice_text]
      obtain ⟨h1, h2, h3, h4, h5, h6⟩ := ih (k + 1) c2 c1 (by simp) hwfr
        (by rw [hc2'.1, hc2'.2.1]; omega) hrest
      refine ⟨hn.symm, h2, h3, h4, by rw [h5, hc2'.2.2.1], ?_⟩
      rw [h6, hc2'.2.2.2.2, hc2'.2.2.2.1]
      simp [hgi, ← hn]



/-- The fields supplying the argument indices from `i` on, accepted one after the
other: the argument buffer, completed with empty arguments up to `arg_num`, holds
the arguments before, empty arguments for the indices skipped so far, and the
arguments supplied. -/
theorem run_supplies {E : aushape_escaping} {l : Nat} :
    ∀ (ss : List supply) (i : Nat) (c c1 : aushape_conv_execve_coll),
      supplies_wf i ss → c.len_read = 0 → c.arg_idx ≤ i → i + ss.length = c.arg_num →
      add_fields E l (ss.flatMap fun s => s.fields) c = (aushape_rc.OK, c1) →
      c1.arg_idx ≤ c1.arg_num ∧ c1.arg_num = c.arg_num ∧
      c1.args.ptr ++ args_markup E c.format l c1.arg_idx
          (List.replicate (c.arg_num - c1.arg_idx) [[]]) =
        c.args.ptr ++ args_markup E c.format l c.arg_idx
          (List.replicate (i - c.arg_idx) [[]] ++ ss.map fun s => s.pieces) := by
  intro ss
  induction ss with
  | nil =>
    intro i c c1 _ _ hle hnum hrun
    simp only [List.flatMap_nil, add_fields, Prod.mk.injEq, true_and] at hrun
    subst hrun
    simp only [List.length_nil, Nat.add_zero] at hnum
    subst hnum
    exact ⟨hle, rfl, by simp⟩
  | cons s ss ih =>
    intro i c c1 hwf hlr hle hnum hrun
    obtain ⟨hs, hwfr⟩ := hwf
    simp only [List.length_cons] at hnum
    simp only [List.flatMap_cons] at hrun
    cases s with
    | omitted =>
      simp only [supply.fields, List.nil_append] at hrun
      obtain ⟨h1, h2, h3⟩ := ih (i + 1) c c1 hwfr hlr (by omega) (by omega) hrun
      refine ⟨h1, h2, ?_⟩
      rw [h3]
      have hrep : List.replicate (i + 1 - c.arg_idx) ([[]] : List (List Char)) =
          List.replicate (i - c.arg_idx) [[]] ++ [[[]]] := by
        have : i + 1 - c.arg_idx = (i - c.arg_idx) + 1 := by omega
        rw [this, List.replicate_succ']
      simp [hrep, supply.pieces]
    | whole au =>
      simp only [supply.fields, List.singleton_append] at hrun
      obtain ⟨c2, hc2, hrest⟩ := add_fields_cons_ok hrun
      have hk : au.kind = field_kind.arg i := hs
      rw [add_field_eq, hk] at hc2
      obtain ⟨_, _, v, hv, hc⟩ := add_arg_ok hc2
      have hc2f : c2.format = c.format ∧ c2.arg_num = c.arg_num ∧ c2.arg_idx = i + 1 ∧
          c2.len_read = c.len_read ∧
          c2.args.ptr = c.args.ptr ++ args_markup E c.format l c.arg_idx
            (List.replicate (i - c.arg_idx) [[]] ++ [[v]]) := by
        rw [hc]; simp [push_args]
      obtain ⟨h1, h2, h3⟩ := ih (i + 1) c2 c1 hwfr (by rw [hc2f.2.2.2.1]; exact hlr)
        (by rw [hc2f.2.2.1]) (by rw [hc2f.2.1]; omega) hrest
      refine ⟨h1, by rw [h2, hc2f.2.1], ?_⟩
      rw [hc2f.1, hc2f.2.1, hc2f.2.2.1, hc2f.2.2.2.2] at h3
      rw [h3]
      have hstart : c.arg_idx + (i - c.arg_idx) + 1 = i + 1 := by omega
      have hv1 : au.interp.getD [] = v := by simp [hv]
      simp [args_markup_append, args_markup, supply.pieces, hv1, hstart]
    | sliced len sl =>
      simp only [supply.fields, List.cons_append] at hrun
      obtain ⟨hk, hne, hsl, hL⟩ := hs
      obtain ⟨c2, hc2, hrest⟩ := add_fields_cons_ok hrun
      rw [add_field_eq, hk] at hc2
      obtain ⟨_, _, _, str, num, hstr, hn, hc⟩ := add_arg_len_ok hc2
      have hnum2 : num = (sl.map fun g => g.counted).sum := by
        rw [hstr] at hL
        simp only [Option.some_bind, hn, Option.some.injEq] at hL
        exact hL
      have hc2f : c2.format = c.format ∧ c2.arg_num = c.arg_num ∧ c2.arg_idx = i ∧
          c2.len_read = c.len_read ∧ c2.len_total = num ∧
          c2.args.ptr = c.args.ptr ++ args_markup E c.format l c.arg_idx
            (List.replicate (i - c.arg_idx) [[]]) := by
        rw [hc]; simp [push_args]
      obtain ⟨c3, hc3, hrest3⟩ := add_fields_ok_append hrest
      obtain ⟨_, _, g3, g4, g5, g6⟩ := run_slices (N := i) sl 0 c2 c3 hne hsl
        (by rw [hc2f.2.2.2.1, hc2f.2.2.2.2.1, hlr, hnum2]; omega) hc3
      have hc3f := (add_fields_ok_frame hc3).1
      obtain ⟨h1, h2, h3⟩ := ih (i + 1) c3 c1 hwfr g3 (by rw [g4])
        (by rw [g5, hc2f.2.1]; omega) hrest3
      refine ⟨h1, by rw [h2, g5, hc2f.2.1], ?_⟩
      rw [hc3f, hc2f.1, g5, hc2f.2.1, g4, g6, hc2f.2.2.2.2.2, hc2f.1] at h3
      rw [h3]
      have hstart : c.arg_idx + (i - c.arg_idx) = i := by omega
      simp [args_markup_append, args_markup, arg_markup, supply.pieces, hstart,
        List.map_map, Function.comp_def]



theorem execve_event_ok {E : aushape_escaping} {coll s2 : aushape_conv_execve_coll}
    {level : Nat} {pfirst b : Bool} {recs : List au_record}
    (h : execve_event E coll level pfirst recs = (aushape_rc.OK, s2, b)) :
    ∃ s1, add_records E level recs coll = (aushape_rc.OK, s1) ∧
      end_run E s1 level pfirst = (aushape_rc.OK, s2) := by
  cases hrun : add_records E level recs coll with
  | mk rc s1 =>
    cases rc <;> simp only [execve_event, hrun, Prod.mk.injEq] at h <;>
      first
      | exact absurd h.1 (by decide)
      | (refine ⟨s1, rfl, ?_⟩
         simp only [aushape_conv_execve_coll_end, Prod.mk.injEq] at h
         exact Prod.ext h.1 h.2.1)

/-- C1: take an event whose records are all consumed and which is finalized without
error, starting from a reset collector, and whose fields, the skipped `type` and
`node` apart, are an `argc` field of value `K` followed, for each index `0..K-1` in
order, by the whole argument `a<N>`, or by `a<N>_len` and its complete slices, or by
nothing. Then the argument list that finalizing leaves in the argument buffer, and
outputs between the prologue and the epilogue of the `execve` entity, has exactly
`K` entries in index order, the entry `i` being the value supplied for the index
`i` and every omitted index being rendered as the empty string. -/
theorem event_argument_list (E : aushape_escaping) (level : Nat) (pfirst b : Bool)
    (recs : List au_record) (coll0 s2 : aushape_conv_execve_coll)
    (supplies : List supply) (argc : au_field) (K : Nat)
    (hargc : argc.kind = field_kind.argc) (hK : argc.str.bind sscanf_zu = some K)
    (hlen : supplies.length = K) (hwf : supplies_wf 0 supplies)
    (hfields : ((recs.flatMap fun r => r.fields).filter fun g => g.is_handled) =
      argc :: supplies.flatMap fun s => s.fields)
    (hrun : execve_event E (aushape_conv_execve_coll_empty coll0) level pfirst recs =
      (aushape_rc.OK, s2, b)) :
    s2.args.ptr = args_markup E coll0.format (arg_level coll0.format level) 0
      (supplies.map fun s => s.pieces) ∧
    (supplies.map fun s => s.pieces).length = K ∧
    s2.arg_idx = K ∧ s2.arg_num = K ∧
    ∃ raw, s2.gbuf.ptr = coll0.gbuf.ptr ++
      (end_prologue E coll0.format level pfirst raw ++ s2.args.ptr ++
        end_epilogue coll0.format level s2.args.ptr) := by
  obtain ⟨s1, hs1, hend⟩ := execve_event_ok hrun
  obtain ⟨hflat, hfmt⟩ := add_records_fields hs1
  rw [← add_fields_filter, hfields] at hflat
  obtain ⟨c0, hc0, hrest⟩ := add_fields_cons_ok hflat
  rw [add_field_eq, hargc] at hc0
  obtain ⟨_, str, num, hstr, hnum, hc⟩ := add_argc_ok hc0
  have hnK : num = K := by
    rw [hstr] at hK
    simp only [Option.some_bind, hnum, Option.some.injEq] at hK
    exact hK
  subst hnK
  have hc0f : c0.format = coll0.format ∧ c0.arg_num = num ∧ c0.arg_idx = 0 ∧
      c0.len_read = 0 ∧ c0.args.ptr = [] ∧ c0.gbuf = coll0.gbuf := by
    rw [hc]
    simp [aushape_conv_execve_coll_empty, aushape_gbuf_empty]
  obtain ⟨h1, h2, h3⟩ := run_supplies supplies 0 c0 _ hwf hc0f.2.2.2.1
    (by rw [hc0f.2.2.1]) (by rw [hc0f.2.1]; omega) hrest
  have hfr := add_fields_ok_frame hrest
  have hs1f : s1.format = coll0.format := hfmt
  have hs1n : s1.arg_num = num := by
    have : (set_raw (aushape_conv_execve_coll_empty coll0).raw s1).arg_num = c0.arg_num := h2
    rw [hc0f.2.1] at this
    exact this
  have hs1g : s1.gbuf = coll0.gbuf := by
    have : (set_raw (aushape_conv_execve_coll_empty coll0).raw s1).gbuf = c0.gbuf :=
      hfr.2.2.1
    rw [hc0f.2.2.2.2.2] at this
    exact this
  have hle : s1.arg_idx ≤ s1.arg_num := h1
  have h3' : s1.args.ptr ++ args_markup E coll0.format (arg_level coll0.format level)
      s1.arg_idx (List.replicate (num - s1.arg_idx) [[]]) =
      args_markup E coll0.format (arg_level coll0.format level) 0
        (supplies.map fun s => s.pieces) := by
    have := h3
    rw [hc0f.1, hc0f.2.1, hc0f.2.2.1, hc0f.2.2.2.2.1] at this
    simpa [aushape_conv_execve_coll_empty] using this
  have hs2 := end_run_ok hle hend
  have hargs : s2.args.ptr = args_markup E coll0.format (arg_level coll0.format level) 0
      (supplies.map fun s => s.pieces) := by
    rw [hs2]
    simp only [end_result, hs1f, hs1n]
    exact h3'
  refine ⟨hargs, by simpa using hlen, by rw [hs2]; simp [end_result, hs1n],
    by rw [hs2]; simp [end_result, hs1n], s1.raw.ptr, ?_⟩
  rw [hs2]
  simp only [end_result, hs1f, hs1n, hs1g]

/-- C1, witness: the record `argc=2 a0=/bin/ls a1_len=4 a1[0]=2f74` gives the argument
list `"/bin/ls","/t"`. -/
theorem event_argument_list_witness :
    (execve_event escaping_id (aushape_conv_execve_coll_empty (coll_zero format_json0)) 0
      true [record_ls]).2.1.args.ptr = "\"/bin/ls\",\"/t\"".toList :=
  (event_argument_list escaping_id 0 true false [record_ls] (coll_zero format_json0) _
    [supply.whole (field_of "a0" "/bin/ls" "/bin/ls"),
     supply.sliced (field_of "a1_len" "4" "4") [field_of "a1[0]" "2f74" "/t"]]
    (field_of "argc" "2" "2") 2 (by decide) (by decide) rfl
    ⟨(by decide : (field_of "a0" "/bin/ls" "/bin/ls").kind = field_kind.arg 0),
      ⟨⟨by decide, by simp, ⟨by decide, trivial⟩, by decide⟩, trivial⟩⟩
    (by decide) (by decide)).1.trans (by decide)

/-! ### Reset, raw log and truncated events -/

/-- C15: the reset `aushape_conv_execve_coll_empty` empties `raw` and `args` and sets
`arg_num`, `arg_idx`, `len_total` and `len_read` to 0 and `got_len` to false, but it
leaves `slice_idx` as it is. Reset while a sliced argument is in progress with
`slice_idx > 0` (after the record `argc=1 a0_len=4 a0[0]=ab`, a state that satisfies
the validity predicate), the collector keeps `slice_idx = 1` and does not satisfy the
validity predicate, which wants `slice_idx = 0` when `got_len` is false. -/
theorem empty_keeps_slice_idx :
    (∀ coll : aushape_conv_execve_coll,
      (aushape_conv_execve_coll_empty coll).slice_idx = coll.slice_idx ∧
      (aushape_conv_execve_coll_empty coll).raw.ptr = [] ∧
      (aushape_conv_execve_coll_empty coll).args.ptr = [] ∧
      (aushape_conv_execve_coll_empty coll).arg_num = 0 ∧
      (aushape_conv_execve_coll_empty coll).arg_idx = 0 ∧
      (aushape_conv_execve_coll_empty coll).got_len = false ∧
      (aushape_conv_execve_coll_empty coll).len_total = 0 ∧
      (aushape_conv_execve_coll_empty coll).len_read = 0) ∧
    (aushape_conv_execve_coll_add escaping_id (coll_zero format_json0) 0 record_cut).1 =
      aushape_rc.OK ∧
    aushape_conv_execve_coll_is_valid
      (aushape_conv_execve_coll_add escaping_id (coll_zero format_json0) 0 record_cut).2 =
      true ∧
    (aushape_conv_execve_coll_empty
      (aushape_conv_execve_coll_add escaping_id (coll_zero format_json0) 0
        record_cut).2).slice_idx = 1 ∧
    aushape_conv_execve_coll_is_valid
      (aushape_conv_execve_coll_empty
        (aushape_conv_execve_coll_add escaping_id (coll_zero format_json0) 0
          record_cut).2) = false := by
  refine ⟨fun coll => ⟨rfl, rfl, rfl, rfl, rfl, rfl, rfl, rfl⟩, by decide, by decide,
    by decide, by decide⟩

/-- C16: consuming a record appends to the raw log buffer a newline only if `arg_idx`
is above 0, and then the text of the record. Two records of which the first carries only
`argc=1`, with the texts `A` and `B`, are consumed without error and leave the raw log
`AB`, without a newline between the two texts; likewise when the first record carries
only an unfinished sliced argument. -/
theorem raw_joined_when_arg_idx_positive :
    (∀ (E : aushape_escaping) (coll s1 : aushape_conv_execve_coll) (level : Nat)
        (au : au_record),
      aushape_conv_execve_coll_add E coll level au = (aushape_rc.OK, s1) →
      ∃ text, au.text = some text ∧
        s1.raw.ptr = coll.raw.ptr ++ ((if coll.arg_idx > 0 then ['\n'] else []) ++ text)) ∧
    add_records escaping_id 0
      [{ text := some "A".toList, fields := [field_of "argc" "1" "1"] },
       { text := some "B".toList, fields := [field_of "a0" "x" "x"] }]
      (coll_zero format_json0) =
      (aushape_rc.OK,
        { coll_zero format_json0 with
          raw := { ptr := "AB".toList, room := none }
          args := { ptr := "\"x\"".toList, room := none }
          arg_num := 1
          arg_idx := 1 }) ∧
    (add_records escaping_id 0
      [{ text := some "A".toList,
         fields := [field_of "argc" "1" "1", field_of "a0_len" "4" "4",
                    field_of "a0[0]" "ab" "ab"] },
       { text := some "B".toList, fields := [field_of "a0[1]" "cd" "cd"] }]
      (coll_zero format_json0)).1 = aushape_rc.OK ∧
    (add_records escaping_id 0
      [{ text := some "A".toList,
         fields := [field_of "argc" "1" "1", field_of "a0_len" "4" "4",
                    field_of "a0[0]" "ab" "ab"] },
       { text := some "B".toList, fields := [field_of "a0[1]" "cd" "cd"] }]
      (coll_zero format_json0)).2.raw.ptr = "AB".toList := by
  refine ⟨?_, by decide, by decide, by decide⟩
  intro E coll s1 level au h
  obtain ⟨text, ht, _, hf⟩ := add_ok h
  refine ⟨text, ht, ?_⟩
  rw [(add_fields_ok_frame hf).2.1]
  rfl

/-- C17: an event that ends while a sliced argument is in progress is consumed and
finalized without error, and the argument opened by the first slice is never
terminated: for the record `argc=1 a0_len=4 a0[0]=ab` the collector outputs, in JSON,
`"execve":{"raw":"...","args":["ab""]}` and, in XML, `<a i="ab<a i=""/>` between
`<execve raw="...">` and `</execve>`: finalizing adds an empty argument for the index
0 after the open markup. -/
theorem truncated_slice_left_open :
    execve_event escaping_id (coll_zero format_json0) 0 true [record_cut] =
      (aushape_rc.OK,
        { coll_zero format_json0 with
          gbuf :=
            { ptr := ("\"execve\":\x7b\"raw\":\"type=EXECVE argc=1 a0_len=4 a0[0]=ab\"," ++
                "\"args\":[\"ab\"\"]\x7d").toList
              room := none }
          raw := { ptr := "type=EXECVE argc=1 a0_len=4 a0[0]=ab".toList, room := none }
          args := { ptr := "\"ab\"\"".toList, room := none }
          arg_num := 1
          arg_idx := 1
          got_len := true
          slice_idx := 1
          len_total := 4
          len_read := 2 }, false) ∧
    (execve_event escaping_id (coll_zero format_xml0) 0 true [record_cut]).1 =
      aushape_rc.OK ∧
    (execve_event escaping_id (coll_zero format_xml0) 0 true [record_cut]).2.1.args.ptr =
      "<a i=\"ab<a i=\"\"/>".toList := by
  decide

/-! ### Failing length fields -/

theorem guard_rc_cases (r : aushape_rc × aushape_conv_execve_coll)
    (k : aushape_conv_execve_coll → aushape_rc × aushape_conv_execve_coll) :
    (r.1 ≠ aushape_rc.OK ∧ guard_rc r k = r) ∨
    (∃ c, r = (aushape_rc.OK, c) ∧ guard_rc r k = k c) := by
  obtain ⟨rc, c⟩ := r
  cases rc
  · exact Or.inr ⟨c, rfl, rfl⟩
  all_goals exact Or.inl ⟨by simp, rfl⟩

/-- C11, as the code has it: when processing an `a<N>_len` field fails because no
`argc` was seen yet (`arg_num = 0`), because `N` is outside `[arg_idx, arg_num)` or
because a length is already declared, the result is `CONV_INVALID_EXECVE` and the
collector, argument buffer and counters, is as before. When it fails with
`CONV_INVALID_EXECVE` otherwise, the value of the field is not read in full by `%zu`,
and by then the skipped indices `[arg_idx, N)` have been added as empty arguments,
`arg_idx` is `N` and `got_len` is true; nothing of the argument `N` itself has been
emitted, and `arg_num`, `slice_idx`, `len_total` and `len_read` are as before. -/
theorem add_arg_len_invalid (E : aushape_escaping) (coll : aushape_conv_execve_coll)
    (level N : Nat) (au : au_field) :
    (¬ (coll.arg_idx ≤ N ∧ N < coll.arg_num ∧ coll.got_len = false) →
      aushape_conv_execve_coll_add_arg_len E coll level N au =
        (aushape_rc.CONV_INVALID_EXECVE, coll)) ∧
    (coll.arg_num = 0 →
      aushape_conv_execve_coll_add_arg_len E coll level N au =
        (aushape_rc.CONV_INVALID_EXECVE, coll)) ∧
    (∀ s1, coll.arg_idx ≤ N ∧ N < coll.arg_num ∧ coll.got_len = false →
      aushape_conv_execve_coll_add_arg_len E coll level N au =
        (aushape_rc.CONV_INVALID_EXECVE, s1) →
      (∃ v, au.str = some v ∧ sscanf_zu v = none) ∧
      s1.args.ptr = coll.args.ptr ++ args_markup E coll.format level coll.arg_idx
        (List.replicate (N - coll.arg_idx) [[]]) ∧
      s1.arg_idx = N ∧ s1.got_len = true ∧ s1.arg_num = coll.arg_num ∧
      s1.slice_idx = coll.slice_idx ∧ s1.len_total = coll.len_total ∧
      s1.len_read = coll.len_read) := by
  have hinv : ¬ (coll.arg_idx ≤ N ∧ N < coll.arg_num ∧ coll.got_len = false) →
      aushape_conv_execve_coll_add_arg_len E coll level N au =
        (aushape_rc.CONV_INVALID_EXECVE, coll) := by
    intro hng
    unfold aushape_conv_execve_coll_add_arg_len
    rw [if_pos hng]
  refine ⟨hinv, fun h0 => hinv (fun hg => by omega), ?_⟩
  intro s1 hg h
  unfold aushape_conv_execve_coll_add_arg_len at h
  rw [if_neg (not_not.mpr hg)] at h
  rcases guard_rc_cases (add_skipped E level N (N - coll.arg_idx) coll) _ with
    ⟨hne, heq⟩ | ⟨c, hc, heq⟩
  · rw [heq] at h
    have hrc := (add_skipped_rc E level N (N - coll.arg_idx) coll).resolve_left hne
    rw [h] at hrc
    cases hrc
  · rw [heq] at h
    have hc1 := add_skipped_ok _ _ _ (by omega) hc
    cases hs : au.str with
    | none => simp [hs] at h
    | some v =>
      cases hn : sscanf_zu v with
      | some num => simp [hs, hn] at h
      | none =>
        simp only [hs, hn, Prod.mk.injEq, true_and] at h
        refine ⟨⟨v, rfl, hn⟩, ?_⟩
        rw [← h, hc1]
        simp [push_args]

/-- C11, counterexample: with `arg_idx = 0` and `arg_num = 2`, the field `a1_len=x`
fails with `CONV_INVALID_EXECVE`, but the collector is not as before: the index 0 has
been added as an empty argument, `arg_idx` is 1 and `got_len` is true. -/
theorem add_arg_len_invalid_changes :
    aushape_conv_execve_coll_add_arg_len escaping_id
      { coll_zero format_json0 with arg_num := 2 } 2 1 (field_of "a1_len" "x" "x") =
      (aushape_rc.CONV_INVALID_EXECVE,
        { coll_zero format_json0 with
          arg_num := 2
          arg_idx := 1
          got_len := true
          args := { ptr := "\"\"".toList, room := none } }) ∧
    ({ coll_zero format_json0 with
          arg_num := 2
          arg_idx := 1
          got_len := true
          args := { ptr := "\"\"".toList, room := none } } : aushape_conv_execve_coll) ≠
      { coll_zero format_json0 with arg_num := 2 } := by
  decide

/-! ### Finalizing and resetting -/

/-- C13: finalizing a valid collector with `OK` leaves every index of
`[arg_idx, arg_num)` rendered as an empty-string argument in the argument buffer, so
that `arg_idx = arg_num`, and has appended to the shared output buffer exactly the
prologue, the arguments and the epilogue; with folding at every level (fold level 0)
the text appended is, for JSON, a leading `,` present iff the first flag was false
followed by `"execve":{"raw":"<json-escaped raw>","args":[<args>]}` and, for XML,
`<execve raw="<xml-escaped raw>"><args></execve>`; the first flag is false
afterwards. Finalizing succeeds when the buffers can always grow. -/
theorem end_envelope (E : aushape_escaping) (coll : aushape_conv_execve_coll)
    (level : Nat) (pfirst : Bool)
    (hvalid : aushape_conv_execve_coll_is_valid coll = true) :
    (∀ s2 b, aushape_conv_execve_coll_end E coll level pfirst = (aushape_rc.OK, s2, b) →
      b = false ∧ s2.arg_idx = coll.arg_num ∧ s2.arg_num = coll.arg_num ∧
      s2.args.ptr = coll.args.ptr ++
        args_markup E coll.format (arg_level coll.format level) coll.arg_idx
          (List.replicate (coll.arg_num - coll.arg_idx) [[]]) ∧
      s2.gbuf.ptr = coll.gbuf.ptr ++
        (end_prologue E coll.format level pfirst coll.raw.ptr ++ s2.args.ptr ++
          end_epilogue coll.format level s2.args.ptr) ∧
      (coll.format.fold_level = 0 → coll.format.lang = aushape_lang.JSON →
        s2.gbuf.ptr = coll.gbuf.ptr ++
          ((if pfirst then [] else [',']) ++ "\"execve\":\x7b\"raw\":\"".toList ++
            E.json coll.raw.ptr ++ "\",\"args\":[".toList ++ s2.args.ptr ++
            "]\x7d".toList)) ∧
      (coll.format.fold_level = 0 → coll.format.lang = aushape_lang.XML →
        s2.gbuf.ptr = coll.gbuf.ptr ++
          ("<execve raw=\"".toList ++ E.xml coll.raw.ptr ++ "\">".toList ++
            s2.args.ptr ++ "</execve>".toList))) ∧
    (coll.gbuf.room = none → coll.args.room = none →
      (aushape_conv_execve_coll_end E coll level pfirst).1 = aushape_rc.OK) := by
  have hle : coll.arg_idx ≤ coll.arg_num := by
    unfold aushape_conv_execve_coll_is_valid at hvalid
    simp only [Bool.and_eq_true, decide_eq_true_eq] at hvalid
    exact hvalid.1.1.2
  refine ⟨?_, ?_⟩
  · intro s2 b h
    simp only [aushape_conv_execve_coll_end, Prod.mk.injEq] at h
    obtain ⟨hrc, hs, hb⟩ := h
    have hrun : end_run E coll level pfirst = (aushape_rc.OK, s2) := Prod.ext hrc hs
    have hs2 := end_run_ok hle hrun
    refine ⟨by rw [← hb, hrc]; rfl, by rw [hs2]; rfl, by rw [hs2]; rfl,
      by rw [hs2]; rfl, by rw [hs2]; rfl, ?_, ?_⟩
    · intro hfold hl
      rw [hs2]
      simp [end_result, end_prologue, end_epilogue, hl, fold_space, hfold]
    · intro hfold hl
      rw [hs2]
      simp [end_result, end_prologue, end_epilogue, hl, fold_space, hfold]
  · intro hg ha
    simp only [aushape_conv_execve_coll_end]
    rw [end_run_unbounded E level pfirst coll hle hg ha]

/-- C13, witness: finalizing after the record `argc=2 a0=/bin/ls a1_len=4 a1[0]=2f74`
succeeds. -/
theorem end_envelope_witness :
    (aushape_conv_execve_coll_end escaping_id
      (aushape_conv_execve_coll_add escaping_id (coll_zero format_json0) 0 record_ls).2
      0 true).1 = aushape_rc.OK :=
  (end_envelope escaping_id
    (aushape_conv_execve_coll_add escaping_id (coll_zero format_json0) 0 record_ls).2
    0 true (by decide)).2 (by decide) (by decide)

/-- C14, as the code has it: finalizing a valid collector with `OK` does not reset the
accumulation state: `raw` and `arg_num` are as before, the argument buffer holds all
the arguments, `arg_idx` is `arg_num`, and the collector reports itself empty only if
it did before. It is the reset `aushape_conv_execve_coll_empty`, applied afterwards,
that leaves `raw` and `args` empty, `arg_num` and `arg_idx` 0, no sliced argument in
progress (`got_len` false, `len_total` and `len_read` 0) and the collector reporting
itself empty. -/
theorem end_keeps_state (E : aushape_escaping) (coll s2 : aushape_conv_execve_coll)
    (level : Nat) (pfirst b : Bool)
    (hvalid : aushape_conv_execve_coll_is_valid coll = true)
    (h : aushape_conv_execve_coll_end E coll level pfirst = (aushape_rc.OK, s2, b)) :
    (s2.raw = coll.raw ∧ s2.arg_num = coll.arg_num ∧ s2.arg_idx = coll.arg_num ∧
      s2.got_len = coll.got_len ∧ s2.slice_idx = coll.slice_idx ∧
      s2.len_total = coll.len_total ∧ s2.len_read = coll.len_read ∧
      aushape_conv_execve_coll_is_empty s2 = aushape_conv_execve_coll_is_empty coll) ∧
    ((aushape_conv_execve_coll_empty s2).raw.ptr = [] ∧
      (aushape_conv_execve_coll_empty s2).args.ptr = [] ∧
      (aushape_conv_execve_coll_empty s2).arg_num = 0 ∧
      (aushape_conv_execve_coll_empty s2).arg_idx = 0 ∧
      (aushape_conv_execve_coll_empty s2).got_len = false ∧
      (aushape_conv_execve_coll_empty s2).len_total = 0 ∧
      (aushape_conv_execve_coll_empty s2).len_read = 0 ∧
      aushape_conv_execve_coll_is_empty (aushape_conv_execve_coll_empty s2) = true) := by
  have hle : coll.arg_idx ≤ coll.arg_num := by
    unfold aushape_conv_execve_coll_is_valid at hvalid
    simp only [Bool.and_eq_true, decide_eq_true_eq] at hvalid
    exact hvalid.1.1.2
  simp only [aushape_conv_execve_coll_end, Prod.mk.injEq] at h
  have hrun : end_run E coll level pfirst = (aushape_rc.OK, s2) := Prod.ext h.1 h.2.1
  have hs2 := end_run_ok hle hrun
  refine ⟨?_, rfl, rfl, rfl, rfl, rfl, rfl, rfl, rfl⟩
  rw [hs2]
  exact ⟨rfl, rfl, rfl, rfl, rfl, rfl, rfl, rfl⟩

/-- C14, witness: finalizing after the record `argc=2 a0=/bin/ls a1_len=4
a1[0]=2f74`. -/
theorem end_keeps_state_witness :
    (aushape_conv_execve_coll_end escaping_id
      (aushape_conv_execve_coll_add escaping_id (coll_zero format_json0) 0 record_ls).2
      0 true).2.1.arg_num = 2 :=
  (end_keeps_state escaping_id
    (aushape_conv_execve_coll_add escaping_id (coll_zero format_json0) 0 record_ls).2
    _ 0 true false (by decide) (by decide)).1.2.1.trans (by decide)

/-- C14, counterexample: after the record `argc=2 a0=/bin/ls a1_len=4 a1[0]=2f74` has
been consumed and the event finalized with `OK`, `arg_num` and `arg_idx` are 2, the
raw log and the argument buffer are not empty and the collector does not report
itself empty. -/
theorem end_does_not_reset :
    (execve_event escaping_id (coll_zero format_json0) 0 true [record_ls]).1 =
      aushape_rc.OK ∧
    (execve_event escaping_id (coll_zero format_json0) 0 true [record_ls]).2.1.arg_num =
      2 ∧
    (execve_event escaping_id (coll_zero format_json0) 0 true [record_ls]).2.1.arg_idx =
      2 ∧
    (execve_event escaping_id (coll_zero format_json0) 0 true [record_ls]).2.1.raw.ptr ≠
      [] ∧
    (execve_event escaping_id (coll_zero format_json0) 0 true [record_ls]).2.1.args.ptr =
      "\"/bin/ls\",\"/t\"".toList ∧
    aushape_conv_execve_coll_is_empty
      (execve_event escaping_id (coll_zero format_json0) 0 true [record_ls]).2.1 =
      false := by
  decide

/-! ### Routing of fields by name -/

theorem scan_zu_bare_rest {ds rest : List Char} {n : Nat} (hv : bare_decimal ds n)
    (hn : n ≤ SIZE_MAX) (hrest : ∀ c, rest.head? = some c → c.isDigit = false) :
    scan_zu (ds ++ rest) = some (n, rest) := by
  obtain ⟨hne, hd, hval⟩ := hv
  cases ds with
  | nil => exact absurd rfl hne
  | cons c t =>
    have hc : c.isDigit = true := hd c (by simp)
    have hsp := isspace_of_isDigit hc
    have hsg := not_sign_of_isDigit hc
    have hrt : rest.takeWhile Char.isDigit = [] := by
      cases rest with
      | nil => rfl
      | cons r rs => simp [List.takeWhile_cons, hrest r rfl]
    have hrd : rest.dropWhile Char.isDigit = rest := by
      cases rest with
      | nil => rfl
      | cons r rs => simp [List.dropWhile_cons, hrest r rfl]
    have htw : (c :: (t ++ rest)).takeWhile Char.isDigit = c :: t := by
      rw [← List.cons_append, List.takeWhile_append_of_pos hd, hrt, List.append_nil]
    have hdw : (c :: (t ++ rest)).dropWhile Char.isDigit = rest := by
      rw [← List.cons_append, List.dropWhile_append_of_pos hd, hrd]
    have hsk : (c :: (t ++ rest)).dropWhile isspace = c :: (t ++ rest) := by
      simp [List.dropWhile_cons, hsp]
    unfold scan_zu
    simp only [List.cons_append, hsk, List.head?_cons, Option.some.injEq, hsg.1, hsg.2,
      or_self, if_false, htw, hdw, decide_False]
    simp [strtoul_val, hval, Nat.not_lt.mpr hn]

theorem reserved_unmatched :
    (sscanf_a_zu "type".toList = none ∧ sscanf_a_zu_len "type".toList = none ∧
      sscanf_a_zu_slice "type".toList = none) ∧
    (sscanf_a_zu "node".toList = none ∧ sscanf_a_zu_len "node".toList = none ∧
      sscanf_a_zu_slice "node".toList = none) ∧
    (sscanf_a_zu "argc".toList = none ∧ sscanf_a_zu_len "argc".toList = none ∧
      sscanf_a_zu_slice "argc".toList = none) := by decide

theorem matched_not_reserved {nm : List Char}
    (h : sscanf_a_zu nm ≠ none ∨ sscanf_a_zu_len nm ≠ none ∨ sscanf_a_zu_slice nm ≠ none) :
    nm ≠ "type".toList ∧ nm ≠ "node".toList ∧ nm ≠ "argc".toList := by
  have hr := reserved_unmatched
  refine ⟨?_, ?_, ?_⟩
  · rintro rfl
    rcases h with h | h | h
    · exact h hr.1.1
    · exact h hr.1.2.1
    · exact h hr.1.2.2
  · rintro rfl
    rcases h with h | h | h
    · exact h hr.2.1.1
    · exact h hr.2.1.2.1
    · exact h hr.2.1.2.2
  · rintro rfl
    rcases h with h | h | h
    · exact h hr.2.2.1
    · exact h hr.2.2.2.1
    · exact h hr.2.2.2.2

theorem a_zu_none_of_len {nm : List Char} {n : Nat} (h : sscanf_a_zu_len nm = some n) :
    sscanf_a_zu nm = none := by
  cases nm with
  | nil => rfl
  | cons a t =>
    by_cases ha : a = 'a'
    · subst ha
      simp only [sscanf_a_zu_len] at h
      simp only [sscanf_a_zu, sscanf_zu]
      cases hs : scan_zu t with
      | none => rfl
      | some p =>
        obtain ⟨m, rest⟩ := p
        rw [hs] at h
        simp only at h
        by_cases hr : rest = "_len".toList
        · subst hr; rfl
        · rw [if_neg hr] at h; cases h
    · unfold sscanf_a_zu
      split
      · rename_i heq; cases heq; exact absurd rfl ha
      · rfl

theorem a_zu_none_of_slice {nm : List Char} {p : Nat × Nat}
    (h : sscanf_a_zu_slice nm = some p) :
    sscanf_a_zu nm = none ∧ sscanf_a_zu_len nm = none := by
  cases nm with
  | nil => exact ⟨rfl, rfl⟩
  | cons a t =>
    by_cases ha : a = 'a'
    · subst ha
      simp only [sscanf_a_zu_slice] at h
      simp only [sscanf_a_zu, sscanf_zu, sscanf_a_zu_len]
      cases hs : scan_zu t with
      | none => exact ⟨rfl, rfl⟩
      | some q =>
        obtain ⟨m, rest⟩ := q
        rw [hs] at h
        cases rest with
        | nil => simp at h
        | cons r rs =>
          by_cases hr : r = '['
          · subst hr
            refine ⟨rfl, ?_⟩
            have hne : ¬ ('[' :: rs = "_len".toList) := by
              intro hh
              have h0 : '[' = '_' := (List.cons.inj hh).1
              exact absurd h0 (by decide)
            simp only [if_neg hne]
          · exfalso
            revert h
            split
            · rename_i heq
              cases heq
              exact absurd rfl hr
            · intro h; cases h
    · constructor
      · unfold sscanf_a_zu
        split
        · rename_i heq; cases heq; exact absurd rfl ha
        · rfl
      · unfold sscanf_a_zu_len
        split
        · rename_i heq; cases heq; exact absurd rfl ha
        · rfl

theorem kind_of_a_zu {au : au_field} {nm : List Char} {n : Nat}
    (hname : au.name = some nm) (h : sscanf_a_zu nm = some n) :
    au.kind = field_kind.arg n := by
  obtain ⟨h1, h2, h3⟩ := @matched_not_reserved nm (Or.inl (by rw [h]; simp))
  unfold au_field.kind
  rw [hname]
  simp only
  rw [if_neg h1, if_neg h2, if_neg h3, h]

theorem kind_of_a_zu_len {au : au_field} {nm : List Char} {n : Nat}
    (hname : au.name = some nm) (h : sscanf_a_zu_len nm = some n) :
    au.kind = field_kind.arg_len n := by
  obtain ⟨h1, h2, h3⟩ := @matched_not_reserved nm (Or.inr (Or.inl (by rw [h]; simp)))
  unfold au_field.kind
  rw [hname]
  simp only
  rw [if_neg h1, if_neg h2, if_neg h3, a_zu_none_of_len h, h]

theorem kind_of_a_zu_slice {au : au_field} {nm : List Char} {n k : Nat}
    (hname : au.name = some nm) (h : sscanf_a_zu_slice nm = some (n, k)) :
    au.kind = field_kind.arg_slice n k := by
  obtain ⟨h1, h2, h3⟩ := @matched_not_reserved nm (Or.inr (Or.inr (by rw [h]; simp)))
  unfold au_field.kind
  rw [hname]
  simp only
  rw [if_neg h1, if_neg h2, if_neg h3, (a_zu_none_of_slice h).1,
    (a_zu_none_of_slice h).2, h]

/-! ### The validity of the collector is kept -/

theorem is_valid_iff (c : aushape_conv_execve_coll) :
    aushape_conv_execve_coll_is_valid c = true ↔
      aushape_gbuf_is_valid c.raw = true ∧ aushape_gbuf_is_valid c.args = true ∧
      counters_valid c := by
  unfold aushape_conv_execve_coll_is_valid counters_valid
  simp only [Bool.and_eq_true, Bool.or_eq_true, decide_eq_true_eq]
  cases c.got_len <;> simp [and_assoc]

theorem grows_add_buf (g : aushape_gbuf) (t : List Char) :
    grows g (aushape_gbuf_add_buf g t) := by
  intro g1 h hv
  unfold aushape_gbuf_add_buf at h
  unfold aushape_gbuf_is_valid at hv ⊢
  cases hr : g.room with
  | none =>
    rw [hr] at h
    simp only [Option.some.injEq] at h
    subst h
    simp [hr]
  | some c =>
    rw [hr] at h
    simp only at h
    split at h
    · rename_i hle
      simp only [Option.some.injEq] at h
      subst h
      simp [hr, hle]
    · cases h

theorem grows_some (g : aushape_gbuf) : grows g (some g) := by
  intro g1 h hv
  cases h
  exact hv

theorem grows_ite (g : aushape_gbuf) (p : Prop) [Decidable p] {a b : Option aushape_gbuf}
    (ha : grows g a) (hb : grows g b) : grows g (if p then a else b) := by
  split
  · exact ha
  · exact hb

theorem grows_bind {g : aushape_gbuf} {r : Option aushape_gbuf}
    {f : aushape_gbuf → Option aushape_gbuf} (hr : grows g r) (hf : ∀ g1, grows g1 (f g1)) :
    grows g (r.bind f) := by
  intro g2 h hv
  cases r with
  | none => cases h
  | some g1 => exact hf g1 g2 h (hr g1 rfl hv)

theorem arg_frame_refl (c : aushape_conv_execve_coll) : arg_frame c c :=
  ⟨rfl, rfl, rfl, rfl, rfl, rfl, fun h => h⟩

theorem arg_frame_trans {a b c : aushape_conv_execve_coll} (h1 : arg_frame a b)
    (h2 : arg_frame b c) : arg_frame a c := by
  obtain ⟨a1, a2, a3, a4, a5, a6, a7⟩ := h1
  obtain ⟨b1, b2, b3, b4, b5, b6, b7⟩ := h2
  exact ⟨b1.trans a1, b2.trans a2, b3.trans a3, b4.trans a4, b5.trans a5, b6.trans a6,
    fun h => b7 (a7 h)⟩

theorem is_valid_of_frame {c c1 : aushape_conv_execve_coll}
    (hv : aushape_conv_execve_coll_is_valid c = true) (hf : arg_frame c c1)
    (hi : c1.arg_idx ≤ c.arg_num) : aushape_conv_execve_coll_is_valid c1 = true := by
  rw [is_valid_iff] at hv ⊢
  obtain ⟨v1, v2, v3, v4, v5⟩ := hv
  obtain ⟨a1, a2, a3, a4, a5, a6, a7⟩ := hf
  unfold counters_valid
  rw [a1, a2, a3, a4, a5, a6]
  exact ⟨v1, a7 v2, hi, v4, v5⟩

theorem guard_args_frame {P : aushape_conv_execve_coll → Prop}
    {c c1 : aushape_conv_execve_coll} {r : Option aushape_gbuf}
    {k : aushape_conv_execve_coll → aushape_rc × aushape_conv_execve_coll}
    (hc : arg_frame c c1 ∧ c1.arg_idx = c.arg_idx)
    (hP : ∀ x, arg_frame c x ∧ x.arg_idx = c.arg_idx → P x)
    (hr : grows c1.args r)
    (hk : ∀ g, arg_frame c { c1 with args := g } ∧ ({ c1 with args := g }).arg_idx = c.arg_idx →
      P (k { c1 with args := g }).2) :
    P (guard_args c1 r k).2 := by
  unfold guard_args
  cases r with
  | none => exact hP _ hc
  | some g =>
    apply hk
    obtain ⟨⟨a1, a2, a3, a4, a5, a6, a7⟩, a8⟩ := hc
    exact ⟨⟨a1, a2, a3, a4, a5, a6, fun h => hr g rfl (a7 h)⟩, a8⟩

theorem add_arg_str_frame (E : aushape_escaping) (coll : aushape_conv_execve_coll)
    (level : Nat) (str : List Char) :
    arg_frame coll (aushape_conv_execve_coll_add_arg_str E coll level str).2 ∧
    coll.arg_idx ≤ (aushape_conv_execve_coll_add_arg_str E coll level str).2.arg_idx ∧
    (aushape_conv_execve_coll_add_arg_str E coll level str).2.arg_idx ≤ coll.arg_idx + 1 := by
  have hP : ∀ x, arg_frame coll x ∧ x.arg_idx = coll.arg_idx →
      arg_frame coll x ∧ coll.arg_idx ≤ x.arg_idx ∧ x.arg_idx ≤ coll.arg_idx + 1 :=
    fun x hx => ⟨hx.1, by omega, by omega⟩
  have hlast : ∀ x : aushape_conv_execve_coll, arg_frame coll x ∧ x.arg_idx = coll.arg_idx →
      arg_frame coll { x with arg_idx := x.arg_idx + 1 } ∧
      coll.arg_idx ≤ ({ x with arg_idx := x.arg_idx + 1 }).arg_idx ∧
      ({ x with arg_idx := x.arg_idx + 1 }).arg_idx ≤ coll.arg_idx + 1 := by
    intro x hx
    refine ⟨hx.1, ?_, ?_⟩ <;> simp only <;> omega
  unfold aushape_conv_execve_coll_add_arg_str
  simp only [aushape_gbuf_space_opening, aushape_gbuf_add_str, aushape_gbuf_add_str_xml,
    aushape_gbuf_add_str_json, aushape_gbuf_add_char]
  cases coll.format.lang with
  | XML =>
    simp only
    refine guard_args_frame ⟨arg_frame_refl coll, rfl⟩ hP (grows_add_buf _ _) fun g1 h1 => ?_
    refine guard_args_frame h1 hP (grows_add_buf _ _) fun g2 h2 => ?_
    refine guard_args_frame h2 hP (grows_add_buf _ _) fun g3 h3 => ?_
    refine guard_args_frame h3 hP (grows_add_buf _ _) fun g4 h4 => ?_
    exact hlast _ h4
  | JSON =>
    simp only
    refine guard_args_frame ⟨arg_frame_refl coll, rfl⟩ hP
      (grows_ite _ _ (grows_add_buf _ _) (grows_some _)) fun g1 h1 => ?_
    refine guard_args_frame h1 hP (grows_add_buf _ _) fun g2 h2 => ?_
    refine guard_args_frame h2 hP (grows_add_buf _ _) fun g3 h3 => ?_
    refine guard_args_frame h3 hP (grows_add_buf _ _) fun g4 h4 => ?_
    refine guard_args_frame h4 hP (grows_add_buf _ _) fun g5 h5 => ?_
    exact hlast _ h5

theorem add_skipped_frame (E : aushape_escaping) (level target : Nat) :
    ∀ (fuel : Nat) (coll : aushape_conv_execve_coll),
      arg_frame coll (add_skipped E level target fuel coll).2 ∧
      coll.arg_idx ≤ (add_skipped E level target fuel coll).2.arg_idx ∧
      (add_skipped E level target fuel coll).2.arg_idx ≤ max coll.arg_idx target := by
  intro fuel
  induction fuel with
  | zero =>
    intro coll
    exact ⟨arg_frame_refl coll, Nat.le_refl _, Nat.le_max_left _ _⟩
  | succ n ih =>
    intro coll
    unfold add_skipped
    split
    · rename_i hlt
      have hs := add_arg_str_frame E coll level []
      rcases guard_rc_cases (aushape_conv_execve_coll_add_arg_str E coll level [])
        (fun coll => add_skipped E level target n coll) with ⟨_, he⟩ | ⟨c1, hc1, he⟩
      · rw [he]
        exact ⟨hs.1, hs.2.1, by omega⟩
      · rw [he]
        rw [hc1] at hs
        have hi := ih c1
        simp only at hs hi ⊢
        exact ⟨arg_frame_trans hs.1 hi.1, by omega, by omega⟩
    · exact ⟨arg_frame_refl coll, Nat.le_refl _, Nat.le_max_left _ _⟩

theorem guard_rc_valid {r : aushape_rc × aushape_conv_execve_coll}
    {k : aushape_conv_execve_coll → aushape_rc × aushape_conv_execve_coll}
    (hr : aushape_conv_execve_coll_is_valid r.2 = true)
    (hk : ∀ c, r = (aushape_rc.OK, c) → aushape_conv_execve_coll_is_valid (k c).2 = true) :
    aushape_conv_execve_coll_is_valid (guard_rc r k).2 = true := by
  rcases guard_rc_cases r k with ⟨_, he⟩ | ⟨c, hc, he⟩
  · rw [he]; exact hr
  · rw [he]; exact hk c hc

theorem add_argc_valid {coll : aushape_conv_execve_coll} (level : Nat) (au : au_field)
    (hv : aushape_conv_execve_coll_is_valid coll = true) :
    aushape_conv_execve_coll_is_valid
      (aushape_conv_execve_coll_add_argc coll level au).2 = true := by
  unfold aushape_conv_execve_coll_add_argc
  split
  · exact hv
  · rename_i h0
    cases au.str with
    | none => exact hv
    | some str =>
      simp only
      cases sscanf_zu str with
      | none => exact hv
      | some num =>
        simp only
        rw [is_valid_iff] at hv ⊢
        obtain ⟨v1, v2, v3, v4, v5⟩ := hv
        refine ⟨v1, v2, ?_, v4, v5⟩
        simp only
        omega

theorem add_skipped_valid {coll : aushape_conv_execve_coll} (E : aushape_escaping)
    (level target fuel : Nat) (hv : aushape_conv_execve_coll_is_valid coll = true)
    (ht : target ≤ coll.arg_num) :
    aushape_conv_execve_coll_is_valid (add_skipped E level target fuel coll).2 = true := by
  have hf := add_skipped_frame E level target fuel coll
  have hle := ((is_valid_iff coll).mp hv).2.2.1
  exact is_valid_of_frame hv hf.1 (by omega)

theorem add_arg_str_valid {coll : aushape_conv_execve_coll} (E : aushape_escaping)
    (level : Nat) (str : List Char) (hv : aushape_conv_execve_coll_is_valid coll = true)
    (hlt : coll.arg_idx < coll.arg_num) :
    aushape_conv_execve_coll_is_valid
      (aushape_conv_execve_coll_add_arg_str E coll level str).2 = true := by
  have hf := add_arg_str_frame E coll level str
  exact is_valid_of_frame hv hf.1 (by omega)

theorem add_arg_valid {coll : aushape_conv_execve_coll} (E : aushape_escaping)
    (level N : Nat) (au : au_field) (hv : aushape_conv_execve_coll_is_valid coll = true) :
    aushape_conv_execve_coll_is_valid
      (aushape_conv_execve_coll_add_arg E coll level N au).2 = true := by
  unfold aushape_conv_execve_coll_add_arg
  split
  · exact hv
  · rename_i hg
    have hg : N ≥ coll.arg_idx ∧ N < coll.arg_num := not_not.mp hg
    have hsv := add_skipped_valid E level N (N - coll.arg_idx) hv (by omega)
    refine guard_rc_valid hsv fun c1 hc1 => ?_
    have hf := add_skipped_frame E level N (N - coll.arg_idx) coll
    rw [hc1] at hf hsv
    simp only at hf hsv
    cases au.interp with
    | none => exact hsv
    | some str =>
      simp only
      refine add_arg_str_valid E level str hsv ?_
      rw [hf.1.2.1]
      omega

theorem add_arg_len_valid {coll : aushape_conv_execve_coll} (E : aushape_escaping)
    (level N : Nat) (au : au_field) (hv : aushape_conv_execve_coll_is_valid coll = true) :
    aushape_conv_execve_coll_is_valid
      (aushape_conv_execve_coll_add_arg_len E coll level N au).2 = true := by
  unfold aushape_conv_execve_coll_add_arg_len
  split
  · exact hv
  · rename_i hg
    have hg : N ≥ coll.arg_idx ∧ N < coll.arg_num ∧ coll.got_len = false := not_not.mp hg
    have hsv := add_skipped_valid E level N (N - coll.arg_idx) hv (by omega)
    refine guard_rc_valid hsv fun c1 hc1 => ?_
    have hf := add_skipped_frame E level N (N - coll.arg_idx) coll
    rw [hc1] at hf hsv
    simp only at hf hsv
    obtain ⟨i1, i2, i3⟩ := is_valid_idle hv hg.2.2
    obtain ⟨_, a2, a3, a4, a5, a6, _⟩ := hf.1
    rw [is_valid_iff] at hsv
    obtain ⟨v1, v2, v3, v4, v5⟩ := hsv
    have hgl : aushape_conv_execve_coll_is_valid { c1 with got_len := true } = true := by
      rw [is_valid_iff]
      exact ⟨v1, v2, v3, fun h => absurd h (by simp), v5⟩
    cases au.str with
    | none => exact hgl
    | some str =>
      simp only
      cases sscanf_zu str with
      | none => exact hgl
      | some num =>
        simp only
        rw [is_valid_iff]
        refine ⟨v1, v2, v3, fun h => absurd h (by simp), ?_⟩
        simp only
        omega

theorem guard_args_valid {c : aushape_conv_execve_coll} {r : Option aushape_gbuf}
    {k : aushape_conv_execve_coll → aushape_rc × aushape_conv_execve_coll}
    (hc : aushape_conv_execve_coll_is_valid c = true) (hr : grows c.args r)
    (hk : ∀ g, aushape_conv_execve_coll_is_valid { c with args := g } = true →
      aushape_conv_execve_coll_is_valid (k { c with args := g }).2 = true) :
    aushape_conv_execve_coll_is_valid (guard_args c r k).2 = true := by
  unfold guard_args
  cases r with
  | none => exact hc
  | some g =>
    apply hk
    rw [is_valid_iff] at hc ⊢
    exact ⟨hc.1, hr g rfl hc.2.1, hc.2.2⟩

theorem guard_raw_valid {c : aushape_conv_execve_coll} {r : Option aushape_gbuf}
    {k : aushape_conv_execve_coll → aushape_rc × aushape_conv_execve_coll}
    (hc : aushape_conv_execve_coll_is_valid c = true) (hr : grows c.raw r)
    (hk : ∀ g, aushape_conv_execve_coll_is_valid { c with raw := g } = true →
      aushape_conv_execve_coll_is_valid (k { c with raw := g }).2 = true) :
    aushape_conv_execve_coll_is_valid (guard_raw c r k).2 = true := by
  unfold guard_raw
  cases r with
  | none => exact hc
  | some g =>
    apply hk
    rw [is_valid_iff] at hc ⊢
    exact ⟨hr g rfl hc.1, hc.2.1, hc.2.2⟩

theorem guard_gbuf_valid {c : aushape_conv_execve_coll} {r : Option aushape_gbuf}
    {k : aushape_conv_execve_coll → aushape_rc × aushape_conv_execve_coll}
    (hc : aushape_conv_execve_coll_is_valid c = true)
    (hk : ∀ g, aushape_conv_execve_coll_is_valid { c with gbuf := g } = true →
      aushape_conv_execve_coll_is_valid (k { c with gbuf := g }).2 = true) :
    aushape_conv_execve_coll_is_valid (guard_gbuf c r k).2 = true := by
  unfold guard_gbuf
  cases r with
  | none => exact hc
  | some g => exact hk g hc

theorem add_arg_slice_begin_cases {coll : aushape_conv_execve_coll} {level K : Nat}
    {k : aushape_conv_execve_coll → aushape_rc × aushape_conv_execve_coll}
    {P : aushape_rc × aushape_conv_execve_coll → Prop}
    (hnomem : ∀ g, (aushape_gbuf_is_valid coll.args = true →
      aushape_gbuf_is_valid g = true) → P (aushape_rc.NOMEM, { coll with args := g }))
    (hk : ∀ g, (aushape_gbuf_is_valid coll.args = true →
      aushape_gbuf_is_valid g = true) → P (k { coll with args := g })) :
    P (add_arg_slice_begin coll level K k) := by
  have hstep : ∀ (g : aushape_gbuf) (r : Option aushape_gbuf)
      (k2 : aushape_conv_execve_coll → aushape_rc × aushape_conv_execve_coll),
      (aushape_gbuf_is_valid coll.args = true → aushape_gbuf_is_valid g = true) →
      grows g r →
      (∀ g2, (aushape_gbuf_is_valid coll.args = true → aushape_gbuf_is_valid g2 = true) →
        P (k2 { coll with args := g2 })) →
      P (guard_args { coll with args := g } r k2) := by
    intro g r k2 hg hr hk2
    unfold guard_args
    cases r with
    | none => exact hnomem g hg
    | some g2 => exact hk2 g2 fun h => hr g2 rfl (hg h)
  unfold add_arg_slice_begin
  split
  · cases coll.format.lang with
    | XML =>
      simp only [aushape_gbuf_space_opening, aushape_gbuf_add_str]
      refine hstep coll.args _ _ id (grows_add_buf _ _) fun g1 hg1 => ?_
      refine hstep g1 _ _ hg1 (grows_add_buf _ _) fun g2 hg2 => ?_
      exact hk g2 hg2
    | JSON =>
      simp only [aushape_gbuf_space_opening, aushape_gbuf_add_char]
      refine hstep coll.args _ _ id (grows_ite _ _ (grows_add_buf _ _) (grows_some _))
        fun g1 hg1 => ?_
      refine hstep g1 _ _ hg1 (grows_add_buf _ _) fun g2 hg2 => ?_
      refine hstep g2 _ _ hg2 (grows_add_buf _ _) fun g3 hg3 => ?_
      exact hk g3 hg3
  · exact hk coll.args id

theorem add_arg_slice_valid {coll : aushape_conv_execve_coll} (E : aushape_escaping)
    (level N K : Nat) (au : au_field)
    (hv : aushape_conv_execve_coll_is_valid coll = true) :
    aushape_conv_execve_coll_is_valid
      (aushape_conv_execve_coll_add_arg_slice E coll level N K au).2 = true := by
  unfold aushape_conv_execve_coll_add_arg_slice
  split
  · exact hv
  · rename_i hg
    have hg : N = coll.arg_idx ∧ N < coll.arg_num ∧ coll.got_len = true ∧
        K = coll.slice_idx := not_not.mp hg
    cases au.str with
    | none => exact hv
    | some raw_str =>
      simp only
      cases au.interp with
      | none => exact hv
      | some int_str =>
        simp only
        split
        · exact hv
        · rename_i hlen
          have hlen := not_not.mp hlen
          simp only [aushape_gbuf_add_str, aushape_gbuf_add_str_xml,
            aushape_gbuf_add_str_json, aushape_gbuf_add_char]
          have hset : ∀ g, (aushape_gbuf_is_valid coll.args = true →
              aushape_gbuf_is_valid g = true) →
              aushape_conv_execve_coll_is_valid { coll with args := g } = true := by
            intro g hg
            rw [is_valid_iff] at hv ⊢
            exact ⟨hv.1, hg hv.2.1, hv.2.2⟩
          refine add_arg_slice_begin_cases
            (P := fun r => aushape_conv_execve_coll_is_valid r.2 = true)
            (fun g hg => hset g hg) (fun g1 hg1 => ?_)
          have hv1 := hset g1 hg1
          simp only
          have hput : grows g1
              (match coll.format.lang with
               | aushape_lang.XML => aushape_gbuf_add_buf g1 (E.xml int_str)
               | aushape_lang.JSON => aushape_gbuf_add_buf g1 (E.json int_str)) := by
            cases coll.format.lang with
            | XML => exact grows_add_buf _ _
            | JSON => exact grows_add_buf _ _
          refine guard_args_valid hv1 hput fun g2 hv2 => ?_
          rw [is_valid_iff] at hv2
          obtain ⟨v1, v2, v3, v4, v5⟩ := hv2
          simp only at v1 v2 v3 v4 v5 ⊢
          have hread : aushape_conv_execve_coll_is_valid
              { coll with args := g2, len_read := coll.len_read +
                  slice_len raw_str.length int_str.length } = true := by
            rw [is_valid_iff]
            exact ⟨v1, v2, v3, v4, hlen⟩
          split
          · have hclose : grows g2
                (match coll.format.lang with
                 | aushape_lang.XML => aushape_gbuf_add_buf g2 "\"/>".toList
                 | aushape_lang.JSON => aushape_gbuf_add_buf g2 "\"".toList) := by
              cases coll.format.lang with
              | XML => exact grows_add_buf _ _
              | JSON => exact grows_add_buf _ _
            refine guard_args_valid hread hclose fun g3 hv3 => ?_
            rw [is_valid_iff] at hv3 ⊢
            refine ⟨hv3.1, hv3.2.1, ?_, ?_, ?_⟩ <;> simp only
            · omega
            · intro _; trivial
            · exact Nat.le_refl _
          · rw [is_valid_iff]
            refine ⟨v1, v2, v3, ?_, hlen⟩
            intro h
            exact absurd (hg.2.2.1.symm.trans h) (by simp)

theorem add_field_valid {coll : aushape_conv_execve_coll} (E : aushape_escaping)
    (l : Nat) (au : au_field) (hv : aushape_conv_execve_coll_is_valid coll = true) :
    aushape_conv_execve_coll_is_valid (add_field E l au coll).2 = true := by
  unfold add_field
  cases au.name with
  | none => exact hv
  | some nm =>
    simp only
    split
    · exact hv
    · split
      · exact hv
      · split
        · exact add_argc_valid l au hv
        · cases sscanf_a_zu nm with
          | some n => exact add_arg_valid E l n au hv
          | none =>
            simp only
            cases sscanf_a_zu_len nm with
            | some n => exact add_arg_len_valid E l n au hv
            | none =>
              simp only
              cases sscanf_a_zu_slice nm with
              | some p => exact add_arg_slice_valid E l p.1 p.2 au hv
              | none => exact hv

theorem add_fields_valid (E : aushape_escaping) (l : Nat) :
    ∀ (fields : List au_field) (coll : aushape_conv_execve_coll),
      aushape_conv_execve_coll_is_valid coll = true →
      aushape_conv_execve_coll_is_valid (add_fields E l fields coll).2 = true := by
  intro fields
  induction fields with
  | nil => intro coll hv; exact hv
  | cons au rest ih =>
    intro coll hv
    rw [add_fields_cons]
    refine guard_rc_valid (add_field_valid E l au hv) fun c hc => ?_
    have := add_field_valid E l au hv
    rw [hc] at this
    exact ih c this

theorem add_valid {coll : aushape_conv_execve_coll} (E : aushape_escaping)
    (level : Nat) (au : au_record) (hv : aushape_conv_execve_coll_is_valid coll = true) :
    aushape_conv_execve_coll_is_valid
      (aushape_conv_execve_coll_add E coll level au).2 = true := by
  unfold aushape_conv_execve_coll_add
  simp only [aushape_gbuf_add_char]
  refine guard_raw_valid hv (grows_ite _ _ (grows_add_buf _ _) (grows_some _))
    fun g1 hv1 => ?_
  cases au.text with
  | none => exact hv1
  | some raw =>
    simp only
    refine guard_raw_valid hv1 (grows_add_buf _ _) fun g2 hv2 => ?_
    cases au.fields with
    | nil => exact hv2
    | cons f rest => exact add_fields_valid E _ (f :: rest) _ hv2

theorem add_records_valid (E : aushape_escaping) (level : Nat) :
    ∀ (recs : List au_record) (coll : aushape_conv_execve_coll),
      aushape_conv_execve_coll_is_valid coll = true →
      aushape_conv_execve_coll_is_valid (add_records E level recs coll).2 = true := by
  intro recs
  induction recs with
  | nil => intro coll hv; exact hv
  | cons au rest ih =>
    intro coll hv
    unfold add_records
    refine guard_rc_valid (add_valid E level au hv) fun c hc => ?_
    have := add_valid E level au hv
    rw [hc] at this
    exact ih c this

theorem end_arguments_valid {coll : aushape_conv_execve_coll} (E : aushape_escaping)
    (level : Nat) (hv : aushape_conv_execve_coll_is_valid coll = true) :
    aushape_conv_execve_coll_is_valid (end_arguments E level coll).2 = true := by
  unfold end_arguments
  have hsv := add_skipped_valid E (arg_level coll.format level) coll.arg_num
    (coll.arg_num - coll.arg_idx) hv (Nat.le_refl _)
  refine guard_rc_valid hsv fun c1 hc1 => ?_
  rw [hc1] at hsv
  simp only at hsv
  refine guard_gbuf_valid hsv fun g1 hv1 => ?_
  simp only
  cases c1.format.lang with
  | XML =>
    simp only
    refine guard_gbuf_valid hv1 fun g2 hv2 => ?_
    refine guard_gbuf_valid hv2 fun g3 hv3 => ?_
    exact hv3
  | JSON =>
    simp only
    refine guard_gbuf_valid hv1 fun g2 hv2 => ?_
    refine guard_gbuf_valid hv2 fun g3 hv3 => ?_
    refine guard_gbuf_valid hv3 fun g4 hv4 => ?_
    refine guard_gbuf_valid hv4 fun g5 hv5 => ?_
    exact hv5

theorem end_run_valid {coll : aushape_conv_execve_coll} (E : aushape_escaping)
    (level : Nat) (pfirst : Bool) (hv : aushape_conv_execve_coll_is_valid coll = true) :
    aushape_conv_execve_coll_is_valid (end_run E coll level pfirst).2 = true := by
  unfold end_run
  cases coll.format.lang with
  | XML =>
    simp only
    refine guard_gbuf_valid hv fun g1 hv1 => ?_
    refine guard_gbuf_valid hv1 fun g2 hv2 => ?_
    refine guard_gbuf_valid hv2 fun g3 hv3 => ?_
    refine guard_gbuf_valid hv3 fun g4 hv4 => ?_
    exact end_arguments_valid E level hv4
  | JSON =>
    simp only
    refine guard_gbuf_valid hv fun g1 hv1 => ?_
    refine guard_gbuf_valid hv1 fun g2 hv2 => ?_
    refine guard_gbuf_valid hv2 fun g3 hv3 => ?_
    refine guard_gbuf_valid hv3 fun g4 hv4 => ?_
    refine guard_gbuf_valid hv4 fun g5 hv5 => ?_
    refine guard_gbuf_valid hv5 fun g6 hv6 => ?_
    refine guard_gbuf_valid hv6 fun g7 hv7 => ?_
    refine guard_gbuf_valid hv7 fun g8 hv8 => ?_
    refine guard_gbuf_valid hv8 fun g9 hv9 => ?_
    exact end_arguments_valid E level hv9

theorem execve_event_valid {coll : aushape_conv_execve_coll} (E : aushape_escaping)
    (level : Nat) (pfirst : Bool) (recs : List au_record)
    (hv : aushape_conv_execve_coll_is_valid coll = true) :
    aushape_conv_execve_coll_is_valid (execve_event E coll level pfirst recs).2.1 = true := by
  have hr := add_records_valid E level recs coll hv
  unfold execve_event
  cases hrun : add_records E level recs coll with
  | mk rc c1 =>
    rw [hrun] at hr
    cases rc
    · exact end_run_valid E level pfirst hr
    all_goals exact hr

/-- C18: the state invariant `arg_idx <= arg_num`, `got_len` false implies
`slice_idx = 0` and `len_total = 0`, `len_read <= len_total` is part of the validity
check of the collector, and a collector that passes the check passes it again after
every field-processing operation (`argc`, `a<N>`, `a<N>_len`, `a<N>[<K>]`), after
skip-filling up to any index not above `arg_num` and after finalize, whatever the
return code of the operation; so it does after every sequence of fields, every
record and every sequence of records followed by finalize. The collector as it is
created passes the check, hence so does the collector reached from it by any sequence
of fields. -/
theorem is_valid_preserved (E : aushape_escaping) (coll : aushape_conv_execve_coll)
    (level : Nat) (hvalid : aushape_conv_execve_coll_is_valid coll = true) :
    counters_valid coll ∧
    (∀ au, aushape_conv_execve_coll_is_valid
      (aushape_conv_execve_coll_add_argc coll level au).2 = true) ∧
    (∀ N au, aushape_conv_execve_coll_is_valid
      (aushape_conv_execve_coll_add_arg E coll level N au).2 = true) ∧
    (∀ N au, aushape_conv_execve_coll_is_valid
      (aushape_conv_execve_coll_add_arg_len E coll level N au).2 = true) ∧
    (∀ N K au, aushape_conv_execve_coll_is_valid
      (aushape_conv_execve_coll_add_arg_slice E coll level N K au).2 = true) ∧
    (∀ target fuel, target ≤ coll.arg_num →
      aushape_conv_execve_coll_is_valid (add_skipped E level target fuel coll).2 = true) ∧
    (∀ pfirst, aushape_conv_execve_coll_is_valid
      (aushape_conv_execve_coll_end E coll level pfirst).2.1 = true) ∧
    (∀ fields, aushape_conv_execve_coll_is_valid
      (add_fields E level fields coll).2 = true) ∧
    (∀ au, aushape_conv_execve_coll_is_valid
      (aushape_conv_execve_coll_add E coll level au).2 = true) ∧
    (∀ recs pfirst, aushape_conv_execve_coll_is_valid
      (execve_event E coll level pfirst recs).2.1 = true) ∧
    (∀ format fields, aushape_conv_execve_coll_is_valid (coll_zero format) = true ∧
      aushape_conv_execve_coll_is_valid
        (add_fields E level fields (coll_zero format)).2 = true ∧
      counters_valid (add_fields E level fields (coll_zero format)).2) :=
  ⟨((is_valid_iff coll).mp hvalid).2.2,
   fun au => add_argc_valid level au hvalid,
   fun N au => add_arg_valid E level N au hvalid,
   fun N au => add_arg_len_valid E level N au hvalid,
   fun N K au => add_arg_slice_valid E level N K au hvalid,
   fun target fuel ht => add_skipped_valid E level target fuel hvalid ht,
   fun pfirst => end_run_valid E level pfirst hvalid,
   fun fields => add_fields_valid E level fields coll hvalid,
   fun au => add_valid E level au hvalid,
   fun recs pfirst => execve_event_valid E level pfirst recs hvalid,
   fun format fields =>
     ⟨rfl, add_fields_valid E level fields (coll_zero format) rfl,
      ((is_valid_iff _).mp (add_fields_valid E level fields (coll_zero format) rfl)).2.2⟩⟩

/-- C18, witness: the collector that has seen `argc=2` is valid, and it is still
valid after the field `a1_len=x`, which fails after the skipped argument has been
added and `got_len` set. -/
theorem is_valid_preserved_witness :
    aushape_conv_execve_coll_is_valid { coll_zero format_json0 with arg_num := 2 } = true ∧
    (aushape_conv_execve_coll_add_arg_len escaping_id
      { coll_zero format_json0 with arg_num := 2 } 2 1 (field_of "a1_len" "x" "x")).1 =
      aushape_rc.CONV_INVALID_EXECVE ∧
    aushape_conv_execve_coll_is_valid (aushape_conv_execve_coll_add_arg_len escaping_id
      { coll_zero format_json0 with arg_num := 2 } 2 1 (field_of "a1_len" "x" "x")).2 =
      true :=
  ⟨by decide, by decide,
   (is_valid_preserved escaping_id { coll_zero format_json0 with arg_num := 2 } 2
      (by decide)).2.2.2.1 1 (field_of "a1_len" "x" "x")⟩

/-! ### The event assembler -/

theorem buf_guard_rc_none {σ : Type} (buf : aushape_conv_buf σ) (p t : List Char)
    (k : aushape_conv_buf σ → aushape_rc × aushape_conv_buf σ) :
    buf_guard_rc buf (aushape_gbuf_add_buf { ptr := p, room := none } t) k =
      k { buf with gbuf := { ptr := p ++ t, room := none } } := rfl

theorem buf_guard_rc_some {σ : Type} (buf : aushape_conv_buf σ) (g : aushape_gbuf)
    (k : aushape_conv_buf σ → aushape_rc × aushape_conv_buf σ) :
    buf_guard_rc buf (some g) k = k { buf with gbuf := g } := rfl

theorem buf_guard_bool_none {σ : Type} (buf : aushape_conv_buf σ) (p t : List Char)
    (k : aushape_conv_buf σ → aushape_rc × aushape_conv_buf σ) :
    buf_guard_bool buf (aushape_gbuf_add_buf { ptr := p, room := none } t) k =
      k { buf with gbuf := { ptr := p ++ t, room := none } } := rfl

theorem buf_guard_bool_some {σ : Type} (buf : aushape_conv_buf σ) (g : aushape_gbuf)
    (k : aushape_conv_buf σ → aushape_rc × aushape_conv_buf σ) :
    buf_guard_bool buf (some g) k = k { buf with gbuf := g } := rfl

theorem add_event_header_unbounded {σ : Type} (E : aushape_escaping)
    (format : aushape_format) (p : List Char) (s : σ) (first : Bool) (l : Nat)
    (e : au_event) (ts : List Char)
    (k : Nat → aushape_conv_buf σ → aushape_rc × aushape_conv_buf σ) :
    add_event_header E { format := format, gbuf := { ptr := p, room := none }, coll := s }
        first l e ts k =
      k (records_level format l - 1)
        { format := format
          gbuf := { ptr := p ++ event_header E format first l e ts, room := none }
          coll := s } := by
  unfold add_event_header event_header records_level
  cases format.lang with
  | XML =>
    cases e.host with
    | none =>
      simp only [aushape_gbuf_space_opening, aushape_gbuf_add_fmt, aushape_gbuf_add_str,
        buf_guard_rc_none, List.append_assoc, List.append_nil, Nat.add_sub_cancel]
    | some host =>
      simp only [aushape_gbuf_space_opening, aushape_gbuf_add_fmt, aushape_gbuf_add_str,
        aushape_gbuf_add_str_xml, buf_guard_rc_none, List.append_assoc,
        Nat.add_sub_cancel]
  | JSON =>
    cases first with
    | true =>
      cases e.host with
      | none =>
        simp only [aushape_gbuf_space_opening, aushape_gbuf_add_fmt, aushape_gbuf_add_str,
          aushape_gbuf_add_char, buf_guard_rc_none, buf_guard_bool_some,
          not_true_eq_false, if_false, if_true, List.append_assoc, List.append_nil,
          List.nil_append, Nat.add_sub_cancel]
        rfl
      | some host =>
        simp only [aushape_gbuf_space_opening, aushape_gbuf_add_fmt, aushape_gbuf_add_str,
          aushape_gbuf_add_char, aushape_gbuf_add_str_json, buf_guard_rc_none,
          buf_guard_bool_some, not_true_eq_false, if_false, if_true, List.append_assoc,
          List.nil_append, Nat.add_sub_cancel]
        rfl
    | false =>
      cases e.host with
      | none =>
        simp only [aushape_gbuf_space_opening, aushape_gbuf_add_fmt, aushape_gbuf_add_str,
          aushape_gbuf_add_char, buf_guard_rc_none, buf_guard_bool_none,
          Bool.false_eq_true, not_false_eq_true, if_false, if_true, List.append_assoc,
          List.append_nil, Nat.add_sub_cancel]
        rfl
      | some host =>
        simp only [aushape_gbuf_space_opening, aushape_gbuf_add_fmt, aushape_gbuf_add_str,
          aushape_gbuf_add_char, aushape_gbuf_add_str_json, buf_guard_rc_none,
          buf_guard_bool_none, Bool.false_eq_true, not_false_eq_true, if_false, if_true,
          List.append_assoc, Nat.add_sub_cancel]
        rfl

theorem add_event_footer_unbounded {σ : Type} (format : aushape_format) (p : List Char)
    (s : σ) (level : Nat) (first_record : Bool) :
    add_event_footer { format := format, gbuf := { ptr := p, room := none }, coll := s }
        (records_level format level - 1) first_record =
      (aushape_rc.OK,
        { format := format
          gbuf := { ptr := p ++ event_footer format level first_record, room := none }
          coll := s }) := by
  unfold add_event_footer event_footer records_level
  cases format.lang with
  | XML =>
    simp only [aushape_gbuf_space_closing, aushape_gbuf_add_str, buf_guard_rc_none,
      List.append_assoc, Nat.add_sub_cancel]
  | JSON =>
    cases first_record with
    | true =>
      simp only [aushape_gbuf_space_closing, aushape_gbuf_add_char, buf_guard_rc_none,
        buf_guard_rc_some, not_true_eq_false, if_false, if_true, List.append_assoc,
        List.nil_append, Nat.add_sub_cancel]
      rfl
    | false =>
      simp only [aushape_gbuf_space_closing, aushape_gbuf_add_char, buf_guard_rc_none,
        Bool.false_eq_true, not_false_eq_true, if_false, if_true, List.append_assoc,
        Nat.add_sub_cancel]
      rfl

theorem add_event_unbounded {σ ρ : Type} (E : aushape_escaping) (T : libc_time)
    (C : aushape_conv_coll σ ρ) (format : aushape_format) (p : List Char) (s s2 : σ)
    (first : Bool) (au : auparse_state ρ) (e : au_event) (L : Nat) (R : List Char)
    (fr : Bool) (hL : L = if format.events_per_doc = true then 1 else 0)
    (hts : au.timestamp = some e) (hrec : au.records ≠ [])
    (hrun : coll_run C (records_level format L) au.records s
        { ptr := p ++ event_header E format first L e (timestamp_buf T e), room := none } =
      (aushape_rc.OK, s2,
        { ptr := p ++ event_header E format first L e (timestamp_buf T e) ++ R,
          room := none }, fr)) :
    aushape_conv_buf_add_event E T C
        { format := format, gbuf := { ptr := p, room := none }, coll := s } first au =
      (aushape_rc.OK,
        { format := format
          gbuf := { ptr := p ++ event_header E format first L e (timestamp_buf T e) ++ R ++
                      event_footer format L fr, room := none }
          coll := s2 }) := by
  have hlev : (if (format.events_per_doc != false) = true then 1 else 0) = L := by
    rw [hL]
    cases format.events_per_doc <;> rfl
  have hpos : records_level format L - 1 + 1 = records_level format L := by
    unfold records_level
    cases format.lang <;> simp
  unfold aushape_conv_buf_add_event
  simp only [hts, hlev]
  rw [add_event_header_unbounded]
  simp only [hpos]
  cases hrecs : au.records with
  | nil => exact absurd hrecs hrec
  | cons r rest =>
    simp only
    rw [hrecs] at hrun
    unfold coll_run at hrun
    cases hadd : coll_add_records C (records_level format L) (r :: rest) s
        { ptr := p ++ event_header E format first L e (timestamp_buf T e), room := none }
        true with
    | mk rc x =>
      obtain ⟨s1, g1, f1⟩ := x
      rw [hadd] at hrun
      cases rc
      · simp only at hrun ⊢
        rw [hrun]
        simp only
        rw [add_event_footer_unbounded]
      all_goals (simp only [Prod.mk.injEq] at hrun; exact absurd hrun.1 (by decide))

/-- C19, as the code has it: the event assembler places the header and the footer of
an event at nesting level 1 if `events_per_doc` is set and at nesting level 0
otherwise. For an event that has a timestamp and a record, an output buffer that can
always grow and a collector that ends with `OK` having appended `R`: `add_event`
returns `OK`, the collector is called at the level below the header (one more for
XML, two more for JSON), and the buffer has gained the header at that level, `R` and
the footer at that level, so the text starts (after the comma of a non-first JSON
event) with the folding space of that level. -/
theorem event_level_spec {σ ρ : Type} (E : aushape_escaping) (T : libc_time)
    (C : aushape_conv_coll σ ρ) (format : aushape_format) (p : List Char) (s s2 : σ)
    (first : Bool) (au : auparse_state ρ) (e : au_event) (L : Nat) (R : List Char)
    (fr : Bool) (hL : L = if format.events_per_doc = true then 1 else 0)
    (hts : au.timestamp = some e) (hrec : au.records ≠ [])
    (hrun : coll_run C (records_level format L) au.records s
        { ptr := p ++ event_header E format first L e (timestamp_buf T e), room := none } =
      (aushape_rc.OK, s2,
        { ptr := p ++ event_header E format first L e (timestamp_buf T e) ++ R,
          room := none }, fr)) :
    aushape_conv_buf_add_event E T C
        { format := format, gbuf := { ptr := p, room := none }, coll := s } first au =
      (aushape_rc.OK,
        { format := format
          gbuf := { ptr := p ++ event_header E format first L e (timestamp_buf T e) ++ R ++
                      event_footer format L fr, room := none }
          coll := s2 }) ∧
    List.IsPrefix
      ((if format.lang = aushape_lang.JSON ∧ first = false then [','] else []) ++
        fold_space format L)
      (event_header E format first L e (timestamp_buf T e)) ∧
    List.IsSuffix
      (fold_space format L ++
        match format.lang with
        | aushape_lang.XML => "</event>".toList
        | aushape_lang.JSON => "\x7d".toList)
      (event_footer format L fr) := by
  refine ⟨add_event_unbounded E T C format p s s2 first au e L R fr hL hts hrec hrun,
    ?_, ?_⟩
  · unfold event_header
    cases format.lang with
    | XML =>
      simp only [false_and, if_false, List.nil_append, List.append_assoc]
      exact List.prefix_append _ _
    | JSON =>
      cases first with
      | true =>
        simp only [and_false, if_false, if_true, List.nil_append, List.append_assoc]
        exact List.prefix_append _ _
      | false =>
        simp only [and_self, if_true, Bool.false_eq_true, if_false, List.append_assoc]
        exact (List.prefix_append_right_inj _).mpr (List.prefix_append _ _)
  · unfold event_footer
    cases format.lang with
    | XML => exact List.suffix_refl _
    | JSON =>
      simp only [List.append_assoc]
      exact ⟨(if fr = true then [] else fold_space format (L + 1)) ++ "\x7d".toList,
        by simp only [List.append_assoc]⟩

/-- C19, witness: the event of the specification in XML with fold level 1 and bare
events; the header and the footer are at level 0, each after a line break. -/
theorem event_level_spec_witness :
    aushape_conv_buf_add_event escaping_id libc_utc0 (execve_only escaping_id)
        { format := format_xml_bare, gbuf := { ptr := [], room := none },
          coll := coll_zero format_xml_bare } true event_ls =
      (aushape_rc.OK,
        { format := format_xml_bare
          gbuf :=
            { ptr := [] ++ event_header escaping_id format_xml_bare true 0
                { sec := 0, milli := 0, serial := 100, host := none }
                (timestamp_buf libc_utc0
                  { sec := 0, milli := 0, serial := 100, host := none }) ++
                ("<execve raw=\"type=EXECVE argc=2 a0=/bin/ls a1_len=4 a1[0]=2f74\">" ++
                  "<a i=\"/bin/ls\"/><a i=\"/t\"/></execve>").toList ++
                event_footer format_xml_bare 0 false
              room := none }
          coll := (coll_run (execve_only escaping_id) 1 [record_ls]
            (coll_zero format_xml_bare)
            { ptr := ("\n<event serial=\"100\" " ++
                "time=\"1970-01-01T00:00:00.000+00:00\">").toList,
              room := none }).2.1 }) :=
  (event_level_spec escaping_id libc_utc0 (execve_only escaping_id) format_xml_bare []
    (coll_zero format_xml_bare)
    (coll_run (execve_only escaping_id) 1 [record_ls] (coll_zero format_xml_bare)
      { ptr := ("\n<event serial=\"100\" " ++
          "time=\"1970-01-01T00:00:00.000+00:00\">").toList,
        room := none }).2.1
    true event_ls { sec := 0, milli := 0, serial := 100, host := none } 0
    ("<execve raw=\"type=EXECVE argc=2 a0=/bin/ls a1_len=4 a1[0]=2f74\">" ++
      "<a i=\"/bin/ls\"/><a i=\"/t\"/></execve>").toList
    false (by decide) rfl (by decide) (by decide)).1

/-- C19, counterexample: with `events_per_doc` not set (and XML, fold level 1, where
level 0 is rendered after a line break and level 1 is not), the header and the footer
of the event are each placed after a line break, that is at level 0 and not at
level 1; with `events_per_doc` set they are not, that is they are at level 1. -/
theorem event_level_bare_is_zero :
    (aushape_conv_buf_add_event escaping_id libc_utc0 (execve_only escaping_id)
        { format := format_xml_bare, gbuf := { ptr := [], room := none },
          coll := coll_zero format_xml_bare } true event_ls).1 = aushape_rc.OK ∧
    (aushape_conv_buf_add_event escaping_id libc_utc0 (execve_only escaping_id)
        { format := format_xml_bare, gbuf := { ptr := [], room := none },
          coll := coll_zero format_xml_bare } true event_ls).2.gbuf.ptr =
      ("\n<event serial=\"100\" time=\"1970-01-01T00:00:00.000+00:00\">" ++
        "<execve raw=\"type=EXECVE argc=2 a0=/bin/ls a1_len=4 a1[0]=2f74\">" ++
        "<a i=\"/bin/ls\"/><a i=\"/t\"/></execve>\n</event>").toList ∧
    (aushape_conv_buf_add_event escaping_id libc_utc0 (execve_only escaping_id)
        { format := { format_xml_bare with events_per_doc := true },
          gbuf := { ptr := [], room := none },
          coll := coll_zero { format_xml_bare with events_per_doc := true } }
        true event_ls).2.gbuf.ptr =
      ("<event serial=\"100\" time=\"1970-01-01T00:00:00.000+00:00\">" ++
        "<execve raw=\"type=EXECVE argc=2 a0=/bin/ls a1_len=4 a1[0]=2f74\">" ++
        "<a i=\"/bin/ls\"/><a i=\"/t\"/></execve></event>").toList ∧
    fold_space format_xml_bare 0 = ['\n'] ∧ fold_space format_xml_bare 1 = [] :=
  ⟨by decide, by decide, by decide, by decide, by decide⟩

theorem fold_space_unfolded {format : aushape_format} (h : format.fold_level = 0)
    (level : Nat) : fold_space format level = [] := by
  unfold fold_space
  rw [h]
  simp

/-- C20: for an event with serial `N`, formatted timestamp `TS`, optional host `H` and
a collector that ends with `OK` having appended `R`, with fold level 0 (every level
on one line) and an output buffer that can always grow, `add_event` returns `OK` and
has appended exactly: for JSON a `,` if and only if the event is not the first, then
`{"serial":N,"time":"TS",`, then `"host":"<json-escaped H>",` only if a host is
present, then `"records":{R}}`; for XML `<event serial="N" time="TS"`, then
` host="<xml-escaped H>"` only if a host is present, then `>R</event>`. -/
theorem add_event_text {σ ρ : Type} (E : aushape_escaping) (T : libc_time)
    (C : aushape_conv_coll σ ρ) (format : aushape_format) (p : List Char) (s s2 : σ)
    (first : Bool) (au : auparse_state ρ) (e : au_event) (L : Nat) (R : List Char)
    (fr : Bool) (hfold : format.fold_level = 0)
    (hL : L = if format.events_per_doc = true then 1 else 0)
    (hts : au.timestamp = some e) (hrec : au.records ≠ [])
    (hrun : coll_run C (records_level format L) au.records s
        { ptr := p ++ event_header E format first L e (timestamp_buf T e), room := none } =
      (aushape_rc.OK, s2,
        { ptr := p ++ event_header E format first L e (timestamp_buf T e) ++ R,
          room := none }, fr)) :
    aushape_conv_buf_add_event E T C
        { format := format, gbuf := { ptr := p, room := none }, coll := s } first au =
      (aushape_rc.OK,
        { format := format
          gbuf := { ptr := p ++ event_text E format.lang first e (timestamp_buf T e) R,
                    room := none }
          coll := s2 }) := by
  rw [add_event_unbounded E T C format p s s2 first au e L R fr hL hts hrec hrun]
  have htext : p ++ event_header E format first L e (timestamp_buf T e) ++ R ++
      event_footer format L fr =
      p ++ event_text E format.lang first e (timestamp_buf T e) R := by
    unfold event_header event_footer event_text
    simp only [fold_space_unfolded hfold]
    cases format.lang with
    | XML => cases e.host <;> simp
    | JSON => cases e.host <;> cases first <;> cases fr <;> simp
  rw [htext]

/-- C20, witness: the event of the specification in JSON with fold level 0, not the
first of its document. -/
theorem add_event_text_witness :
    (aushape_conv_buf_add_event escaping_id libc_utc0 (execve_only escaping_id)
        { format := format_json0, gbuf := { ptr := ['['], room := none },
          coll := coll_zero format_json0 } false event_ls).2.gbuf.ptr =
      ("[,\x7b\"serial\":100,\"time\":\"1970-01-01T00:00:00.000+00:00\"," ++
        "\"records\":\x7b\"execve\":\x7b\"raw\":" ++
        "\"type=EXECVE argc=2 a0=/bin/ls a1_len=4 a1[0]=2f74\"," ++
        "\"args\":[\"/bin/ls\",\"/t\"]\x7d\x7d\x7d").toList :=
  (congrArg (fun r => r.2.gbuf.ptr)
    (add_event_text escaping_id libc_utc0 (execve_only escaping_id) format_json0 ['[']
      (coll_zero format_json0)
      (coll_run (execve_only escaping_id) 3 [record_ls] (coll_zero format_json0)
        { ptr := ("[,\x7b\"serial\":100,\"time\":\"1970-01-01T00:00:00.000+00:00\"," ++
            "\"records\":\x7b").toList,
          room := none }).2.1
      false event_ls { sec := 0, milli := 0, serial := 100, host := none } 1
      ("\"execve\":\x7b\"raw\":\"type=EXECVE argc=2 a0=/bin/ls a1_len=4 a1[0]=2f74\"," ++
        "\"args\":[\"/bin/ls\",\"/t\"]\x7d").toList
      false rfl (by decide) rfl (by decide) (by rfl))).trans (by rfl)

/-! ### The timestamp of an event -/

theorem toDigitsCore_step (fuel n : Nat) (ds : List Char) :
    Nat.toDigitsCore 10 (fuel + 1) n ds =
      if n / 10 = 0 then Nat.digitChar (n % 10) :: ds
      else Nat.toDigitsCore 10 fuel (n / 10) (Nat.digitChar (n % 10) :: ds) := by
  rw [Nat.toDigitsCore]

theorem fmt_03u_three_digits (m : Nat) (hm : m < 1000) : fmt_03u m = three_digits m := by
  unfold fmt_03u three_digits Nat.toDigits
  by_cases h1 : m < 10
  · have e1 : m / 10 = 0 := by omega
    have e2 : m / 100 = 0 := by omega
    have e3 : m % 10 = m := by omega
    rw [toDigitsCore_step, if_pos e1, e1, e2, e3]
    rfl
  · by_cases h2 : m < 100
    · obtain ⟨k, rfl⟩ : ∃ k, m = k + 1 := ⟨m - 1, by omega⟩
      have e1 : ¬ ((k + 1) / 10 = 0) := by omega
      have e2 : (k + 1) / 10 / 10 = 0 := by omega
      have e3 : (k + 1) / 100 = 0 := by omega
      rw [toDigitsCore_step, if_neg e1, toDigitsCore_step, if_pos e2, e3]
      rfl
    · obtain ⟨k, rfl⟩ : ∃ k, m = k + 2 := ⟨m - 2, by omega⟩
      have e1 : ¬ ((k + 2) / 10 = 0) := by omega
      have e2 : ¬ ((k + 2) / 10 / 10 = 0) := by omega
      have e3 : (k + 2) / 10 / 10 / 10 = 0 := by omega
      have e4 : (k + 2) / 10 / 10 = (k + 2) / 100 := by omega
      have e5 : (k + 2) / 100 % 10 = (k + 2) / 100 := by omega
      rw [toDigitsCore_step, if_neg e1, toDigitsCore_step, if_neg e2, toDigitsCore_step,
        if_pos e3, e4, e5]
      rfl

/-- C21: when `strftime` renders the broken-down time as a string `t` of 19 characters
(`YYYY-MM-DDTHH:MM:SS`), the milliseconds `m` are below 1000 and the zone string is
`sHHMM`, five characters, the timestamp of the event is `t`, then `.`, then `m` with
exactly three digits, zeros included, then `sHH`, then `:`, then `MM`; it has 29
characters, so nothing of it is cut off by the 64 characters of its buffer. -/
theorem timestamp_shape (T : libc_time) (e : au_event) (t : List Char)
    (s h1 h2 m1 m2 : Char) (ht : T.time_buf e.sec = t) (hlen : t.length = 19)
    (hm : e.milli < 1000) (hz : T.zone_buf e.sec = [s, h1, h2, m1, m2]) :
    timestamp_buf T e =
      t ++ ['.'] ++ three_digits e.milli ++ [s, h1, h2] ++ [':'] ++ [m1, m2] ∧
    (timestamp_buf T e).length = 29 := by
  have hts : timestamp_buf T e =
      t ++ ['.'] ++ three_digits e.milli ++ [s, h1, h2] ++ [':'] ++ [m1, m2] := by
    unfold timestamp_buf
    rw [ht, hz, fmt_03u_three_digits e.milli hm]
    rw [List.take_of_length_le]
    · simp [three_digits]
    · simp [three_digits, hlen]
  refine ⟨hts, ?_⟩
  rw [hts]
  simp [three_digits, hlen]

/-- C21, witness: second 0 and millisecond 7 on a machine in UTC. -/
theorem timestamp_shape_witness :
    timestamp_buf libc_utc0 { sec := 0, milli := 7, serial := 1, host := none } =
      "1970-01-01T00:00:00.007+00:00".toList :=
  (timestamp_shape libc_utc0 { sec := 0, milli := 7, serial := 1, host := none }
    "1970-01-01T00:00:00".toList '+' '0' '0' '0' '0' rfl (by decide) (by decide) rfl).1.trans
    (by decide)

/-- C22: if the source does not supply the timestamp of the event
(`auparse_get_timestamp` returns `NULL`), `add_event` returns `CONV_AUPARSE_FAILED`
and the converter buffer, output buffer and collector, is exactly as it was. -/
theorem add_event_no_timestamp {σ ρ : Type} (E : aushape_escaping) (T : libc_time)
    (C : aushape_conv_coll σ ρ) (buf : aushape_conv_buf σ) (first : Bool)
    (au : auparse_state ρ) (h : au.timestamp = none) :
    aushape_conv_buf_add_event E T C buf first au =
      (aushape_rc.CONV_AUPARSE_FAILED, buf) := by
  unfold aushape_conv_buf_add_event
  simp only [h]

/-- C22, witness: the record of the specification in an event without timestamp, the
output buffer holding `[`. -/
theorem add_event_no_timestamp_witness :
    aushape_conv_buf_add_event escaping_id libc_utc0 (execve_only escaping_id)
        { format := format_json0, gbuf := { ptr := ['['], room := none },
          coll := coll_zero format_json0 } false
        { timestamp := none, records := [record_ls] } =
      (aushape_rc.CONV_AUPARSE_FAILED,
        { format := format_json0, gbuf := { ptr := ['['], room := none },
          coll := coll_zero format_json0 }) :=
  add_event_no_timestamp escaping_id libc_utc0 (execve_only escaping_id)
    { format := format_json0, gbuf := { ptr := ['['], room := none },
      coll := coll_zero format_json0 } false
    { timestamp := none, records := [record_ls] } rfl

/-! ### Failures of the event assembler -/

theorem buf_guard_rc_cases {σ : Type} {P : aushape_rc × aushape_conv_buf σ → Prop}
    {b : aushape_conv_buf σ} {r : Option aushape_gbuf}
    {k : aushape_conv_buf σ → aushape_rc × aushape_conv_buf σ}
    (hnomem : P (aushape_rc.NOMEM, b)) (hk : ∀ g, P (k { b with gbuf := g })) :
    P (buf_guard_rc b r k) := by
  unfold buf_guard_rc
  cases r with
  | none => exact hnomem
  | some g => exact hk g

theorem add_event_header_cases {σ : Type} (E : aushape_escaping)
    (buf : aushape_conv_buf σ) (first : Bool) (l : Nat) (e : au_event) (ts : List Char)
    (k : Nat → aushape_conv_buf σ → aushape_rc × aushape_conv_buf σ)
    (P : aushape_rc × aushape_conv_buf σ → Prop)
    (hnomem : ∀ g, P (aushape_rc.NOMEM, { buf with gbuf := g }))
    (hcomma : comma_fails buf first → P (aushape_rc.OK, buf))
    (hk : ∀ g, P (k (records_level buf.format l - 1) { buf with gbuf := g })) :
    P (add_event_header E buf first l e ts k) := by
  unfold add_event_header
  cases hl : buf.format.lang with
  | XML =>
    have hlev : records_level buf.format l - 1 = l := by
      simp [records_level, hl]
    rw [hlev] at hk
    simp only
    refine buf_guard_rc_cases (hnomem buf.gbuf) fun g1 => ?_
    refine buf_guard_rc_cases (hnomem g1) fun g2 => ?_
    cases e.host with
    | none =>
      simp only
      refine buf_guard_rc_cases (hnomem g2) fun g3 => ?_
      exact hk g3
    | some host =>
      simp only
      refine buf_guard_rc_cases (hnomem g2) fun g3 => ?_
      refine buf_guard_rc_cases (hnomem g3) fun g4 => ?_
      refine buf_guard_rc_cases (hnomem g4) fun g5 => ?_
      refine buf_guard_rc_cases (hnomem g5) fun g6 => ?_
      exact hk g6
  | JSON =>
    have hlev : records_level buf.format l - 1 = l + 1 := by
      simp [records_level, hl]
    rw [hlev] at hk
    simp only
    have hrest : ∀ g0, P
        (buf_guard_rc { buf with gbuf := g0 }
          (aushape_gbuf_space_opening g0 buf.format l) fun buf =>
        buf_guard_rc buf (aushape_gbuf_add_char buf.gbuf '\x7b') fun buf =>
        buf_guard_rc buf (aushape_gbuf_space_opening buf.gbuf buf.format (l + 1))
          fun buf =>
        buf_guard_rc buf (aushape_gbuf_add_fmt buf.gbuf
          ("\"serial\":".toList ++ fmt_lu e.serial ++ ",".toList)) fun buf =>
        buf_guard_rc buf (aushape_gbuf_space_opening buf.gbuf buf.format (l + 1))
          fun buf =>
        buf_guard_rc buf (aushape_gbuf_add_fmt buf.gbuf
          ("\"time\":\"".toList ++ ts ++ "\",".toList)) fun buf =>
        match e.host with
        | some host =>
          buf_guard_rc buf (aushape_gbuf_space_opening buf.gbuf buf.format (l + 1))
            fun buf =>
          buf_guard_rc buf (aushape_gbuf_add_str buf.gbuf "\"host\":\"") fun buf =>
          buf_guard_rc buf (aushape_gbuf_add_str_json E buf.gbuf host) fun buf =>
          buf_guard_rc buf (aushape_gbuf_add_str buf.gbuf "\",") fun buf =>
          buf_guard_rc buf (aushape_gbuf_space_opening buf.gbuf buf.format (l + 1))
            fun buf =>
          buf_guard_rc buf (aushape_gbuf_add_str buf.gbuf "\"records\":\x7b") fun buf =>
          k (l + 1) buf
        | none =>
          buf_guard_rc buf (aushape_gbuf_space_opening buf.gbuf buf.format (l + 1))
            fun buf =>
          buf_guard_rc buf (aushape_gbuf_add_str buf.gbuf "\"records\":\x7b") fun buf =>
          k (l + 1) buf) := by
      intro g0
      refine buf_guard_rc_cases (hnomem g0) fun g1 => ?_
      refine buf_guard_rc_cases (hnomem g1) fun g2 => ?_
      refine buf_guard_rc_cases (hnomem g2) fun g3 => ?_
      refine buf_guard_rc_cases (hnomem g3) fun g4 => ?_
      refine buf_guard_rc_cases (hnomem g4) fun g5 => ?_
      refine buf_guard_rc_cases (hnomem g5) fun g6 => ?_
      cases e.host with
      | none =>
        simp only
        refine buf_guard_rc_cases (hnomem g6) fun g7 => ?_
        refine buf_guard_rc_cases (hnomem g7) fun g8 => ?_
        exact hk g8
      | some host =>
        simp only
        refine buf_guard_rc_cases (hnomem g6) fun g7 => ?_
        refine buf_guard_rc_cases (hnomem g7) fun g8 => ?_
        refine buf_guard_rc_cases (hnomem g8) fun g9 => ?_
        refine buf_guard_rc_cases (hnomem g9) fun g10 => ?_
        refine buf_guard_rc_cases (hnomem g10) fun g11 => ?_
        refine buf_guard_rc_cases (hnomem g11) fun g12 => ?_
        exact hk g12
    unfold buf_guard_bool
    cases first with
    | true =>
      simp only [not_true_eq_false, if_false]
      exact hrest buf.gbuf
    | false =>
      simp only [Bool.false_eq_true, not_false_eq_true, if_true]
      cases hc : aushape_gbuf_add_char buf.gbuf ',' with
      | none => exact hcomma ⟨hl, rfl, hc⟩
      | some g0 => exact hrest g0

theorem add_event_footer_cases {σ : Type} (buf : aushape_conv_buf σ) (l : Nat)
    (first_record : Bool) (P : aushape_rc × aushape_conv_buf σ → Prop)
    (hnomem : ∀ g, P (aushape_rc.NOMEM, { buf with gbuf := g }))
    (hok : ∀ g, P (aushape_rc.OK, { buf with gbuf := g })) :
    P (add_event_footer buf l first_record) := by
  unfold add_event_footer
  cases buf.format.lang with
  | XML =>
    simp only
    refine buf_guard_rc_cases (hnomem buf.gbuf) fun g1 => ?_
    refine buf_guard_rc_cases (hnomem g1) fun g2 => ?_
    exact hok g2
  | JSON =>
    simp only
    refine buf_guard_rc_cases (hnomem buf.gbuf) fun g1 => ?_
    refine buf_guard_rc_cases (hnomem g1) fun g2 => ?_
    refine buf_guard_rc_cases (hnomem g2) fun g3 => ?_
    refine buf_guard_rc_cases (hnomem g3) fun g4 => ?_
    exact hok g4

theorem event_level_eq (format : aushape_format) :
    (if (format.events_per_doc != false) = true then 1 else 0) = event_level format := by
  unfold event_level
  cases format.events_per_doc <;> rfl

theorem records_level_pos (format : aushape_format) (L : Nat) :
    records_level format L - 1 + 1 = records_level format L := by
  unfold records_level
  cases format.lang <;> simp

theorem add_event_cases {σ ρ : Type} (E : aushape_escaping) (T : libc_time)
    (C : aushape_conv_coll σ ρ) (buf : aushape_conv_buf σ) (first : Bool)
    (au : auparse_state ρ) :
    add_event_outcome C buf first au (aushape_conv_buf_add_event E T C buf first au) := by
  cases hts : au.timestamp with
  | none =>
    right; left
    unfold aushape_conv_buf_add_event
    simp only [hts]
  | some e =>
    unfold aushape_conv_buf_add_event
    simp only [hts, event_level_eq]
    refine add_event_header_cases E buf first (event_level buf.format) e
      (timestamp_buf T e) _ (add_event_outcome C buf first au)
      (fun g => Or.inl rfl) (fun hc => Or.inr (Or.inr (Or.inl ⟨hc, rfl⟩))) fun g => ?_
    simp only [records_level_pos]
    cases hrecs : au.records with
    | nil => exact Or.inr (Or.inl rfl)
    | cons r rest =>
      simp only
      have hne : au.records ≠ [] := by rw [hrecs]; exact List.cons_ne_nil _ _
      cases hadd : coll_add_records C
          (records_level buf.format (event_level buf.format)) (r :: rest) buf.coll g
          true with
      | mk rc x =>
        obtain ⟨s1, g1, f1⟩ := x
        have hbad : rc ≠ aushape_rc.OK →
            coll_run C (records_level buf.format (event_level buf.format))
              au.records buf.coll g = (rc, s1, g1, f1) := by
          intro hrc
          unfold coll_run
          rw [hrecs, hadd]
          cases rc
          · exact absurd rfl hrc
          all_goals rfl
        cases rc
        case OK =>
          have hrun : coll_run C (records_level buf.format (event_level buf.format))
              au.records buf.coll g =
              C.coll_end s1 g1 (records_level buf.format (event_level buf.format))
                f1 := by
            unfold coll_run
            rw [hrecs, hadd]
          simp only
          cases hend : C.coll_end s1 g1
              (records_level buf.format (event_level buf.format)) f1 with
          | mk rc2 y =>
            obtain ⟨s2, g2, f2⟩ := y
            rw [hend] at hrun
            cases rc2
            case OK =>
              simp only
              refine add_event_footer_cases _ _ _ (add_event_outcome C buf first au)
                (fun g3 => Or.inl rfl) fun g3 => ?_
              exact Or.inr (Or.inr (Or.inr ⟨g, hne, by rw [hrun]⟩))
            all_goals
              (simp only
               exact Or.inr (Or.inr (Or.inr ⟨g, hne, by rw [hrun]⟩)))
        all_goals
          (have hrun := hbad (by decide)
           simp only
           exact Or.inr (Or.inr (Or.inr ⟨g, hne, by rw [hrun]⟩)))

theorem add_event_error_unbounded {σ ρ : Type} (E : aushape_escaping) (T : libc_time)
    (C : aushape_conv_coll σ ρ) (format : aushape_format) (p : List Char) (s : σ)
    (first : Bool) (au : auparse_state ρ) (e : au_event)
    (hts : au.timestamp = some e) (hrec : au.records ≠ [])
    (hrun : (coll_run C (records_level format (event_level format)) au.records s
        { ptr := p ++ event_header E format first (event_level format) e
            (timestamp_buf T e), room := none }).1 ≠ aushape_rc.OK) :
    (aushape_conv_buf_add_event E T C
        { format := format, gbuf := { ptr := p, room := none }, coll := s } first au).1 =
      (coll_run C (records_level format (event_level format)) au.records s
        { ptr := p ++ event_header E format first (event_level format) e
            (timestamp_buf T e), room := none }).1 := by
  unfold aushape_conv_buf_add_event
  simp only [hts, event_level_eq]
  rw [add_event_header_unbounded]
  simp only [records_level_pos]
  cases hrecs : au.records with
  | nil => exact absurd hrecs hrec
  | cons r rest =>
    simp only
    rw [hrecs] at hrun
    unfold coll_run at hrun ⊢
    cases hadd : coll_add_records C (records_level format (event_level format))
        (r :: rest) s
        { ptr := p ++ event_header E format first (event_level format) e
            (timestamp_buf T e), room := none } true with
    | mk rc x =>
      obtain ⟨s1, g1, f1⟩ := x
      rw [hadd] at hrun
      cases rc
      case OK =>
        simp only at hrun
        simp only
      all_goals rfl

/-- C23: for an event without records (`auparse_first_record` reports none),
`add_event` does not call the collector: its result is the same with any collector
and the state of the collector is as before. The return code is
`CONV_AUPARSE_FAILED`, unless an append of the header to the output buffer failed
before (`NOMEM`, or 0 for the `,` of a non-first JSON event); it is
`CONV_AUPARSE_FAILED` when the source gives no timestamp and when the output buffer
can always grow, and then the header of the event is what has been appended. -/
theorem add_event_no_records {σ ρ : Type} (E : aushape_escaping) (T : libc_time)
    (C : aushape_conv_coll σ ρ) (buf : aushape_conv_buf σ) (first : Bool)
    (au : auparse_state ρ) (hrec : au.records = []) :
    (∀ C2 : aushape_conv_coll σ ρ,
      aushape_conv_buf_add_event E T C2 buf first au =
        aushape_conv_buf_add_event E T C buf first au) ∧
    (aushape_conv_buf_add_event E T C buf first au).2.coll = buf.coll ∧
    ((aushape_conv_buf_add_event E T C buf first au).1 = aushape_rc.CONV_AUPARSE_FAILED ∨
      (aushape_conv_buf_add_event E T C buf first au).1 = aushape_rc.NOMEM ∨
      (comma_fails buf first ∧
        aushape_conv_buf_add_event E T C buf first au = (aushape_rc.OK, buf))) ∧
    (au.timestamp = none →
      aushape_conv_buf_add_event E T C buf first au =
        (aushape_rc.CONV_AUPARSE_FAILED, buf)) ∧
    (∀ e, au.timestamp = some e → buf.gbuf.room = none →
      aushape_conv_buf_add_event E T C buf first au =
        (aushape_rc.CONV_AUPARSE_FAILED,
          { buf with
            gbuf := { ptr := buf.gbuf.ptr ++ event_header E buf.format first
                        (event_level buf.format) e (timestamp_buf T e),
                      room := none } })) := by
  have hnone : au.timestamp = none →
      aushape_conv_buf_add_event E T C buf first au =
        (aushape_rc.CONV_AUPARSE_FAILED, buf) := by
    intro h
    unfold aushape_conv_buf_add_event
    simp only [h]
  have hsome : ∀ (C2 : aushape_conv_coll σ ρ) e, au.timestamp = some e →
      aushape_conv_buf_add_event E T C2 buf first au =
        add_event_header E buf first (event_level buf.format) e (timestamp_buf T e)
          fun _ b => (aushape_rc.CONV_AUPARSE_FAILED, b) := by
    intro C2 e h
    unfold aushape_conv_buf_add_event
    simp only [h, hrec, event_level_eq]
  refine ⟨?_, ?_, ?_, hnone, ?_⟩
  · intro C2
    cases hts : au.timestamp with
    | none =>
      unfold aushape_conv_buf_add_event
      simp only [hts]
    | some e => rw [hsome C2 e hts, hsome C e hts]
  · cases hts : au.timestamp with
    | none => rw [hnone hts]
    | some e =>
      rw [hsome C e hts]
      exact add_event_header_cases E buf first _ e _ _ (fun r => r.2.coll = buf.coll)
        (fun _ => rfl) (fun _ => rfl) (fun _ => rfl)
  · cases hts : au.timestamp with
    | none => rw [hnone hts]; exact Or.inl rfl
    | some e =>
      rw [hsome C e hts]
      exact add_event_header_cases E buf first _ e _ _
        (fun r => r.1 = aushape_rc.CONV_AUPARSE_FAILED ∨ r.1 = aushape_rc.NOMEM ∨
          (comma_fails buf first ∧ r = (aushape_rc.OK, buf)))
        (fun _ => Or.inr (Or.inl rfl)) (fun hc => Or.inr (Or.inr ⟨hc, rfl⟩))
        (fun _ => Or.inl rfl)
  · intro e hts hroom
    rw [hsome C e hts]
    obtain ⟨format, g, s⟩ := buf
    obtain ⟨p, room⟩ := g
    simp only at hroom
    subst hroom
    rw [add_event_header_unbounded]

/-- C23, witness: the event of the specification without its record, first of a JSON
document. -/
theorem add_event_no_records_witness :
    aushape_conv_buf_add_event escaping_id libc_utc0 (execve_only escaping_id)
        { format := format_json0, gbuf := { ptr := ['['], room := none },
          coll := coll_zero format_json0 } true event_bare =
      (aushape_rc.CONV_AUPARSE_FAILED,
        { format := format_json0
          gbuf :=
            { ptr := ("[\x7b\"serial\":100,\"time\":\"1970-01-01T00:00:00.000+00:00\"," ++
                "\"records\":\x7b").toList,
              room := none }
          coll := coll_zero format_json0 }) :=
  ((add_event_no_records escaping_id libc_utc0 (execve_only escaping_id)
    { format := format_json0, gbuf := { ptr := ['['], room := none },
      coll := coll_zero format_json0 } true event_bare rfl).2.2.2.2
    { sec := 0, milli := 0, serial := 100, host := none } rfl rfl).trans (by rfl)

/-- C25: `add_event` returns the return code of the collector whenever the collector
fails on a record or at the end (shown for an output buffer that can always grow), and
in general its return code is `NOMEM` for a failed append, `CONV_AUPARSE_FAILED`, or
the return code of the collector run, with one exception: when the append of the `,`
that separates a non-first JSON event fails, the function returns `false`, that is 0
(`OK`), with the buffer as it was, the event being dropped. With the output buffer
`[` that cannot grow, the event of the specification added as a non-first JSON event
gives `OK` and the buffer unchanged, where as a first JSON event or in XML it gives
`NOMEM`. -/
theorem add_event_comma_failure :
    (∀ (σ ρ : Type) (E : aushape_escaping) (T : libc_time) (C : aushape_conv_coll σ ρ)
        (buf : aushape_conv_buf σ) (au : auparse_state ρ) (e : au_event),
      au.timestamp = some e → comma_fails buf false →
      aushape_conv_buf_add_event E T C buf false au = (aushape_rc.OK, buf)) ∧
    (comma_fails
        ({ format := format_json0, gbuf := { ptr := ['['], room := some 1 },
           coll := coll_zero format_json0 } : aushape_conv_buf aushape_conv_execve_coll)
        false ∧
      aushape_conv_buf_add_event escaping_id libc_utc0 (execve_only escaping_id)
          { format := format_json0, gbuf := { ptr := ['['], room := some 1 },
            coll := coll_zero format_json0 } false event_ls =
        (aushape_rc.OK,
          { format := format_json0, gbuf := { ptr := ['['], room := some 1 },
            coll := coll_zero format_json0 }) ∧
      (aushape_conv_buf_add_event escaping_id libc_utc0 (execve_only escaping_id)
          { format := format_json0, gbuf := { ptr := ['['], room := some 1 },
            coll := coll_zero format_json0 } true event_ls).1 = aushape_rc.NOMEM ∧
      (aushape_conv_buf_add_event escaping_id libc_utc0 (execve_only escaping_id)
          { format := format_xml0, gbuf := { ptr := ['['], room := some 1 },
            coll := coll_zero format_xml0 } false event_ls).1 = aushape_rc.NOMEM) ∧
    (∀ (σ ρ : Type) (E : aushape_escaping) (T : libc_time) (C : aushape_conv_coll σ ρ)
        (buf : aushape_conv_buf σ) (first : Bool) (au : auparse_state ρ),
      add_event_outcome C buf first au (aushape_conv_buf_add_event E T C buf first au) ∧
      ((aushape_conv_buf_add_event E T C buf first au).1 = aushape_rc.OK →
        comma_fails buf first ∨
        ∃ g, au.records ≠ [] ∧
          (coll_run C (records_level buf.format (event_level buf.format)) au.records
            buf.coll g).1 = aushape_rc.OK)) ∧
    (∀ (σ ρ : Type) (E : aushape_escaping) (T : libc_time) (C : aushape_conv_coll σ ρ)
        (format : aushape_format) (p : List Char) (s : σ) (first : Bool)
        (au : auparse_state ρ) (e : au_event),
      au.timestamp = some e → au.records ≠ [] →
      (coll_run C (records_level format (event_level format)) au.records s
        { ptr := p ++ event_header E format first (event_level format) e
            (timestamp_buf T e), room := none }).1 ≠ aushape_rc.OK →
      (aushape_conv_buf_add_event E T C
          { format := format, gbuf := { ptr := p, room := none }, coll := s } first au).1 =
        (coll_run C (records_level format (event_level format)) au.records s
          { ptr := p ++ event_header E format first (event_level format) e
              (timestamp_buf T e), room := none }).1) := by
  refine ⟨?_, ⟨⟨rfl, rfl, by decide⟩, by rfl, by decide, by decide⟩, ?_, ?_⟩
  · intro σ ρ E T C buf au e hts hc
    unfold aushape_conv_buf_add_event
    simp only [hts]
    unfold add_event_header buf_guard_bool
    obtain ⟨hl, _, hadd⟩ := hc
    simp only [hl, Bool.false_eq_true, not_false_eq_true, if_true, hadd]
  · intro σ ρ E T C buf first au
    have h := add_event_cases E T C buf first au
    refine ⟨h, fun hok => ?_⟩
    rcases h with h | h | h | ⟨g, hne, hg⟩
    · rw [hok] at h; exact absurd h (by decide)
    · rw [hok] at h; exact absurd h (by decide)
    · exact Or.inl h.1
    · exact Or.inr ⟨g, hne, hg.trans hok⟩
  · intro σ ρ E T C format p s first au e hts hrec hrun
    exact add_event_error_unbounded E T C format p s first au e hts hrec hrun

/-! ### Values that the source does not supply -/

theorem add_field_unreadable (E : aushape_escaping) (l : Nat) (au : au_field)
    (coll : aushape_conv_execve_coll) (h : au.name = none) :
    add_field E l au coll = (aushape_rc.CONV_AUPARSE_FAILED, coll) := by
  unfold add_field
  rw [h]

theorem add_no_text (E : aushape_escaping) (coll : aushape_conv_execve_coll)
    (level : Nat) (au : au_record) (h : au.text = none) :
    ((aushape_conv_execve_coll_add E coll level au).1 = aushape_rc.CONV_AUPARSE_FAILED ∨
      (aushape_conv_execve_coll_add E coll level au).1 = aushape_rc.NOMEM) ∧
    (coll.arg_idx = 0 ∨ coll.raw.room = none →
      (aushape_conv_execve_coll_add E coll level au).1 =
        aushape_rc.CONV_AUPARSE_FAILED) := by
  unfold aushape_conv_execve_coll_add guard_raw
  simp only [h]
  constructor
  · split
    · exact Or.inr rfl
    · exact Or.inl rfl
  · intro hc
    by_cases hidx : coll.arg_idx > 0
    · have hroom : coll.raw.room = none := by
        rcases hc with hc | hc
        · omega
        · exact hc
      simp only [if_pos hidx, aushape_gbuf_add_char, add_buf_unbounded _ hroom]
    · simp only [if_neg hidx]

theorem add_argc_no_value (coll : aushape_conv_execve_coll) (level : Nat) (au : au_field)
    (h : au.str = none) (h0 : coll.arg_num = 0) :
    aushape_conv_execve_coll_add_argc coll level au =
      (aushape_rc.CONV_AUPARSE_FAILED, coll) := by
  unfold aushape_conv_execve_coll_add_argc
  simp [h, h0]

theorem add_arg_len_no_value (E : aushape_escaping) (coll : aushape_conv_execve_coll)
    (level N : Nat) (au : au_field) (h : au.str = none)
    (hg : coll.arg_idx ≤ N ∧ N < coll.arg_num ∧ coll.got_len = false) :
    ((aushape_conv_execve_coll_add_arg_len E coll level N au).1 =
        aushape_rc.CONV_AUPARSE_FAILED ∨
      (aushape_conv_execve_coll_add_arg_len E coll level N au).1 = aushape_rc.NOMEM) ∧
    (coll.args.room = none →
      (aushape_conv_execve_coll_add_arg_len E coll level N au).1 =
        aushape_rc.CONV_AUPARSE_FAILED) := by
  unfold aushape_conv_execve_coll_add_arg_len
  rw [if_neg (not_not.mpr hg)]
  constructor
  · rcases guard_rc_cases (add_skipped E level N (N - coll.arg_idx) coll) _ with
      ⟨hne, heq⟩ | ⟨c, hc, heq⟩
    · rw [heq]
      exact Or.inr ((add_skipped_rc E level N (N - coll.arg_idx) coll).resolve_left hne)
    · rw [heq]
      simp [h]
  · intro hroom
    rw [add_skipped_unbounded E level N (N - coll.arg_idx) coll (by omega) hroom,
      guard_rc_of_ok]
    simp only [h]

theorem add_arg_no_value (E : aushape_escaping) (coll : aushape_conv_execve_coll)
    (level N : Nat) (au : au_field) (h : au.interp = none)
    (hg : coll.arg_idx ≤ N ∧ N < coll.arg_num) :
    ((aushape_conv_execve_coll_add_arg E coll level N au).1 =
        aushape_rc.CONV_AUPARSE_FAILED ∨
      (aushape_conv_execve_coll_add_arg E coll level N au).1 = aushape_rc.NOMEM) ∧
    (coll.args.room = none →
      (aushape_conv_execve_coll_add_arg E coll level N au).1 =
        aushape_rc.CONV_AUPARSE_FAILED) := by
  unfold aushape_conv_execve_coll_add_arg
  have hg2 : ¬ ¬ (N ≥ coll.arg_idx ∧ N < coll.arg_num) := not_not.mpr hg
  rw [if_neg hg2]
  constructor
  · rcases guard_rc_cases (add_skipped E level N (N - coll.arg_idx) coll) _ with
      ⟨hne, heq⟩ | ⟨c, hc, heq⟩
    · rw [heq]
      exact Or.inr ((add_skipped_rc E level N (N - coll.arg_idx) coll).resolve_left hne)
    · rw [heq]
      simp [h]
  · intro hroom
    rw [add_skipped_unbounded E level N (N - coll.arg_idx) coll (by omega) hroom,
      guard_rc_of_ok]
    simp only [h]

theorem add_arg_slice_no_value (E : aushape_escaping) (coll : aushape_conv_execve_coll)
    (level N K : Nat) (au : au_field) (h : au.str = none ∨ au.interp = none)
    (hg : N = coll.arg_idx ∧ N < coll.arg_num ∧ coll.got_len = true ∧
      K = coll.slice_idx) :
    aushape_conv_execve_coll_add_arg_slice E coll level N K au =
      (aushape_rc.CONV_AUPARSE_FAILED, coll) := by
  unfold aushape_conv_execve_coll_add_arg_slice
  rw [if_neg (not_not.mpr hg)]
  cases hs : au.str with
  | none => rfl
  | some raw_str =>
    cases hi : au.interp with
    | none => rfl
    | some int_str =>
      rcases h with h | h
      · rw [hs] at h; cases h
      · rw [hi] at h; cases h

theorem add_argc_invalid_cause {coll : aushape_conv_execve_coll} {level : Nat}
    {au : au_field}
    (h : (aushape_conv_execve_coll_add_argc coll level au).1 =
      aushape_rc.CONV_INVALID_EXECVE) :
    coll.arg_num ≠ 0 ∨ ∃ v, au.str = some v ∧ sscanf_zu v = none := by
  by_cases h0 : coll.arg_num ≠ 0
  · exact Or.inl h0
  · right
    unfold aushape_conv_execve_coll_add_argc at h
    rw [if_neg h0] at h
    cases hs : au.str with
    | none => simp [hs] at h
    | some v =>
      cases hn : sscanf_zu v with
      | none => exact ⟨v, rfl, hn⟩
      | some num => simp [hs, hn] at h

theorem add_arg_len_invalid_cause {E : aushape_escaping}
    {coll : aushape_conv_execve_coll} {level N : Nat} {au : au_field}
    (h : (aushape_conv_execve_coll_add_arg_len E coll level N au).1 =
      aushape_rc.CONV_INVALID_EXECVE) :
    ¬ (coll.arg_idx ≤ N ∧ N < coll.arg_num ∧ coll.got_len = false) ∨
    ∃ v, au.str = some v ∧ sscanf_zu v = none := by
  by_cases hg : coll.arg_idx ≤ N ∧ N < coll.arg_num ∧ coll.got_len = false
  · right
    unfold aushape_conv_execve_coll_add_arg_len at h
    rw [if_neg (not_not.mpr hg)] at h
    rcases guard_rc_cases (add_skipped E level N (N - coll.arg_idx) coll) _ with
      ⟨hne, heq⟩ | ⟨c, hc, heq⟩
    · rw [heq] at h
      have hrc := (add_skipped_rc E level N (N - coll.arg_idx) coll).resolve_left hne
      rw [h] at hrc
      exact absurd hrc (by decide)
    · rw [heq] at h
      cases hs : au.str with
      | none => simp [hs] at h
      | some v =>
        cases hn : sscanf_zu v with
        | none => exact ⟨v, rfl, hn⟩
        | some num => simp [hs, hn] at h
  · exact Or.inl hg

theorem add_arg_slice_invalid_cause {E : aushape_escaping}
    {coll : aushape_conv_execve_coll} {level N K : Nat} {au : au_field}
    (h : (aushape_conv_execve_coll_add_arg_slice E coll level N K au).1 =
      aushape_rc.CONV_INVALID_EXECVE) :
    ¬ (N = coll.arg_idx ∧ N < coll.arg_num ∧ coll.got_len = true ∧ K = coll.slice_idx) ∨
    ∃ raw_str int_str, au.str = some raw_str ∧ au.interp = some int_str ∧
      ¬ (coll.len_read + slice_len raw_str.length int_str.length ≤ coll.len_total) := by
  by_cases hg : N = coll.arg_idx ∧ N < coll.arg_num ∧ coll.got_len = true ∧
      K = coll.slice_idx
  · right
    cases hs : au.str with
    | none =>
      rw [add_arg_slice_no_value E coll level N K au (Or.inl hs) hg] at h
      simp at h
    | some raw_str =>
      cases hi : au.interp with
      | none =>
        rw [add_arg_slice_no_value E coll level N K au (Or.inr hi) hg] at h
        simp at h
      | some int_str =>
        refine ⟨raw_str, int_str, rfl, rfl, ?_⟩
        intro hlen
        revert h
        unfold aushape_conv_execve_coll_add_arg_slice
        rw [if_neg (not_not.mpr hg)]
        simp only [hs, hi]
        rw [if_neg (not_not.mpr hlen)]
        refine add_arg_slice_begin_rc (P := fun rc => rc = aushape_rc.CONV_INVALID_EXECVE → False)
          (by decide) fun c1 => ?_
        refine guard_args_rc (P := fun rc => rc = aushape_rc.CONV_INVALID_EXECVE → False)
          (by decide) fun c2 => ?_
        simp only
        split
        · refine guard_args_rc
            (P := fun rc => rc = aushape_rc.CONV_INVALID_EXECVE → False)
            (by decide) fun c3 => ?_
          simp
        · simp
  · exact Or.inl hg

theorem add_field_invalid_cause {E : aushape_escaping} {l : Nat} {au : au_field}
    {coll : aushape_conv_execve_coll}
    (h : (add_field E l au coll).1 = aushape_rc.CONV_INVALID_EXECVE) :
    (∃ nm, au.name = some nm) ∧ invalid_cause coll au := by
  constructor
  · cases hn : au.name with
    | none =>
      rw [add_field_unreadable E l au coll hn] at h
      simp at h
    | some nm => exact ⟨nm, rfl⟩
  · rw [add_field_eq] at h
    unfold invalid_cause
    cases hk : au.kind with
    | unreadable => simp [hk] at h
    | skipped => simp [hk] at h
    | argc => rw [hk] at h; exact add_argc_invalid_cause h
    | arg N => rw [hk] at h; exact (add_arg_rc E coll l N au).mp h
    | arg_len N => rw [hk] at h; exact add_arg_len_invalid_cause h
    | arg_slice N K => rw [hk] at h; exact add_arg_slice_invalid_cause h
    | unknown => trivial

theorem add_fields_invalid_cause (E : aushape_escaping) (l : Nat) :
    ∀ (fs : List au_field) (coll : aushape_conv_execve_coll),
      (add_fields E l fs coll).1 = aushape_rc.CONV_INVALID_EXECVE →
      ∃ pre f post c, fs = pre ++ f :: post ∧
        add_fields E l pre coll = (aushape_rc.OK, c) ∧
        (∃ nm, f.name = some nm) ∧ invalid_cause c f := by
  intro fs
  induction fs with
  | nil => intro coll h; simp [add_fields] at h
  | cons f rest ih =>
    intro coll h
    rw [add_fields_cons] at h
    rcases guard_rc_cases (add_field E l f coll) (fun c => add_fields E l rest c) with
      ⟨hne, heq⟩ | ⟨c, hc, heq⟩
    · rw [heq] at h
      exact ⟨[], f, rest, coll, rfl, rfl, add_field_invalid_cause h⟩
    · rw [heq] at h
      obtain ⟨pre, g, post, c2, hfs, hpre, hcause⟩ := ih c h
      refine ⟨f :: pre, g, post, c2, by rw [hfs]; rfl, ?_, hcause⟩
      rw [add_fields_cons, hc, guard_rc_of_ok]
      exact hpre

/-- C24: in the EXECVE collector every read that the source answers with no value
gives `CONV_AUPARSE_FAILED`: the text of the record, the name of a field, the raw value
of `argc` (read when `arg_num` is 0), the raw value of `a<N>_len` and the interpreted
value of `a<N>` (read once the tests on the state have passed and the skipped
arguments are added, which can only fail with `NOMEM`), the raw and the interpreted
value of a slice (read once the tests on the state have passed). Conversely
`CONV_INVALID_EXECVE` is returned for a field only if its name was readable and either
a test on the state failed before any value was read, or the value was read and is
malformed, or the name is none of the known ones; for a record only if its text was
readable and it has no field or one of its fields is refused in that way. -/
theorem source_read_failure (E : aushape_escaping) :
    (∀ coll level au, au.text = none →
      ((aushape_conv_execve_coll_add E coll level au).1 = aushape_rc.CONV_AUPARSE_FAILED ∨
        (aushape_conv_execve_coll_add E coll level au).1 = aushape_rc.NOMEM) ∧
      (coll.arg_idx = 0 ∨ coll.raw.room = none →
        (aushape_conv_execve_coll_add E coll level au).1 =
          aushape_rc.CONV_AUPARSE_FAILED)) ∧
    (∀ l au coll, au.name = none →
      add_field E l au coll = (aushape_rc.CONV_AUPARSE_FAILED, coll)) ∧
    (∀ coll level au, au.str = none → coll.arg_num = 0 →
      aushape_conv_execve_coll_add_argc coll level au =
        (aushape_rc.CONV_AUPARSE_FAILED, coll)) ∧
    (∀ coll level N au, au.str = none →
      coll.arg_idx ≤ N ∧ N < coll.arg_num ∧ coll.got_len = false →
      ((aushape_conv_execve_coll_add_arg_len E coll level N au).1 =
          aushape_rc.CONV_AUPARSE_FAILED ∨
        (aushape_conv_execve_coll_add_arg_len E coll level N au).1 = aushape_rc.NOMEM) ∧
      (coll.args.room = none →
        (aushape_conv_execve_coll_add_arg_len E coll level N au).1 =
          aushape_rc.CONV_AUPARSE_FAILED)) ∧
    (∀ coll level N au, au.interp = none → coll.arg_idx ≤ N ∧ N < coll.arg_num →
      ((aushape_conv_execve_coll_add_arg E coll level N au).1 =
          aushape_rc.CONV_AUPARSE_FAILED ∨
        (aushape_conv_execve_coll_add_arg E coll level N au).1 = aushape_rc.NOMEM) ∧
      (coll.args.room = none →
        (aushape_conv_execve_coll_add_arg E coll level N au).1 =
          aushape_rc.CONV_AUPARSE_FAILED)) ∧
    (∀ coll level N K au, au.str = none ∨ au.interp = none →
      N = coll.arg_idx ∧ N < coll.arg_num ∧ coll.got_len = true ∧ K = coll.slice_idx →
      aushape_conv_execve_coll_add_arg_slice E coll level N K au =
        (aushape_rc.CONV_AUPARSE_FAILED, coll)) ∧
    (∀ l au coll, (add_field E l au coll).1 = aushape_rc.CONV_INVALID_EXECVE →
      (∃ nm, au.name = some nm) ∧ invalid_cause coll au) ∧
    (∀ coll level au,
      (aushape_conv_execve_coll_add E coll level au).1 = aushape_rc.CONV_INVALID_EXECVE →
      (∃ text, au.text = some text) ∧
      (au.fields = [] ∨
        ∃ pre f post c0 c, au.fields = pre ++ f :: post ∧
          add_fields E (arg_level coll.format level) pre c0 = (aushape_rc.OK, c) ∧
          (∃ nm, f.name = some nm) ∧ invalid_cause c f)) := by
  refine ⟨add_no_text E, add_field_unreadable E, add_argc_no_value,
    add_arg_len_no_value E, add_arg_no_value E, add_arg_slice_no_value E,
    fun l au coll h => add_field_invalid_cause h, ?_⟩
  intro coll level au h
  cases ht : au.text with
  | none =>
    rcases (add_no_text E coll level au ht).1 with h1 | h1
    · rw [h1] at h; exact absurd h (by decide)
    · rw [h1] at h; exact absurd h (by decide)
  | some text =>
    refine ⟨⟨text, rfl⟩, ?_⟩
    by_cases hf : au.fields = []
    · exact Or.inl hf
    · right
      revert h
      unfold aushape_conv_execve_coll_add guard_raw
      split
      · intro h; simp at h
      · rename_i g1 hg1
        simp only [ht]
        split
        · intro h; simp at h
        · rename_i g2 hg2
          cases hfs : au.fields with
          | nil => exact absurd hfs hf
          | cons f rest =>
            simp only
            intro h
            obtain ⟨pre, f2, post, c, hsplit, hpre, hcause⟩ :=
              add_fields_invalid_cause E _ (f :: rest) _ h
            exact ⟨pre, f2, post, _, c, hsplit, hpre, hcause⟩

/-! ### Whole arguments while a sliced argument is in progress -/

/-- C26: the handler of a whole-argument field `a<N>` does not look at `got_len`: it
returns `CONV_INVALID_EXECVE` exactly when `N` is outside `[arg_idx, arg_num)`. With
`got_len` true, `arg_idx <= N < arg_num`, a readable value and an argument buffer that
can always grow, the field is accepted: the skipped arguments and the value are added
after the markup left open by the slices, `arg_idx` becomes `N + 1` and `got_len`,
`slice_idx`, `len_total` and `len_read` stay as they are. The record `argc=1
a0_len=4 a0[0]=ab a0=x` is consumed and finalized with `OK`, `arg_idx` having passed
the argument 0 whose slices are incomplete, and the argument list output in JSON is
`"ab"x"`. -/
theorem add_arg_while_sliced :
    (∀ (E : aushape_escaping) (coll : aushape_conv_execve_coll) (level N : Nat)
        (au : au_field),
      (aushape_conv_execve_coll_add_arg E coll level N au).1 =
        aushape_rc.CONV_INVALID_EXECVE ↔ ¬ (coll.arg_idx ≤ N ∧ N < coll.arg_num)) ∧
    (∀ (E : aushape_escaping) (coll : aushape_conv_execve_coll) (level N : Nat)
        (au : au_field) (v : List Char),
      coll.got_len = true → coll.arg_idx ≤ N → N < coll.arg_num → au.interp = some v →
      coll.args.room = none →
      (aushape_conv_execve_coll_add_arg E coll level N au).1 = aushape_rc.OK ∧
      (aushape_conv_execve_coll_add_arg E coll level N au).2.arg_idx = N + 1 ∧
      (aushape_conv_execve_coll_add_arg E coll level N au).2.got_len = true ∧
      (aushape_conv_execve_coll_add_arg E coll level N au).2.slice_idx = coll.slice_idx ∧
      (aushape_conv_execve_coll_add_arg E coll level N au).2.len_total = coll.len_total ∧
      (aushape_conv_execve_coll_add_arg E coll level N au).2.len_read = coll.len_read ∧
      (aushape_conv_execve_coll_add_arg E coll level N au).2.args.ptr =
        coll.args.ptr ++ args_markup E coll.format level coll.arg_idx
          (List.replicate (N - coll.arg_idx) [[]] ++ [[v]])) ∧
    ((aushape_conv_execve_coll_add escaping_id (coll_zero format_json0) 0 record_mixed).1 =
        aushape_rc.OK ∧
      (aushape_conv_execve_coll_add escaping_id (coll_zero format_json0) 0
        record_mixed).2.got_len = true ∧
      (aushape_conv_execve_coll_add escaping_id (coll_zero format_json0) 0
        record_mixed).2.arg_idx = 1 ∧
      (aushape_conv_execve_coll_add escaping_id (coll_zero format_json0) 0
        record_mixed).2.len_read = 2 ∧
      (aushape_conv_execve_coll_add escaping_id (coll_zero format_json0) 0
        record_mixed).2.len_total = 4 ∧
      (execve_event escaping_id (coll_zero format_json0) 0 true [record_mixed]).1 =
        aushape_rc.OK ∧
      (execve_event escaping_id (coll_zero format_json0) 0 true
        [record_mixed]).2.1.args.ptr = "\"ab\"x\"".toList) := by
  refine ⟨fun E coll level N au => add_arg_rc E coll level N au, ?_,
    ⟨by decide, by decide, by decide, by decide, by decide, by decide, by decide⟩⟩
  intro E coll level N au v hgl hlo hhi hv hroom
  rw [add_arg_unbounded E coll level N au v hlo hhi hv hroom]
  exact ⟨rfl, rfl, hgl, rfl, rfl, rfl, rfl⟩

/-! ### Emptiness of the collector -/

theorem add_field_idle {E : aushape_escaping} {l : Nat} {au : au_field}
    {coll s1 : aushape_conv_execve_coll}
    (h : add_field E l au coll = (aushape_rc.OK, s1)) (h0 : coll.arg_num = 0)
    (hargc : au.kind = field_kind.argc → au.str.bind sscanf_zu = some 0) :
    s1 = coll := by
  rw [add_field_eq] at h
  cases hk : au.kind with
  | unreadable => simp [hk] at h
  | skipped =>
    simp only [hk, Prod.mk.injEq, true_and] at h
    exact h.symm
  | argc =>
    rw [hk] at h
    obtain ⟨_, str, num, hs, hn, hs1⟩ := add_argc_ok h
    have := hargc hk
    rw [hs] at this
    simp only [Option.some_bind, hn, Option.some.injEq] at this
    rw [hs1, this, ← h0]
  | arg N =>
    rw [hk] at h
    have := (add_arg_ok h).2.1
    omega
  | arg_len N =>
    rw [hk] at h
    have := (add_arg_len_ok h).2.1
    omega
  | arg_slice N K =>
    rw [hk] at h
    have := (add_arg_slice_ok h).2.1
    omega
  | unknown => simp [hk] at h

theorem add_fields_idle {E : aushape_escaping} {l : Nat} :
    ∀ {fs : List au_field} {coll s1 : aushape_conv_execve_coll},
      add_fields E l fs coll = (aushape_rc.OK, s1) → coll.arg_num = 0 →
      (∀ f ∈ fs, f.kind = field_kind.argc → f.str.bind sscanf_zu = some 0) →
      s1 = coll := by
  intro fs
  induction fs with
  | nil =>
    intro coll s1 h _ _
    simp only [add_fields, Prod.mk.injEq, true_and] at h
    exact h.symm
  | cons f rest ih =>
    intro coll s1 h h0 hargc
    obtain ⟨c, hc, hrest⟩ := add_fields_cons_ok h
    have hcc := add_field_idle hc h0 (hargc f (List.mem_cons_self _ _))
    subst hcc
    exact ih hrest h0 fun g hg => hargc g (List.mem_cons_of_mem _ hg)

theorem add_records_idle {E : aushape_escaping} {level : Nat} :
    ∀ {recs : List au_record} {coll s1 : aushape_conv_execve_coll},
      add_records E level recs coll = (aushape_rc.OK, s1) → coll.arg_num = 0 →
      coll.arg_idx = 0 →
      (∀ r ∈ recs, ∀ f ∈ r.fields, f.kind = field_kind.argc →
        f.str.bind sscanf_zu = some 0) →
      s1 = set_raw { coll.raw with
        ptr := coll.raw.ptr ++ recs.flatMap fun r => r.text.getD [] } coll := by
  intro recs
  induction recs with
  | nil =>
    intro coll s1 h _ _ _
    simp only [add_records, Prod.mk.injEq, true_and] at h
    rw [← h]
    simp [set_raw]
  | cons au rest ih =>
    intro coll s1 h h0 hi hargc
    unfold add_records at h
    obtain ⟨c, hc, hrest⟩ := guard_rc_ok_iff.mp h
    obtain ⟨text, ht, _, hfs⟩ := add_ok hc
    have hidle := add_fields_idle hfs h0 (hargc au (List.mem_cons_self _ _))
    have hni : ¬ coll.arg_idx > 0 := by omega
    simp only [if_neg hni, List.nil_append] at hidle
    rw [ih hrest (by rw [hidle]; exact h0) (by rw [hidle]; exact hi)
      fun r hr => hargc r (List.mem_cons_of_mem _ hr)]
    rw [hidle]
    simp [set_raw, ht]

/-- C28: the EXECVE collector reports itself empty if and only if `arg_num` is 0.
After records that carry no `argc` field, or only `argc` fields of value 0, are
consumed without error from a collector with `arg_num = 0` and `arg_idx = 0`, the
collector still reports itself empty, its counters are as before and its raw log holds
the texts of the records (here without a newline between them); after a record with a
field `argc` whose value reads `K > 0` is consumed without error, the collector
reports itself not empty. -/
theorem is_empty_spec :
    (∀ coll : aushape_conv_execve_coll,
      aushape_conv_execve_coll_is_empty coll = true ↔ coll.arg_num = 0) ∧
    (∀ (E : aushape_escaping) (level : Nat) (recs : List au_record)
        (coll s1 : aushape_conv_execve_coll),
      coll.arg_num = 0 → coll.arg_idx = 0 →
      add_records E level recs coll = (aushape_rc.OK, s1) →
      (∀ r ∈ recs, ∀ f ∈ r.fields, f.kind = field_kind.argc →
        f.str.bind sscanf_zu = some 0) →
      aushape_conv_execve_coll_is_empty s1 = true ∧
      s1.raw.ptr = coll.raw.ptr ++ recs.flatMap fun r => r.text.getD []) ∧
    (∀ (E : aushape_escaping) (level : Nat) (au : au_record)
        (coll s1 : aushape_conv_execve_coll),
      aushape_conv_execve_coll_add E coll level au = (aushape_rc.OK, s1) →
      (∃ f ∈ au.fields, f.kind = field_kind.argc ∧
        ∃ v K, f.str = some v ∧ sscanf_zu v = some K ∧ K > 0) →
      aushape_conv_execve_coll_is_empty s1 = false) ∧
    (add_records escaping_id 0 [record_plain, record_argc0] (coll_zero format_json0)).1 =
      aushape_rc.OK ∧
    aushape_conv_execve_coll_is_empty
      (add_records escaping_id 0 [record_plain, record_argc0]
        (coll_zero format_json0)).2 = true ∧
    (add_records escaping_id 0 [record_plain, record_argc0]
      (coll_zero format_json0)).2.raw.ptr = "type=EXECVEtype=EXECVE argc=0".toList ∧
    aushape_conv_execve_coll_is_empty
      (aushape_conv_execve_coll_add escaping_id (coll_zero format_json0) 0 record_ls).2 =
      false := by
  refine ⟨?_, ?_, ?_, by decide, by decide, by decide, by decide⟩
  · intro coll
    simp [aushape_conv_execve_coll_is_empty]
  · intro E level recs coll s1 h0 hi h hargc
    rw [add_records_idle h h0 hi hargc]
    exact ⟨by simp [aushape_conv_execve_coll_is_empty, set_raw, h0], rfl⟩
  · intro E level au coll s1 h hex
    obtain ⟨text, _, _, hfs⟩ := add_ok h
    obtain ⟨f, hf, hk, v, K, hv, hK, hpos⟩ := hex
    obtain ⟨pre, post, hsplit⟩ := List.append_of_mem hf
    rw [hsplit] at hfs
    have hval : f.str.bind sscanf_zu ≠ some 0 := by
      rw [hv]
      simp only [Option.some_bind, hK, ne_eq, Option.some.injEq]
      omega
    have := arg_num_after_argc hk hval hfs
    simp [aushape_conv_execve_coll_is_empty, this]

/-! ### Omitted and empty arguments -/

theorem markup_skip (E : aushape_escaping) (format : aushape_format) (l i n M : Nat)
    (tail : List (List (List Char))) (h1 : i ≤ n) (h2 : n ≤ M) :
    args_markup E format l i (List.replicate (n - i) [[]]) ++
      args_markup E format l n (List.replicate (M - n) [[]] ++ tail) =
    args_markup E format l i (List.replicate (M - i) [[]] ++ tail) := by
  have hsplit : M - i = (n - i) + (M - n) := by omega
  have hn : i + (n - i) = n := by omega
  rw [hsplit, List.replicate_add, List.append_assoc,
    args_markup_append E format l (List.replicate (n - i) [[]]) _ i,
    List.length_replicate, hn]

theorem skip_to_push (E : aushape_escaping) (l : Nat) (c : aushape_conv_execve_coll)
    (n M : Nat) (tail : List (List (List Char))) (h1 : c.arg_idx ≤ n) (h2 : n ≤ M) :
    push_args (skip_to E l c n)
        (args_markup E (skip_to E l c n).format l (skip_to E l c n).arg_idx
          (List.replicate (M - (skip_to E l c n).arg_idx) [[]] ++ tail)) =
      { push_args c (args_markup E c.format l c.arg_idx
          (List.replicate (M - c.arg_idx) [[]] ++ tail)) with arg_idx := n } := by
  have := markup_skip E c.format l c.arg_idx n M tail h1 h2
  simp only [skip_to, push_args, List.append_assoc, this]

theorem skip_to_self (E : aushape_escaping) (l : Nat) (c : aushape_conv_execve_coll) :
    skip_to E l c c.arg_idx = c := by
  simp [skip_to, push_args, args_markup]

theorem lags_step {E : aushape_escaping} {l : Nat} {f : au_field}
    {c1 c2 d2 : aushape_conv_execve_coll} (hl : lags E l c1 c2)
    (h : add_field E l f c2 = (aushape_rc.OK, d2)) :
    ∃ d1, add_field E l f c1 = (aushape_rc.OK, d1) ∧ lags E l d1 d2 := by
  rcases hl with heq | ⟨hgl, hroom, hlt, hle, hskip⟩
  · subst heq
    exact ⟨d2, h, Or.inl rfl⟩
  · have hfmt : c2.format = c1.format := by rw [hskip]; rfl
    have hnum : c2.arg_num = c1.arg_num := by rw [hskip]; rfl
    have hgl2 : c2.got_len = false := by rw [hskip]; exact hgl
    rw [add_field_eq] at h
    cases hk : f.kind with
    | unreadable => simp [hk] at h
    | skipped =>
      simp only [hk, Prod.mk.injEq, true_and] at h
      subst h
      refine ⟨c1, ?_, Or.inr ⟨hgl, hroom, hlt, hle, hskip⟩⟩
      rw [add_field_eq, hk]
    | argc =>
      rw [hk] at h
      have := (add_argc_ok h).1
      omega
    | arg M =>
      rw [hk] at h
      obtain ⟨hlo, hhi, v, hv, hd⟩ := add_arg_ok h
      refine ⟨d2, ?_, Or.inl rfl⟩
      rw [add_field_arg E l M f c1 v hk (by omega) (by omega) hv hroom, hd]
      congr 1
      have hp := skip_to_push E l c1 c2.arg_idx M [[v]] (by omega) hlo
      rw [← hskip] at hp
      rw [hp]
    | arg_len M =>
      rw [hk] at h
      obtain ⟨hlo, hhi, _, str, num, hs, hn, hd⟩ := add_arg_len_ok h
      refine ⟨d2, ?_, Or.inl rfl⟩
      rw [add_field_arg_len E l M f c1 str num hk (by omega) (by omega) hgl hs hn hroom,
        hd]
      congr 1
      have hp := skip_to_push E l c1 c2.arg_idx M [] (by omega) hlo
      rw [← hskip] at hp
      simp only [List.append_nil] at hp
      rw [hp]
    | arg_slice M K =>
      rw [hk] at h
      have := (add_arg_slice_ok h).2.2.1
      rw [hgl2] at this
      cases this
    | unknown => simp [hk] at h

theorem lags_fields {E : aushape_escaping} {l : Nat} :
    ∀ {fs : List au_field} {c1 c2 d2 : aushape_conv_execve_coll},
      lags E l c1 c2 → add_fields E l fs c2 = (aushape_rc.OK, d2) →
      ∃ d1, add_fields E l fs c1 = (aushape_rc.OK, d1) ∧ lags E l d1 d2 := by
  intro fs
  induction fs with
  | nil =>
    intro c1 c2 d2 hl h
    simp only [add_fields, Prod.mk.injEq, true_and] at h
    subst h
    exact ⟨c1, rfl, hl⟩
  | cons f rest ih =>
    intro c1 c2 d2 hl h
    obtain ⟨e2, he2, hrest⟩ := add_fields_cons_ok h
    obtain ⟨e1, he1, hl1⟩ := lags_step hl he2
    obtain ⟨d1, hd1, hld⟩ := ih hl1 hrest
    refine ⟨d1, ?_, hld⟩
    rw [add_fields_cons, he1, guard_rc_of_ok]
    exact hd1

theorem lags_end {E : aushape_escaping} {level : Nat} {pfirst : Bool}
    {c1 c2 s2 : aushape_conv_execve_coll}
    (hl : lags E (arg_level c1.format level) c1 c2) (hg : c1.gbuf.room = none)
    (hle : c2.arg_idx ≤ c2.arg_num)
    (h : end_run E c2 level pfirst = (aushape_rc.OK, s2)) :
    end_run E c1 level pfirst = (aushape_rc.OK, s2) := by
  rcases hl with heq | ⟨hgl, hroom, hlt, hle1, hskip⟩
  · subst heq
    exact h
  · rw [end_run_unbounded E level pfirst c1 (by omega) hg hroom, end_run_ok hle h]
    congr 1
    have hm := markup_skip E c1.format (arg_level c1.format level) c1.arg_idx c2.arg_idx
      c1.arg_num [] (by omega) hle1
    simp only [List.append_nil] at hm
    rw [hskip]
    simp only [end_result, skip_to, push_args, List.append_assoc, hm]

/-! ### Lengths above the range of `size_t` -/

theorem sscanf_zu_saturates {v : List Char} {n : Nat} (hv : bare_decimal v n)
    (hn : SIZE_MAX < n) : sscanf_zu v = some SIZE_MAX := by
  obtain ⟨hne, hd, hval⟩ := hv
  cases v with
  | nil => exact absurd rfl hne
  | cons c t =>
    have hc : c.isDigit = true := hd c (by simp)
    have hsp := isspace_of_isDigit hc
    have hsg := not_sign_of_isDigit hc
    have htw : (c :: t).takeWhile Char.isDigit = c :: t :=
      List.takeWhile_eq_self_iff.mpr hd
    have hdw : (c :: t).dropWhile Char.isDigit = [] :=
      List.dropWhile_eq_nil_iff.mpr hd
    have hscan : scan_zu (c :: t) = some (SIZE_MAX, []) := by
      unfold scan_zu
      simp only [List.dropWhile_cons, hsp, Bool.false_eq_true, if_false, List.head?_cons,
        Option.some.injEq, hsg.1, hsg.2, or_self, htw, hdw, decide_False]
      simp [strtoul_val, hval, hn]
    simp [sscanf_zu, hscan]

/-- C10, counterexample: the value `18446744073709551616` (2^64) is a bare unsigned
decimal integer, and with `arg_idx = 0`, `arg_num = 1` and `got_len` false the field
`a0_len=18446744073709551616` is accepted, but `len_total` becomes
18446744073709551615 (`SIZE_MAX`) and not the value of the field; so it is for every
bare decimal value above `SIZE_MAX`. -/
theorem add_arg_len_saturates :
    bare_decimal "18446744073709551616".toList 18446744073709551616 ∧
    aushape_conv_execve_coll_add_arg_len escaping_id
        { coll_zero format_json0 with arg_num := 1 } 2 0
        (field_of "a0_len" "18446744073709551616" "18446744073709551616") =
      (aushape_rc.OK,
        { coll_zero format_json0 with
          arg_num := 1
          got_len := true
          len_total := 18446744073709551615 }) ∧
    (∀ (E : aushape_escaping) (coll s1 : aushape_conv_execve_coll) (level N : Nat)
        (au : au_field) (v : List Char) (L : Nat),
      au.str = some v → bare_decimal v L → SIZE_MAX < L →
      aushape_conv_execve_coll_add_arg_len E coll level N au = (aushape_rc.OK, s1) →
      s1.len_total = SIZE_MAX ∧ s1.len_total ≠ L) := by
  refine ⟨⟨by decide, by decide, by decide⟩, by decide, ?_⟩
  intro E coll s1 level N au v L hv hL hmax h
  obtain ⟨_, _, _, str, num, hs, hn, hs1⟩ := add_arg_len_ok h
  rw [hv] at hs
  cases hs
  rw [sscanf_zu_saturates hL hmax] at hn
  cases hn
  rw [hs1]
  exact ⟨rfl, by simp only; omega⟩

/-! ### A sliced argument closed by a slice of another index -/

/-- C6: the field sequence `argc=2 a0_len=4 a0[0]=ab a0= a1[1]=cd` is accepted from a
collector as created and the event is finalized with `OK`, the arguments being
`"ab""cd"`. After its first three fields the argument 0 is in progress with
`slice_idx = 1`, `len_total = 4` and `len_read = 2`; the whole-argument field `a0=` is
accepted, adds `""` and moves `arg_idx` to 1, leaving `got_len`, `slice_idx`, `len_total` and
`len_read` as they are; the last field, the slice `a1[1]`, is then accepted and closes
the argument 1. So the argument 1 is closed although its only slice has the slice
index 1 and not 0, its counted length is 2 and not the `len_total` of 4, and the
sequence holds no field `a1_len`, the `len_total` being the one of `a0_len`. A slice
that would make the running total exceed `len_total` is rejected with
`CONV_INVALID_EXECVE` (InvalidSequence), the collector unchanged. -/
theorem slice_closes_other_argument :
    ((add_fields escaping_id 2 fields_mixed_empty (coll_zero format_json0)).1 =
        aushape_rc.OK ∧
      (aushape_conv_execve_coll_end escaping_id
        (add_fields escaping_id 2 fields_mixed_empty (coll_zero format_json0)).2
        0 true).1 = aushape_rc.OK ∧
      (aushape_conv_execve_coll_end escaping_id
        (add_fields escaping_id 2 fields_mixed_empty (coll_zero format_json0)).2
        0 true).2.1.args.ptr = "\"ab\"\"cd\"".toList) ∧
    ((add_fields escaping_id 2 (fields_mixed_empty.take 3) (coll_zero format_json0)).1 =
        aushape_rc.OK ∧
      (add_fields escaping_id 2 (fields_mixed_empty.take 3) (coll_zero format_json0)).2 =
        { coll_zero format_json0 with
          arg_num := 2, arg_idx := 0, got_len := true, slice_idx := 1, len_total := 4,
          len_read := 2, args := { ptr := "\"ab".toList, room := none } }) ∧
    ((add_fields escaping_id 2 (fields_mixed_empty.take 4) (coll_zero format_json0)).1 =
        aushape_rc.OK ∧
      (add_fields escaping_id 2 (fields_mixed_empty.take 4) (coll_zero format_json0)).2 =
        { coll_zero format_json0 with
          arg_num := 2, arg_idx := 1, got_len := true, slice_idx := 1, len_total := 4,
          len_read := 2, args := { ptr := "\"ab\"\"".toList, room := none } }) ∧
    ((add_fields escaping_id 2 fields_mixed_empty (coll_zero format_json0)).2 =
        { coll_zero format_json0 with
          arg_num := 2, arg_idx := 2, got_len := false, slice_idx := 0, len_total := 0,
          len_read := 0, args := { ptr := "\"ab\"\"cd\"".toList, room := none } }) ∧
    (fields_mixed_empty.map (fun g => g.kind) =
        [field_kind.argc, field_kind.arg_len 0, field_kind.arg_slice 0 0,
          field_kind.arg 0, field_kind.arg_slice 1 1] ∧
      ((fields_mixed_empty.filter fun g => g.is_slice && g.arg_no == 1).map
        fun g => (g.slice_no, g.counted)) = [(1, 2)] ∧
      (fields_mixed_empty.filter fun g => g.is_len && g.arg_no == 1) = []) ∧
    (∀ (E : aushape_escaping) (c : aushape_conv_execve_coll) (l N K : Nat)
        (au : au_field) (raw_str int_str : List Char),
      au.str = some raw_str → au.interp = some int_str →
      c.len_read + slice_len raw_str.length int_str.length > c.len_total →
      aushape_conv_execve_coll_add_arg_slice E c l N K au =
        (aushape_rc.CONV_INVALID_EXECVE, c)) := by
  refine ⟨⟨by decide, by decide, by decide⟩, ⟨by decide, by decide⟩,
    ⟨by decide, by decide⟩, by decide, ⟨by decide, by decide, by decide⟩, ?_⟩
  intro E c l N K au raw_str int_str hr hi hgt
  exact add_arg_slice_invalid E c l N K au raw_str int_str hr hi
    (fun hg => absurd hg.2.2.2.2 (by omega))

/-! ### Field names and their handlers -/

theorem scan_zu_digits_rest {ds rest : List Char} {n : Nat} (hv : bare_decimal ds n)
    (hrest : ∀ c, rest.head? = some c → c.isDigit = false) :
    scan_zu (ds ++ rest) = some (strtoul_val false n, rest) := by
  obtain ⟨hne, hd, hval⟩ := hv
  cases ds with
  | nil => exact absurd rfl hne
  | cons c t =>
    have hc : c.isDigit = true := hd c (by simp)
    have hsp := isspace_of_isDigit hc
    have hsg := not_sign_of_isDigit hc
    have hrt : rest.takeWhile Char.isDigit = [] := by
      cases rest with
      | nil => rfl
      | cons r rs => simp [List.takeWhile_cons, hrest r rfl]
    have hrd : rest.dropWhile Char.isDigit = rest := by
      cases rest with
      | nil => rfl
      | cons r rs => simp [List.dropWhile_cons, hrest r rfl]
    have htw : (c :: (t ++ rest)).takeWhile Char.isDigit = c :: t := by
      rw [← List.cons_append, List.takeWhile_append_of_pos hd, hrt, List.append_nil]
    have hdw : (c :: (t ++ rest)).dropWhile Char.isDigit = rest := by
      rw [← List.cons_append, List.dropWhile_append_of_pos hd, hrd]
    have hsk : (c :: (t ++ rest)).dropWhile isspace = c :: (t ++ rest) := by
      simp [List.dropWhile_cons, hsp]
    unfold scan_zu
    simp only [List.cons_append, hsk, List.head?_cons, Option.some.injEq, hsg.1, hsg.2,
      or_self, if_false, htw, hdw, decide_False]
    simp [hval]

theorem scan_zu_none_of_head {t : List Char}
    (h : ∀ c, t.head? = some c →
      isspace c = false ∧ c ≠ '+' ∧ c ≠ '-' ∧ c.isDigit = false) :
    scan_zu t = none := by
  cases t with
  | nil => decide
  | cons c r =>
    obtain ⟨hsp, hp, hm, hd⟩ := h c rfl
    unfold scan_zu
    simp [List.dropWhile_cons, hsp, hp, hm, List.takeWhile_cons, hd]

theorem add_field_unmatched (E : aushape_escaping) (l : Nat) {au : au_field}
    {nm : List Char} (hname : au.name = some nm) (h1 : nm ≠ "type".toList)
    (h2 : nm ≠ "node".toList) (h3 : nm ≠ "argc".toList) (h4 : sscanf_a_zu nm = none)
    (h5 : sscanf_a_zu_len nm = none) (h6 : sscanf_a_zu_slice nm = none)
    (coll : aushape_conv_execve_coll) :
    add_field E l au coll = (aushape_rc.CONV_INVALID_EXECVE, coll) := by
  unfold add_field
  rw [hname]
  simp only
  rw [if_neg h1, if_neg h2, if_neg h3, h4, h5, h6]

theorem no_a_form_unmatched {nm : List Char} (h : no_a_form nm) :
    sscanf_a_zu nm = none ∧ sscanf_a_zu_len nm = none ∧ sscanf_a_zu_slice nm = none := by
  rcases h with h | ⟨t, rfl, h⟩ | ⟨ds, n, rest, rfl, hds, hne, hlen, hbr, hd⟩
  · cases nm with
    | nil => exact ⟨rfl, rfl, rfl⟩
    | cons c r =>
      have hc : c ≠ 'a' := by simpa using h
      refine ⟨?_, ?_, ?_⟩
      · unfold sscanf_a_zu
        split
        · rename_i heq; simp at heq; exact absurd heq.1 hc
        · rfl
      · unfold sscanf_a_zu_len
        split
        · rename_i heq; simp at heq; exact absurd heq.1 hc
        · rfl
      · unfold sscanf_a_zu_slice
        split
        · rename_i heq; simp at heq; exact absurd heq.1 hc
        · rfl
  · have hs := scan_zu_none_of_head h
    simp [sscanf_a_zu, sscanf_zu, sscanf_a_zu_len, sscanf_a_zu_slice, hs]
  · have hs := scan_zu_digits_rest hds hd
    refine ⟨?_, ?_, ?_⟩
    · simp only [sscanf_a_zu, sscanf_zu, hs]
      cases rest with
      | nil => exact absurd rfl hne
      | cons r rs => rfl
    · simp only [sscanf_a_zu_len, hs, if_neg hlen]
    · simp only [sscanf_a_zu_slice, hs]
      cases rest with
      | nil => rfl
      | cons r rs =>
        have hr : r ≠ '[' := by simpa using hbr
        split
        · rename_i heq; simp at heq; exact absurd heq.2.1 hr
        · rfl

/-- C12: in the loop over the fields of a record, a field named `type` or `node` is
skipped, the collector staying as it is, and a field named `argc` goes to the handler
of `argc`. A field whose name is none of `type`, `node`, `argc` and does not begin
with `a`, or has after the `a` nothing or a character that is neither white space, a
sign nor a digit, or has after the `a` decimal digits followed by something that is
neither the end of the name, `_len` nor text beginning with `[`, gets
`CONV_INVALID_EXECVE` (InvalidSequence) with the collector unchanged, and so does the
run of fields when the fields before it are accepted. A name matched in full by one of
the patterns `a%zu`, `a%zu_len`, `a%zu[%zu]` goes to the handler of that pattern and
to no other, and the names `a<N>`, `a<N>_len`, `a<N>[<K>]` with bare decimal numbers
within `size_t` reach the handlers with those numbers. But `%zu` takes white space and
a sign before the digits: the names `a+1`, `a 1` and `a-0` are handled as whole
arguments, `a+1_len` as a length and `a1[+0]`, `a 1[ 0]` as slices, where the handlers
are documented for `a[0-9]+` and `a[0-9]+_len`; after `argc=2` the field `a+1=x` is
accepted and gives the arguments `"","x"`. -/
theorem add_field_routing :
    (∀ (E : aushape_escaping) (l : Nat) (au : au_field) (coll : aushape_conv_execve_coll),
      (au.name = some "type".toList ∨ au.name = some "node".toList) →
      add_field E l au coll = (aushape_rc.OK, coll)) ∧
    (∀ (E : aushape_escaping) (l : Nat) (au : au_field) (coll : aushape_conv_execve_coll),
      au.name = some "argc".toList →
      add_field E l au coll = aushape_conv_execve_coll_add_argc coll l au) ∧
    (∀ (E : aushape_escaping) (l : Nat) (au : au_field) (coll : aushape_conv_execve_coll)
        (nm : List Char),
      au.name = some nm → nm ≠ "type".toList → nm ≠ "node".toList →
      nm ≠ "argc".toList → no_a_form nm →
      add_field E l au coll = (aushape_rc.CONV_INVALID_EXECVE, coll) ∧
      ∀ pre post c0, add_fields E l pre c0 = (aushape_rc.OK, coll) →
        add_fields E l (pre ++ au :: post) c0 =
          (aushape_rc.CONV_INVALID_EXECVE, coll)) ∧
    (∀ (E : aushape_escaping) (l : Nat) (au : au_field) (coll : aushape_conv_execve_coll)
        (nm : List Char),
      au.name = some nm →
      (∀ n, sscanf_a_zu nm = some n →
        add_field E l au coll = aushape_conv_execve_coll_add_arg E coll l n au) ∧
      (∀ n, sscanf_a_zu_len nm = some n →
        sscanf_a_zu nm = none ∧
        add_field E l au coll = aushape_conv_execve_coll_add_arg_len E coll l n au) ∧
      (∀ n k, sscanf_a_zu_slice nm = some (n, k) →
        sscanf_a_zu nm = none ∧ sscanf_a_zu_len nm = none ∧
        add_field E l au coll =
          aushape_conv_execve_coll_add_arg_slice E coll l n k au)) ∧
    (∀ (E : aushape_escaping) (l : Nat) (au : au_field) (coll : aushape_conv_execve_coll)
        (ds ks : List Char) (n k : Nat),
      bare_decimal ds n → n ≤ SIZE_MAX → bare_decimal ks k → k ≤ SIZE_MAX →
      (au.name = some ('a' :: ds) →
        add_field E l au coll = aushape_conv_execve_coll_add_arg E coll l n au) ∧
      (au.name = some ('a' :: (ds ++ "_len".toList)) →
        add_field E l au coll = aushape_conv_execve_coll_add_arg_len E coll l n au) ∧
      (au.name = some ('a' :: (ds ++ '[' :: (ks ++ [']']))) →
        add_field E l au coll =
          aushape_conv_execve_coll_add_arg_slice E coll l n k au)) ∧
    ((field_of "a+1" "x" "x").kind = field_kind.arg 1 ∧
      (field_of "a 1" "x" "x").kind = field_kind.arg 1 ∧
      (field_of "a-0" "x" "x").kind = field_kind.arg 0 ∧
      (field_of "a+1_len" "4" "4").kind = field_kind.arg_len 1 ∧
      (field_of "a1[+0]" "x" "x").kind = field_kind.arg_slice 1 0 ∧
      (field_of "a 1[ 0]" "x" "x").kind = field_kind.arg_slice 1 0) ∧
    (add_fields escaping_id 2 [field_of "argc" "2" "2", field_of "a+1" "x" "x"]
        (coll_zero format_json0) =
      (aushape_rc.OK,
        { coll_zero format_json0 with
          arg_num := 2, arg_idx := 2,
          args := { ptr := "\"\",\"x\"".toList, room := none } }) ∧
      add_field escaping_id 2 (field_of "a 1" "x" "x")
          { coll_zero format_json0 with arg_num := 2 } =
        aushape_conv_execve_coll_add_arg escaping_id
          { coll_zero format_json0 with arg_num := 2 } 2 1 (field_of "a 1" "x" "x") ∧
      (add_field escaping_id 2 (field_of "a 1" "x" "x")
          { coll_zero format_json0 with arg_num := 2 }).1 = aushape_rc.OK) := by
  have harg : ∀ (E : aushape_escaping) (l : Nat) (au : au_field)
      (coll : aushape_conv_execve_coll) (nm : List Char), au.name = some nm →
      ∀ n, sscanf_a_zu nm = some n →
      add_field E l au coll = aushape_conv_execve_coll_add_arg E coll l n au := by
    intro E l au coll nm hname n h
    rw [add_field_eq, kind_of_a_zu hname h]
  have hlen : ∀ (E : aushape_escaping) (l : Nat) (au : au_field)
      (coll : aushape_conv_execve_coll) (nm : List Char), au.name = some nm →
      ∀ n, sscanf_a_zu_len nm = some n →
      add_field E l au coll = aushape_conv_execve_coll_add_arg_len E coll l n au := by
    intro E l au coll nm hname n h
    rw [add_field_eq, kind_of_a_zu_len hname h]
  have hslice : ∀ (E : aushape_escaping) (l : Nat) (au : au_field)
      (coll : aushape_conv_execve_coll) (nm : List Char), au.name = some nm →
      ∀ n k, sscanf_a_zu_slice nm = some (n, k) →
      add_field E l au coll =
        aushape_conv_execve_coll_add_arg_slice E coll l n k au := by
    intro E l au coll nm hname n k h
    rw [add_field_eq, kind_of_a_zu_slice hname h]
  refine ⟨?_, ?_, ?_, ?_, ?_, ⟨by decide, by decide, by decide, by decide, by decide,
    by decide⟩, ⟨by decide, by decide, by decide⟩⟩
  · intro E l au coll h
    obtain ⟨nm, hname, hnm⟩ : ∃ nm, au.name = some nm ∧
        (nm = "type".toList ∨ nm = "node".toList) := by
      rcases h with h | h
      · exact ⟨_, h, Or.inl rfl⟩
      · exact ⟨_, h, Or.inr rfl⟩
    rcases hnm with h | h
    · unfold add_field
      rw [hname]
      simp only
      rw [if_pos h]
    · have h1 : nm ≠ "type".toList := by rw [h]; decide
      unfold add_field
      rw [hname]
      simp only
      rw [if_neg h1, if_pos h]
  · intro E l au coll h
    obtain ⟨nm, hname, h⟩ : ∃ nm, au.name = some nm ∧ nm = "argc".toList := ⟨_, h, rfl⟩
    have h1 : nm ≠ "type".toList := by rw [h]; decide
    have h2 : nm ≠ "node".toList := by rw [h]; decide
    unfold add_field
    rw [hname]
    simp only
    rw [if_neg h1, if_neg h2, if_pos h]
  · intro E l au coll nm hname h1 h2 h3 hno
    obtain ⟨h4, h5, h6⟩ := no_a_form_unmatched hno
    have hf := add_field_unmatched E l hname h1 h2 h3 h4 h5 h6 coll
    refine ⟨hf, ?_⟩
    intro pre post c0 hpre
    rw [add_fields_append, hpre, guard_rc_of_ok, add_fields_cons, hf]
    rfl
  · intro E l au coll nm hname
    exact ⟨harg E l au coll nm hname,
      fun n h => ⟨a_zu_none_of_len h, hlen E l au coll nm hname n h⟩,
      fun n k h => ⟨(a_zu_none_of_slice h).1, (a_zu_none_of_slice h).2,
        hslice E l au coll nm hname n k h⟩⟩
  · intro E l au coll ds ks n k hds hn hks hk
    refine ⟨?_, ?_, ?_⟩
    · intro h
      apply harg E l au coll _ h
      have := @scan_zu_bare_rest ds [] n hds hn (by simp)
      simp only [List.append_nil] at this
      simp [sscanf_a_zu, sscanf_zu, this]
    · intro h
      apply hlen E l au coll _ h
      have := @scan_zu_bare_rest ds "_len".toList n hds hn
        (by intro c hc; simp at hc; rw [← hc]; decide)
      unfold sscanf_a_zu_len
      simp only [this, if_true]
    · intro h
      apply hslice E l au coll _ h
      have h1 := @scan_zu_bare_rest ds ('[' :: (ks ++ [']'])) n hds hn
        (by intro c hc; simp at hc; rw [← hc]; decide)
      have h2 := @scan_zu_bare_rest ks [']'] k hks hk
        (by intro c hc; simp at hc; rw [← hc]; decide)
      simp [sscanf_a_zu_slice, h1, h2]

theorem skipped_ahead_step {E : aushape_escaping} {l : Nat} {f : au_field}
    {c1 c2 d1 d2 : aushape_conv_execve_coll} (hl : skipped_ahead E l c1 c2)
    (h2 : add_field E l f c2 = (aushape_rc.OK, d2))
    (h1 : add_field E l f c1 = (aushape_rc.OK, d1)) :
    skipped_ahead E l d1 d2 := by
  rcases hl with heq | ⟨hlt, hle, hskip⟩
  · subst heq
    rw [h2] at h1
    simp only [Prod.mk.injEq, true_and] at h1
    exact Or.inl h1.symm
  · have hnum : c2.arg_num = c1.arg_num := by rw [hskip]; rfl
    rw [add_field_eq] at h1 h2
    cases hk : f.kind with
    | unreadable => simp [hk] at h2
    | skipped =>
      simp only [hk, Prod.mk.injEq, true_and] at h1 h2
      subst h1
      subst h2
      exact Or.inr ⟨hlt, hle, hskip⟩
    | argc =>
      rw [hk] at h2
      have := (add_argc_ok h2).1
      omega
    | arg M =>
      rw [hk] at h1 h2
      obtain ⟨hlo2, _, v2, hv2, hd2⟩ := add_arg_ok h2
      obtain ⟨_, _, v1, hv1, hd1⟩ := add_arg_ok h1
      rw [hv2] at hv1
      simp only [Option.some.injEq] at hv1
      subst hv1
      refine Or.inl ?_
      rw [hd1, hd2]
      have hp := skip_to_push E l c1 c2.arg_idx M [[v2]] (by omega) hlo2
      rw [← hskip] at hp
      rw [hp]
    | arg_len M =>
      rw [hk] at h1 h2
      obtain ⟨hlo2, _, _, s2, n2, hs2, hn2, hd2⟩ := add_arg_len_ok h2
      obtain ⟨_, _, _, s1, n1, hs1, hn1, hd1⟩ := add_arg_len_ok h1
      rw [hs2] at hs1
      simp only [Option.some.injEq] at hs1
      subst hs1
      rw [hn2] at hn1
      simp only [Option.some.injEq] at hn1
      subst hn1
      refine Or.inl ?_
      rw [hd1, hd2]
      have hp := skip_to_push E l c1 c2.arg_idx M [] (by omega) hlo2
      rw [← hskip] at hp
      simp only [List.append_nil] at hp
      rw [hp]
    | arg_slice M K =>
      rw [hk] at h1 h2
      have e2 := (add_arg_slice_ok h2).1
      have e1 := (add_arg_slice_ok h1).1
      omega
    | unknown => simp [hk] at h2

theorem skipped_ahead_fields {E : aushape_escaping} {l : Nat} :
    ∀ {fs : List au_field} {c1 c2 d1 d2 : aushape_conv_execve_coll},
      skipped_ahead E l c1 c2 → add_fields E l fs c2 = (aushape_rc.OK, d2) →
      add_fields E l fs c1 = (aushape_rc.OK, d1) → skipped_ahead E l d1 d2 := by
  intro fs
  induction fs with
  | nil =>
    intro c1 c2 d1 d2 hl h2 h1
    simp only [add_fields, Prod.mk.injEq, true_and] at h1 h2
    subst h1
    subst h2
    exact hl
  | cons f rest ih =>
    intro c1 c2 d1 d2 hl h2 h1
    obtain ⟨e2, he2, hrest2⟩ := add_fields_cons_ok h2
    obtain ⟨e1, he1, hrest1⟩ := add_fields_cons_ok h1
    exact ih (skipped_ahead_step hl he2 he1) hrest2 hrest1

theorem skipped_ahead_end {E : aushape_escaping} {level : Nat} {pfirst : Bool}
    {c1 c2 t2 s2 : aushape_conv_execve_coll}
    (hl : skipped_ahead E (arg_level c1.format level) c1 c2)
    (hle1 : c1.arg_idx ≤ c1.arg_num) (hle2 : c2.arg_idx ≤ c2.arg_num)
    (h2 : end_run E c2 level pfirst = (aushape_rc.OK, s2))
    (h1 : end_run E c1 level pfirst = (aushape_rc.OK, t2)) : t2 = s2 := by
  rcases hl with heq | ⟨hlt, hle, hskip⟩
  · subst heq
    rw [h2] at h1
    simp only [Prod.mk.injEq, true_and] at h1
    exact h1.symm
  · rw [end_run_ok hle1 h1, end_run_ok hle2 h2]
    have hm := markup_skip E c1.format (arg_level c1.format level) c1.arg_idx c2.arg_idx
      c1.arg_num [] (by omega) hle
    simp only [List.append_nil] at hm
    rw [hskip]
    simp only [end_result, skip_to, push_args, List.append_assoc, hm]

theorem end_ok_iff {E : aushape_escaping} {level : Nat} {pfirst b : Bool}
    {c s : aushape_conv_execve_coll}
    (h : aushape_conv_execve_coll_end E c level pfirst = (aushape_rc.OK, s, b)) :
    end_run E c level pfirst = (aushape_rc.OK, s) ∧ b = false := by
  have hrun : end_run E c level pfirst = (aushape_rc.OK, s) := by
    have := congrArg (fun r => (r.1, r.2.1)) h
    simpa [aushape_conv_execve_coll_end] using this
  refine ⟨hrun, ?_⟩
  have := congrArg (fun r => r.2.2) h
  simpa [aushape_conv_execve_coll_end, hrun] using this.symm

/-- C27: omitting an argument and supplying it empty give the same result, for every
format (language, fold level) and nesting level. Let fields `pre` be accepted from a
valid collector, then a whole-argument field `a<N>` whose interpreted value is the
empty string and the fields `post`, and let the event be finalized with `OK`. Then
(1) whenever the sequence without the field `a<N>` is accepted and finalized with `OK`
as well, finalize leaves the same collector: the same argument buffer, the same final
`arg_idx`, the same output; (2) it is accepted and finalized with `OK`, with that same
collector, whenever the field `a<N>` arrives with no sliced argument in progress and
the buffers can always grow; (3) the arguments that finalize adds are empty arguments
rendered at the level `arg_level` at which the fields are consumed, level + 1 for XML
and level + 2 for JSON, and the final `arg_idx` is `arg_num`. -/
theorem omitted_argument_is_empty (E : aushape_escaping)
    (coll c s1 s2 : aushape_conv_execve_coll) (level N : Nat) (pfirst b : Bool)
    (pre post : List au_field) (a : au_field)
    (hk : a.kind = field_kind.arg N) (hv : a.interp = some [])
    (hvalid : aushape_conv_execve_coll_is_valid coll = true)
    (hpre : add_fields E (arg_level coll.format level) pre coll = (aushape_rc.OK, c))
    (hacc : add_fields E (arg_level coll.format level) (a :: post) c =
      (aushape_rc.OK, s1))
    (hend : aushape_conv_execve_coll_end E s1 level pfirst = (aushape_rc.OK, s2, b)) :
    (∀ (t1 t2 : aushape_conv_execve_coll) (b2 : Bool),
      add_fields E (arg_level coll.format level) (pre ++ post) coll =
        (aushape_rc.OK, t1) →
      aushape_conv_execve_coll_end E t1 level pfirst = (aushape_rc.OK, t2, b2) →
      t2 = s2 ∧ b2 = b ∧ t2.args = s2.args ∧ t2.arg_idx = s2.arg_idx) ∧
    (c.got_len = false → c.args.room = none → c.gbuf.room = none →
      ∃ t1, add_fields E (arg_level coll.format level) (pre ++ post) coll =
          (aushape_rc.OK, t1) ∧
        aushape_conv_execve_coll_end E t1 level pfirst = (aushape_rc.OK, s2, b)) ∧
    (s2.args.ptr = s1.args.ptr ++
        args_markup E coll.format (arg_level coll.format level) s1.arg_idx
          (List.replicate (s1.arg_num - s1.arg_idx) [[]]) ∧
      s2.arg_idx = s1.arg_num ∧
      arg_level coll.format level =
        (match coll.format.lang with
          | aushape_lang.XML => level + 1
          | aushape_lang.JSON => level + 2)) := by
  obtain ⟨ca, hca, hpost⟩ := add_fields_cons_ok hacc
  have hfmt : c.format = coll.format := (add_fields_ok_frame hpre).1
  have hvc : aushape_conv_execve_coll_is_valid c = true := by
    have := add_fields_valid E (arg_level coll.format level) pre coll hvalid
    rw [hpre] at this
    exact this
  have hvs : aushape_conv_execve_coll_is_valid s1 = true := by
    have := add_fields_valid E (arg_level coll.format level) (a :: post) c hvc
    rw [hacc] at this
    exact this
  have hle : s1.arg_idx ≤ s1.arg_num := ((is_valid_iff s1).mp hvs).2.2.1
  obtain ⟨hrun, hb⟩ := end_ok_iff hend
  rw [add_field_eq, hk] at hca
  obtain ⟨hlo, hhi, v, hv2, hd⟩ := add_arg_ok hca
  rw [hv] at hv2
  simp only [Option.some.injEq] at hv2
  subst hv2
  have hidx : ca.arg_idx = N + 1 := by rw [hd]
  have hskip : ca = skip_to E (arg_level coll.format level) c ca.arg_idx := by
    rw [hidx, hd]
    unfold skip_to
    have hN : N + 1 - c.arg_idx = (N - c.arg_idx) + 1 := by omega
    rw [hN, List.replicate_succ']
  refine ⟨?_, ?_, ?_, ?_, ?_⟩
  · intro t1 t2 b2 ht hend2
    obtain ⟨c0, hc0, ht1⟩ := add_fields_ok_append ht
    rw [hpre] at hc0
    simp only [Prod.mk.injEq, true_and] at hc0
    subst hc0
    obtain ⟨hrun2, hb2⟩ := end_ok_iff hend2
    have hvt : aushape_conv_execve_coll_is_valid t1 = true := by
      have := add_fields_valid E (arg_level coll.format level) post c hvc
      rw [ht1] at this
      exact this
    have hlet : t1.arg_idx ≤ t1.arg_num := ((is_valid_iff t1).mp hvt).2.2.1
    have hl : skipped_ahead E (arg_level coll.format level) c ca :=
      Or.inr ⟨by omega, by omega, hskip⟩
    have hl2 := skipped_ahead_fields hl hpost ht1
    have hft : t1.format = coll.format := by rw [(add_fields_ok_frame ht1).1, hfmt]
    rw [← hft] at hl2
    have := skipped_ahead_end hl2 hlet hle hrun hrun2
    subst this
    exact ⟨rfl, by rw [hb, hb2], rfl, rfl⟩
  · intro hgl hroom hg
    have hl : lags E (arg_level coll.format level) c ca :=
      Or.inr ⟨hgl, hroom, by omega, by omega, hskip⟩
    obtain ⟨t1, ht1, hlt⟩ := lags_fields hl hpost
    refine ⟨t1, ?_, ?_⟩
    · rw [add_fields_append, hpre, guard_rc_of_ok]
      exact ht1
    · have hft : t1.format = c.format := (add_fields_ok_frame ht1).1
      have hgt : t1.gbuf.room = none := by rw [(add_fields_ok_frame ht1).2.2.1]; exact hg
      have hlt2 : lags E (arg_level t1.format level) t1 s1 := by
        rw [hft, hfmt]; exact hlt
      have hrun1 := lags_end hlt2 hgt hle hrun
      simp [aushape_conv_execve_coll_end, hrun1, hb]
  · have hfs : s1.format = coll.format := by rw [(add_fields_ok_frame hacc).1, hfmt]
    rw [end_run_ok hle hrun]
    simp only [end_result, hfs]
  · rw [end_run_ok hle hrun]
    simp only [end_result]
  · unfold arg_level
    rfl

/-- C27, witness: after `argc=3 a0=x` the fields `a1= a2=y` and the field `a2=y` alone
leave, once finalized, the same collector, with the arguments `"x","","y"`. -/
theorem omitted_argument_is_empty_witness :
    (aushape_conv_execve_coll_end escaping_id
        (add_fields escaping_id 2 (fields_before_empty ++ [field_of "a2" "y" "y"])
          (coll_zero format_json0)).2 0 true).2.1 =
      (aushape_conv_execve_coll_end escaping_id
        (add_fields escaping_id 2
          (fields_before_empty ++ [field_of "a1" "" "", field_of "a2" "y" "y"])
          (coll_zero format_json0)).2 0 true).2.1 ∧
    (aushape_conv_execve_coll_end escaping_id
        (add_fields escaping_id 2 (fields_before_empty ++ [field_of "a2" "y" "y"])
          (coll_zero format_json0)).2 0 true).2.1.args.ptr =
      "\"x\",\"\",\"y\"".toList :=
  ⟨((omitted_argument_is_empty escaping_id (coll_zero format_json0)
      (add_fields escaping_id 2 fields_before_empty (coll_zero format_json0)).2
      (add_fields escaping_id 2
        (fields_before_empty ++ [field_of "a1" "" "", field_of "a2" "y" "y"])
        (coll_zero format_json0)).2
      (aushape_conv_execve_coll_end escaping_id
        (add_fields escaping_id 2
          (fields_before_empty ++ [field_of "a1" "" "", field_of "a2" "y" "y"])
          (coll_zero format_json0)).2 0 true).2.1
      0 1 true false fields_before_empty [field_of "a2" "y" "y"] (field_of "a1" "" "")
      (by decide) rfl (by decide) (by rfl) (by rfl) (by rfl)).1
      (add_fields escaping_id 2 (fields_before_empty ++ [field_of "a2" "y" "y"])
        (coll_zero format_json0)).2
      (aushape_conv_execve_coll_end escaping_id
        (add_fields escaping_id 2 (fields_before_empty ++ [field_of "a2" "y" "y"])
          (coll_zero format_json0)).2 0 true).2.1
      false (by rfl) (by rfl)).1,
   by decide⟩

end Aushape
